import Mathlib

/-!
RTL-spec sensor pipeline: a shallow embedding of `src/sensor/Sensor.c`

The development embeds the signal-processing stages (sampling/windowing, FFT batching,
averaging, dumping), the hopping-strategy planners with the similarity history, and the
event loop of the monitoring controller of `Sensor.c` as Lean functions and proves
properties of them.

Conventions used throughout:

* a C array reached through a pointer (`samples`, `iq_buf`) is an index map `Nat → _`;
  arrays whose length is part of the data (the sweep plan, queues) are lists;
* `unsigned int` values are `Nat`, reduced modulo `2 ^ 32` where the C code can wrap;
* `float`/`double` values are taken in exact arithmetic: `ℚ` for configuration values, an
  arbitrary field `α` for sample payloads; a conversion to `unsigned int` truncates;
  `sqrt`, `expf`, `logf` and the cosine are parameters of the definitions that call them and
  are instantiated with the real functions in the theorems that need their values;
* a stage's input queue is the finite list of Items it delivers before `empty && exit`
  is observed, its (single) output queue is the list of Items inserted, oldest first.
-/

namespace Sensor

/-! ## Data model -/

/-- Modelled from the spec: the `Item` record of `include/ITE.h`, which is not part of the
sources at hand; the fields are exactly those `Sensor.c` reads or writes. `samples` is the
payload buffer, `samples_size` its size in bytes. -/
structure Item (α : Type) where
  Fc : Nat
  Ts_sec : Nat
  Ts_usec : Nat
  samples_size : Nat
  samples : Nat → α
  hopping_strategy_id : Int
  window_fun_id : Int
  gain : ℚ
  samp_rate : Nat
  log2_fft_size : Nat
  avg_index : Nat
  avg_factor : Nat
  freq_overlap : ℚ
  soverlap : Nat
  freq_res : ℚ

/-- The width of `unsigned int` on the target: values wrap modulo `2 ^ 32`. -/
def UINT_MOD : Nat := 2 ^ 32

/-- Conversion of a non-integral value to `unsigned int`: truncation, then reduction to 32
bits (the conversion of a negative or too large value is undefined in C; the model sends
negative values to `0`). -/
def to_uint (x : ℚ) : Nat := ⌊x⌋₊ % UINT_MOD

/-- `sizeof(float)`. -/
def SIZEOF_FLOAT : Nat := 4

/-! ## FFT stage (`fft`, lines 1827-2125) -/

/-- A call made to the external FFT engine (`include/FFT.h`). -/
inductive FFTCall where
  | release
  | init (log2_fft_size : Nat) (batchlen : Nat)
  | forward (batch_cnt : Nat)
  deriving DecidableEq, Repr

/-- Local state of the `fft` thread. The slot arrays `its`, `batch_in`, `batch_out` are
represented by the list of the Items in slots `0 .. batch_cnt-1` (the I/Q buffer in slot
`i` is `its[i].samples`), so `batch_cnt` is the length of `its`. `engine` is the argument
pair of the latest `FFT_initialize` (none before the first one and after a release),
`calls` the engine calls made so far, `qout` the Items inserted into the output queue. -/
structure FFTState (α : Type) where
  prev_log2_fft_size : Nat
  its : List (Item α)
  engine : Option (Nat × Nat)
  calls : List FFTCall
  qout : List (Item α)

/-- The slot counter `batch_cnt`. -/
def FFTState.batch_cnt {α : Type} (s : FFTState α) : Nat := s.its.length

/-- State of the `fft` thread when it enters its loop. -/
def fft_init {α : Type} : FFTState α :=
  { prev_log2_fft_size := 0, its := [], engine := none, calls := [], qout := [] }

/-- The "write items to output queue" loop `for(i=0; i<n; ++i)` that follows each
`FFT_forward`: slot `i` gets its byte size halved and its payload replaced by the output
buffer `batch_out[i]`, and is inserted into the output queue. `FFT_forward engine ins i` is
the content the engine left in output buffer `i`. -/
def fft_write_items {α : Type}
    (FFT_forward : Option (Nat × Nat) → List (Nat → α) → Nat → (Nat → α))
    (engine : Option (Nat × Nat)) (its : List (Item α)) (n : Nat) : List (Item α) :=
  (List.range n).filterMap fun i =>
    its[i]?.map fun it =>
      { it with samples_size := it.samples_size / 2,
                samples := FFT_forward engine (its.map Item.samples) i }

/-- The block run for a batch that is smaller than `fft_batchlen` (on a size change and on
upstream exit): release, initialise for `batch_cnt` jobs, forward, write the items. The
caller resets `batch_cnt`. -/
def fft_flush {α : Type}
    (FFT_forward : Option (Nat × Nat) → List (Nat → α) → Nat → (Nat → α))
    (s : FFTState α) : FFTState α :=
  let engine := some (s.prev_log2_fft_size, s.batch_cnt)
  { s with
    engine := engine
    calls := s.calls ++ [FFTCall.release,
      FFTCall.init s.prev_log2_fft_size s.batch_cnt, FFTCall.forward s.batch_cnt]
    qout := s.qout ++ fft_write_items FFT_forward engine s.its s.batch_cnt }

/-- One iteration of the `while(1)` loop of `fft` for an Item `iin` removed from the input
queue (lines 1944-2100). -/
def fft_step {α : Type}
    (FFT_forward : Option (Nat × Nat) → List (Nat → α) → Nat → (Nat → α))
    (fft_batchlen : Nat) (s : FFTState α) (iin : Item α) : FFTState α :=
  let log2_fft_size := iin.log2_fft_size
  -- FFT size changes
  let s1 : FFTState α :=
    if s.prev_log2_fft_size ≠ log2_fft_size then
      let s0 : FFTState α :=
        if s.batch_cnt > 0 then { fft_flush FFT_forward s with its := [] } else s
      { s0 with
        engine := some (log2_fft_size, fft_batchlen)
        calls := s0.calls ++ [FFTCall.release, FFTCall.init log2_fft_size fft_batchlen]
        prev_log2_fft_size := log2_fft_size }
    else s
  -- Process items in batches
  let s2 : FFTState α := { s1 with its := s1.its ++ [iin] }
  if s2.batch_cnt ≥ fft_batchlen then
    { s2 with
      calls := s2.calls ++ [FFTCall.forward s2.batch_cnt]
      qout := s2.qout ++ fft_write_items FFT_forward s2.engine s2.its fft_batchlen
      its := [] }
  else s2

/-- The branch taken when the input queue is empty and its `exit` flag is set
(lines 1871-1939): flush the residual batch, release the engine. -/
def fft_exit {α : Type}
    (FFT_forward : Option (Nat × Nat) → List (Nat → α) → Nat → (Nat → α))
    (s : FFTState α) : FFTState α :=
  let s1 : FFTState α := if s.batch_cnt > 0 then fft_flush FFT_forward s else s
  { s1 with engine := none, calls := s1.calls ++ [FFTCall.release] }

/-- The `fft` thread run on the Items `input` followed by upstream exit. -/
def fft {α : Type}
    (FFT_forward : Option (Nat × Nat) → List (Nat → α) → Nat → (Nat → α))
    (fft_batchlen : Nat) (input : List (Item α)) : FFTState α :=
  fft_exit FFT_forward (input.foldl (fft_step FFT_forward fft_batchlen) fft_init)

/-- An output Item `out` is the input Item `iin` as the FFT stage hands it on: every field
is that of `iin` except the payload, which is a magnitude buffer, and its byte size, which
is halved. -/
def fft_processed {α : Type} (iin out : Item α) : Prop :=
  ∃ dB_samples : Nat → α,
    out = { iin with samples_size := iin.samples_size / 2, samples := dB_samples }


/-- Loop invariant of `fft`: the Items read so far are those already written to the output
queue followed by the pending slots, and the batch is not full. -/
def fft_inv {α : Type} (fft_batchlen : Nat) (pre : List (Item α)) (s : FFTState α) : Prop :=
  ∃ done : List (Item α), pre = done ++ s.its ∧ List.Forall₂ fft_processed done s.qout ∧
    s.its.length < fft_batchlen

/-! ## Averaging stage (`averaging`, lines 2127-2280) -/

/-- The local variables of `averaging` while it is inside the loop `for(i=1; i<avg_index; ++i)`:
the accumulator Item `iout`, the group's `avg_index` and `fft_size`, and the loop counter. -/
structure AvgGroup (α : Type) where
  iout : Item α
  avg_index : Nat
  fft_size : Nat
  i : Nat

/-- State of the `averaging` thread between two reads of its input queue: `cur` is none when
the next read is the one at the top of the `while(1)` loop (line 2169) and holds the group in
progress when the next read is the one inside the `for` loop (line 2197); `qout` is the
output queue; `aborted` records a failed `assert` (the process is gone). -/
structure AvgState (α : Type) where
  cur : Option (AvgGroup α)
  qout : List (Item α)
  aborted : Bool

/-- State of the `averaging` thread when it enters its loop. -/
def averaging_init {α : Type} : AvgState α := { cur := none, qout := [], aborted := false }

/-- The loop test `i < avg_index` of the inner `for`, followed either by another pass (the
next Item read belongs to the group) or by the insertion of `iout` into the output queue. -/
def averaging_continue {α : Type} (s : AvgState α) (g : AvgGroup α) : AvgState α :=
  if g.i < g.avg_index then { s with cur := some g }
  else { s with cur := none, qout := s.qout ++ [g.iout] }

/-- The effect of reading one Item `iin` from the input queue. At the top of the outer loop
the Item becomes the accumulator and its first `fft_size` samples are divided by its
`avg_index`; inside the inner loop its `avg_index` is asserted to be `avg_index - i` and its
samples, divided by `avg_index`, are added to the accumulator. -/
def averaging_step {α : Type} [Field α] (s : AvgState α) (iin : Item α) : AvgState α :=
  if s.aborted then s
  else
    match s.cur with
    | none =>
      let avg_index := iin.avg_index
      let fft_size := 1 <<< iin.log2_fft_size
      let iout : Item α :=
        { iin with samples := fun j =>
            if j < fft_size then iin.samples j / (avg_index : α) else iin.samples j }
      averaging_continue s { iout := iout, avg_index := avg_index, fft_size := fft_size, i := 1 }
    | some g =>
      if iin.avg_index = g.avg_index - g.i then
        let iout : Item α :=
          { g.iout with samples := fun j =>
              if j < g.fft_size then g.iout.samples j + iin.samples j / (g.avg_index : α)
              else g.iout.samples j }
        averaging_continue s { g with iout := iout, i := g.i + 1 }
      else { s with aborted := true }

/-- The `averaging` thread run from state `s` on the Items `input` followed by upstream
exit. On exit (`goto EXIT`, lines 2160-2163 and 2188-2191) nothing is inserted: a group in
progress stays in `cur` and never reaches the output queue. -/
def averaging_from {α : Type} [Field α] (s : AvgState α) (input : List (Item α)) : AvgState α :=
  input.foldl averaging_step s

/-- The `averaging` thread run on the Items `input` followed by upstream exit. -/
def averaging {α : Type} [Field α] (input : List (Item α)) : AvgState α :=
  averaging_from averaging_init input

/-- The Item `first` carrying, in its first `fft_size` samples, the per-bin mean over the
Items of `group`; every other field is that of `first`. -/
def averaged {α : Type} [Field α] (first : Item α) (group : List (Item α)) : Item α :=
  { first with samples := fun j =>
      if j < 1 <<< first.log2_fft_size then
        (group.map fun it => it.samples j).sum / (group.length : α)
      else first.samples j }

/-- Concrete Items over `ℚ` used to evaluate the stages: all metadata fixed except the
center frequency, the FFT size and the averaging index. -/
def sample_item (Fc log2_fft_size avg_index : Nat) (samples : Nat → ℚ) : Item ℚ :=
  { Fc := Fc, Ts_sec := 0, Ts_usec := 0, samples_size := (1 <<< log2_fft_size) * 2 * SIZEOF_FLOAT,
    samples := samples, hopping_strategy_id := 0, window_fun_id := 0, gain := 0,
    samp_rate := 1000000, log2_fft_size := log2_fft_size, avg_index := avg_index,
    avg_factor := 3, freq_overlap := 0, soverlap := 0, freq_res := 0 }


/-! ## Sampling and windowing stage (`sampling_windowing`, lines 1520-1825) -/

/-- The three window functions a `window_fun_ptr_t` of the program can point to. -/
inductive WindowFun where
  | rectangular_window
  | hanning_window
  | blackman_harris_4_window
  deriving DecidableEq, Repr

/-- The value `window_fun(n, N)` of the window function behind a pointer (lines 840-855).
`cos2pi x` stands for `cos(2*M_PI*x)`. -/
def WindowFun.apply {α : Type} [Field α] (cos2pi : ℚ → α) : WindowFun → Int → Int → α
  | .rectangular_window, _, _ => 1
  | .hanning_window, n, N => (1 / 2 : α) * (1 - cos2pi ((n : ℚ) / ((N - 1 : Int) : ℚ)))
  | .blackman_harris_4_window, n, N =>
    ((35875 / 100000 : ℚ) : α) - ((48829 / 100000 : ℚ) : α) * cos2pi ((n : ℚ) / ((N - 1 : Int) : ℚ))
      + ((14128 / 100000 : ℚ) : α) * cos2pi (2 * (n : ℚ) / ((N - 1 : Int) : ℚ))
      - ((1168 / 100000 : ℚ) : α) * cos2pi (3 * (n : ℚ) / ((N - 1 : Int) : ℚ))

/-- The sweep description held in `SamplingWindowingCTX` (lines 144-159), as copied by the
thread at the start of a request. -/
structure SamplingWindowingCTX where
  length : Nat
  samp_rates : List Nat
  log2_fft_sizes : List Nat
  avg_factors : List Nat
  soverlaps : List Nat
  center_freqs : List Nat
  hopping_strategy_id : Int
  window_fun_id : Int
  clk_off : Int
  gain : ℚ
  freq_overlaps : List ℚ
  window_funs : List WindowFun

/-- A call made to the SDR device (`include/SDR.h`). -/
inductive SDRCall where
  | set_freq_correction (clk_off : Int)
  | set_sample_rate (samp_rate : Nat)
  | retune (center_freq : Nat)
  | read (slen : Nat)
  deriving DecidableEq, Repr

/-- Local state of the `sampling_windowing` thread that survives from hop to hop and from
sweep to sweep, with the SDR calls made and the output queue. -/
structure SamplingState (α : Type) where
  slen : Nat
  prev_samp_rate : Nat
  prev_fft_size : Nat
  prev_avg_factor : Nat
  prev_soverlap : Nat
  prev_center_freq : Nat
  sdr : List SDRCall
  qout : List (Item α)

/-- State of the `sampling_windowing` thread when it enters its loop. -/
def sampling_init {α : Type} : SamplingState α :=
  { slen := 0, prev_samp_rate := 0, prev_fft_size := 0, prev_avg_factor := 0,
    prev_soverlap := 0, prev_center_freq := 0, sdr := [], qout := [] }

/-- Subtraction of `unsigned int` values. -/
def usub (a b : Nat) : Nat := (a % UINT_MOD + UINT_MOD - b % UINT_MOD) % UINT_MOD

/-- The Item built for segment `j` of a hop (lines 1686-1719): metadata, then DC removal and
windowing of the `2*fft_size` interleaved bytes of `iq_buf` that start at
`j*(fft_size-soverlap)*2`. Slots of `samples` past `2*fft_size` do not exist; the model
holds `0` there. The loop runs `j` below `avg_factor`, so `avg_factor - j` does not wrap. -/
def sampling_segment {α : Type} [Field α] (cos2pi : ℚ → α) (ctx : SamplingWindowingCTX)
    (tv : Nat × Nat) (iq_buf : Nat → Nat)
    (samp_rate log2_fft_size fft_size avg_factor soverlap center_freq : Nat)
    (freq_overlap : ℚ) (window_fun : WindowFun) (j : Nat) : Item α :=
  let off := (j * usub fft_size soverlap * 2) % UINT_MOD
  let i_mean : α :=
    ((List.range fft_size).map fun k => ((iq_buf ((2 * k + off) % UINT_MOD) : Nat) : α)).sum
      / (fft_size : α)
  let q_mean : α :=
    ((List.range fft_size).map fun k => ((iq_buf ((2 * k + 1 + off) % UINT_MOD) : Nat) : α)).sum
      / (fft_size : α)
  { Fc := center_freq
    Ts_sec := tv.1 % UINT_MOD
    Ts_usec := tv.2 % UINT_MOD
    samples_size := fft_size * 2 * SIZEOF_FLOAT
    samples := fun n =>
      if n < fft_size * 2 then
        if n % 2 = 0 then
          (((iq_buf ((n + off) % UINT_MOD) : Nat) : α) - i_mean)
            * window_fun.apply cos2pi (n : Int) (fft_size : Int)
        else
          (((iq_buf ((n + off) % UINT_MOD) : Nat) : α) - q_mean)
            * window_fun.apply cos2pi ((n : Int) - 1) (fft_size : Int)
      else 0
    hopping_strategy_id := ctx.hopping_strategy_id
    window_fun_id := ctx.window_fun_id
    gain := ctx.gain
    samp_rate := samp_rate
    log2_fft_size := log2_fft_size
    avg_index := avg_factor - j
    avg_factor := avg_factor
    freq_overlap := freq_overlap
    soverlap := soverlap
    freq_res := 0 }

/-- One pass of the frequency-hopping loop `for(i=0; i<length; ++i)` (lines 1634-1769):
resize the read length when the segmentation changed, set the sample rate and retune when
they changed, read, and insert one Item per segment `j = 0 .. avg_factor-1`.
`gettimeofday i` is the time stamp taken at hop `i`, `SDR_read i` the content of `iq_buf`
after the read of hop `i`. -/
def sampling_hop {α : Type} [Field α] (cos2pi : ℚ → α) (ctx : SamplingWindowingCTX)
    (gettimeofday : Nat → Nat × Nat) (SDR_read : Nat → Nat → Nat)
    (s : SamplingState α) (i : Nat) : SamplingState α :=
  let samp_rate := ctx.samp_rates.getD i 0
  let fft_size := (1 <<< ctx.log2_fft_sizes.getD i 0) % UINT_MOD
  let avg_factor := ctx.avg_factors.getD i 0
  let soverlap := ctx.soverlaps.getD i 0
  let center_freq := ctx.center_freqs.getD i 0
  let freq_overlap := ctx.freq_overlaps.getD i 0
  let window_fun := ctx.window_funs.getD i WindowFun.rectangular_window
  -- Buffer to store I/Q sample stream
  let s1 : SamplingState α :=
    if s.prev_fft_size ≠ fft_size ∨ s.prev_avg_factor ≠ avg_factor ∨ s.prev_soverlap ≠ soverlap then
      let slen := (((usub fft_size soverlap * avg_factor) % UINT_MOD + soverlap) * 2) % UINT_MOD
      let slen := if slen % 512 ≠ 0 then (slen + (512 - slen % 512)) % UINT_MOD else slen
      { s with slen := slen, prev_fft_size := fft_size, prev_avg_factor := avg_factor,
               prev_soverlap := soverlap }
    else s
  let s2 : SamplingState α :=
    if samp_rate ≠ s1.prev_samp_rate then
      { s1 with sdr := s1.sdr ++ [SDRCall.set_sample_rate samp_rate], prev_samp_rate := samp_rate }
    else s1
  let s3 : SamplingState α :=
    if center_freq ≠ s2.prev_center_freq then
      { s2 with sdr := s2.sdr ++ [SDRCall.retune center_freq], prev_center_freq := center_freq }
    else s2
  let s4 : SamplingState α := { s3 with sdr := s3.sdr ++ [SDRCall.read s3.slen] }
  -- Segmentation, DC removal and windowing
  let items : List (Item α) := (List.range avg_factor).map fun j =>
    sampling_segment cos2pi ctx (gettimeofday i) (SDR_read i) samp_rate
      (ctx.log2_fft_sizes.getD i 0) fft_size avg_factor soverlap center_freq freq_overlap
      window_fun j
  { s4 with qout := s4.qout ++ items }

/-- One request served by `sampling_windowing` (lines 1597-1775): one sweep over the plan
in `ctx`. -/
def sampling_sweep {α : Type} [Field α] (cos2pi : ℚ → α) (ctx : SamplingWindowingCTX)
    (gettimeofday : Nat → Nat × Nat) (SDR_read : Nat → Nat → Nat)
    (s : SamplingState α) : SamplingState α :=
  (List.range ctx.length).foldl (sampling_hop cos2pi ctx gettimeofday SDR_read)
    { s with sdr := s.sdr ++ [SDRCall.set_freq_correction ctx.clk_off] }

/-! ## Dumping stage (`dumping`, lines 2282-2366) -/

/-- One line `ts_sec,ts_usec,freq_hz,power_db` written to stdout. -/
structure DumpLine (α : Type) where
  Ts_sec : Nat
  Ts_usec : Nat
  freq : Nat
  power : α

/-- The number of lines written for an Item (line 2335), the product taken in exact
arithmetic and truncated; the source forms it in binary32, which can give a neighbouring
integer when `freq_overlap` is not 0. -/
def dumping_reduced_fft_size {α : Type} (iin : Item α) : Nat :=
  let fft_size := (1 <<< iin.log2_fft_size) % UINT_MOD
  to_uint ((1 - iin.freq_overlap) * (((fft_size + 1) % UINT_MOD : Nat) : ℚ))

/-- The lines written for one Item removed from the input queue (lines 2328-2351); `freq`
is the value of line 2349 in exact arithmetic, truncated. -/
def dumping_item {α : Type} (iin : Item α) : List (DumpLine α) :=
  let center_freq := iin.Fc
  let fft_size := (1 <<< iin.log2_fft_size) % UINT_MOD
  let reduced_fft_size := dumping_reduced_fft_size iin
  let freq_res : ℚ := (iin.samp_rate : ℚ) / (fft_size : ℚ)
  let t : Int := ((reduced_fft_size / 2 : Nat) : Int)
  (List.range reduced_fft_size).map fun (i : Nat) =>
    { Ts_sec := iin.Ts_sec, Ts_usec := iin.Ts_usec,
      freq := to_uint ((center_freq : ℚ) - ((t - (i : Int) : Int) : ℚ) * freq_res),
      power := iin.samples i }

/-- The `dumping` thread run on the Items `input` followed by upstream exit: all lines
written, in order. -/
def dumping {α : Type} (input : List (Item α)) : List (DumpLine α) :=
  input.flatMap dumping_item

/-! ## Hopping strategies (`monitoring_logic`, lines 787-1478) -/

/-- The fields of `SpectrumMonitoringCTX` (lines 119-137) read by `monitoring_logic`. -/
structure SpectrumMonitoringCTX where
  min_freq : Nat
  max_freq : Nat
  samp_rate : Nat
  log2_fft_size : Nat
  avg_factor : Nat
  soverlap : Nat
  monitor_time : Nat
  min_time_res : Nat
  number_of_sample_runs : Nat
  fft_batchlen : Nat
  hopping_strategy_id : Int
  window_fun_id : Int
  dev_index : Int
  clk_off : Int
  gain : ℚ
  freq_overlap : ℚ

/-- The local variables of `monitoring_logic` that hold the sweep plan (lines 796-809). -/
structure HoppingPlan where
  clk_off : Int
  length : Nat
  full_length : Nat
  samp_rates : List Nat
  log2_fft_sizes : List Nat
  avg_factors : List Nat
  soverlaps : List Nat
  center_freqs : List Nat
  full_center_freqs : List Nat
  freq_overlaps : List ℚ
  window_funs : List WindowFun
  deriving DecidableEq, Repr

/-- The plan variables as initialised at lines 802-809: no plan yet. -/
def plan_init : HoppingPlan :=
  { clk_off := 0, length := 0, full_length := 0, samp_rates := [], log2_fft_sizes := [],
    avg_factors := [], soverlaps := [], center_freqs := [], full_center_freqs := [],
    freq_overlaps := [], window_funs := [] }

def HANNING_WINDOW : Int := 1

def BLACKMAN_HARRIS_WINDOW : Int := 2

/-- The selection of the window function from `window_fun_id` (lines 908-911). -/
def select_window_fun (window_fun_id : Int) : WindowFun :=
  if window_fun_id = HANNING_WINDOW then WindowFun.hanning_window
  else if window_fun_id = BLACKMAN_HARRIS_WINDOW then WindowFun.blackman_harris_4_window
  else WindowFun.rectangular_window

/-- `freq_step = (1 - freq_overlap) * samp_rate` (line 879), the product taken in exact
arithmetic and truncated; the source forms it in binary32, which can give a neighbouring
integer when `freq_overlap` is not 0. -/
def hopping_freq_step (ctx : SpectrumMonitoringCTX) : Nat :=
  to_uint ((1 - ctx.freq_overlap) * (ctx.samp_rate : ℚ))

/-- `length = (max_freq - min_freq + 1e6) / freq_step` (line 880). -/
def hopping_length (ctx : SpectrumMonitoringCTX) : Nat :=
  to_uint (((usub ctx.max_freq ctx.min_freq : ℚ) + 1000000) / (hopping_freq_step ctx : ℚ))

/-- The loop `for(i=1; i<length; ++i) center_freqs[i] = center_freqs[i-1] + freq_step`
(line 901): the entries that follow an entry `prev`, `n` of them. -/
def center_freqs_loop (freq_step : Nat) : Nat → Nat → List Nat
  | 0, _ => []
  | n + 1, prev =>
    (prev + freq_step) % UINT_MOD :: center_freqs_loop freq_step n ((prev + freq_step) % UINT_MOD)

/-- The array `center_freqs` after lines 899-901. Only the `length` allocated slots are
kept: with `length = 0` the store to `center_freqs[0]` has no slot to go to. -/
def sequential_center_freqs (ctx : SpectrumMonitoringCTX) (length : Nat) : List Nat :=
  let freq_step := hopping_freq_step ctx
  let c0 := to_uint ((ctx.min_freq : ℚ) + (1 / 2 : ℚ) * (freq_step : ℚ))
  (c0 :: center_freqs_loop freq_step (length - 1) c0).take length

/-- `sequential_hopping_strategy` (lines 864-916): refresh `clk_off`; compute the plan if
there is none yet (`length <= 0`). -/
def sequential_hopping_strategy (ctx : SpectrumMonitoringCTX) (p : HoppingPlan) : HoppingPlan :=
  let p := { p with clk_off := ctx.clk_off }
  if p.length ≤ 0 then
    let length := hopping_length ctx
    { p with
      length := length
      samp_rates := List.replicate length ctx.samp_rate
      log2_fft_sizes := List.replicate length ctx.log2_fft_size
      avg_factors := List.replicate length ctx.avg_factor
      soverlaps := List.replicate length ctx.soverlap
      center_freqs := sequential_center_freqs ctx length
      freq_overlaps := List.replicate length ctx.freq_overlap
      window_funs := List.replicate length (select_window_fun ctx.window_fun_id) }
  else p

/-- The update of the sampling/windowing context after the planner ran (lines 1370-1381);
`gain` was set when the context was created (line 1273). -/
def publish_plan (ctx : SpectrumMonitoringCTX) (p : HoppingPlan) : SamplingWindowingCTX :=
  { length := p.length, samp_rates := p.samp_rates, log2_fft_sizes := p.log2_fft_sizes,
    avg_factors := p.avg_factors, soverlaps := p.soverlaps, center_freqs := p.center_freqs,
    hopping_strategy_id := ctx.hopping_strategy_id, window_fun_id := ctx.window_fun_id,
    clk_off := p.clk_off, gain := ctx.gain, freq_overlaps := p.freq_overlaps,
    window_funs := p.window_funs }

/-- Configuration of scenario 1: `100000000 101000000 -y sequential -s 1000000 -f 4 -a 1
-o 0 -q 0 -w rectangular -x 1`, other options at their defaults. -/
def scenario1_ctx : SpectrumMonitoringCTX :=
  { min_freq := 100000000, max_freq := 101000000, samp_rate := 1000000, log2_fft_size := 4,
    avg_factor := 1, soverlap := 0, monitor_time := 0, min_time_res := 0,
    number_of_sample_runs := 1, fft_batchlen := 10, hopping_strategy_id := 0,
    window_fun_id := 0, dev_index := 0, clk_off := 0, gain := 164 / 5, freq_overlap := 0 }

/-- The Item the averaging stage hands to the dumping stage in scenario 1 for the center
frequency 100.5 MHz: `log2_fft_size = 4`, so the FFT stage gave it a payload of 16
magnitudes (64 bytes); the payload content plays no role. -/
def scenario1_item : Item ℚ :=
  { Fc := 100500000, Ts_sec := 0, Ts_usec := 0, samples_size := 64, samples := fun _ => 0,
    hopping_strategy_id := 0, window_fun_id := 0, gain := 164 / 5, samp_rate := 1000000,
    log2_fft_size := 4, avg_index := 1, avg_factor := 1, freq_overlap := 0, soverlap := 0,
    freq_res := 0 }

/-- Scenario 1 with the default sample rate of 2.4 MHz and a band of zero width at
100 MHz: `100000000 100000000 -y sequential -q 0`. -/
def narrow_band_ctx : SpectrumMonitoringCTX :=
  { scenario1_ctx with samp_rate := 2400000, min_freq := 100000000, max_freq := 100000000 }

/-- Scenario 1 with the default sample rate of 2.4 MHz and the band 100 MHz - 103 MHz:
`100000000 103000000 -y sequential -q 0`. -/
def wide_step_ctx : SpectrumMonitoringCTX :=
  { scenario1_ctx with samp_rate := 2400000, min_freq := 100000000, max_freq := 103000000 }

/-- The Items inserted during hop `i` of a sweep: one per segment, in segment order. -/
def sampling_hop_items {α : Type} [Field α] (cos2pi : ℚ → α) (ctx : SamplingWindowingCTX)
    (gettimeofday : Nat → Nat × Nat) (SDR_read : Nat → Nat → Nat) (i : Nat) : List (Item α) :=
  (List.range (ctx.avg_factors.getD i 0)).map fun j =>
    sampling_segment cos2pi ctx (gettimeofday i) (SDR_read i) (ctx.samp_rates.getD i 0)
      (ctx.log2_fft_sizes.getD i 0) ((1 <<< ctx.log2_fft_sizes.getD i 0) % UINT_MOD)
      (ctx.avg_factors.getD i 0) (ctx.soverlaps.getD i 0) (ctx.center_freqs.getD i 0)
      (ctx.freq_overlaps.getD i 0) (ctx.window_funs.getD i WindowFun.rectangular_window) j

/-! ## Random planner (`random_hopping_strategy`, lines 926-985) -/

/-- `resolution = samp_rate / (1 << log2_fft_size)` (line 980). -/
def random_resolution (ctx : SpectrumMonitoringCTX) : Nat :=
  ctx.samp_rate / ((1 <<< ctx.log2_fft_size) % UINT_MOD)

/-- `min_f = (min_freq + 0.5*freq_step) / resolution` (line 982). -/
def random_min_f (ctx : SpectrumMonitoringCTX) : Nat :=
  to_uint (((ctx.min_freq : ℚ) + (1 / 2 : ℚ) * (hopping_freq_step ctx : ℚ))
    / (random_resolution ctx : ℚ))

/-- `max_f = (max_freq - 0.5*freq_step + resolution) / resolution` (line 983). -/
def random_max_f (ctx : SpectrumMonitoringCTX) : Nat :=
  to_uint (((ctx.max_freq : ℚ) - (1 / 2 : ℚ) * (hopping_freq_step ctx : ℚ)
    + (random_resolution ctx : ℚ)) / (random_resolution ctx : ℚ))

/-- The value stored in `center_freqs[i]` at line 984 when `rand()` returns `r`. -/
def random_center_freq (ctx : SpectrumMonitoringCTX) (r : Nat) : Nat :=
  ((random_min_f ctx
      + (r % UINT_MOD) % ((usub (random_max_f ctx) (random_min_f ctx) + 1) % UINT_MOD))
    * random_resolution ctx) % UINT_MOD

/-- `random_hopping_strategy` (lines 926-985): compute the plan shape if there is none yet,
then draw every center frequency anew. `rand n` is the value the `n`-th coming call of
`rand()` returns; the stream left after the call is returned with the plan. -/
def random_hopping_strategy (ctx : SpectrumMonitoringCTX) (rand : Nat → Nat)
    (p : HoppingPlan) : HoppingPlan × (Nat → Nat) :=
  let p1 : HoppingPlan :=
    if p.length ≤ 0 then
      let length := hopping_length ctx
      { p with
        length := length
        samp_rates := List.replicate length ctx.samp_rate
        log2_fft_sizes := List.replicate length ctx.log2_fft_size
        avg_factors := List.replicate length ctx.avg_factor
        soverlaps := List.replicate length ctx.soverlap
        freq_overlaps := List.replicate length ctx.freq_overlap
        window_funs := List.replicate length (select_window_fun ctx.window_fun_id) }
    else p
  ({ p1 with center_freqs := (List.range p1.length).map fun i =>
      random_center_freq ctx (rand i) },
    fun n => rand (n + p1.length))

/-! ## Monitoring controller (`monitoring_logic`, lines 1329-1396) -/

/-- The two `goto EXIT_SPECTRUM_MONITORING` of the event loop. -/
inductive ExitCause where
  | sample_runs
  | monitor_time
  deriving DecidableEq, Repr

/-- The variables of the event loop of `monitoring_logic`: the run counter, the time of the
previous sweep start, the plan variables (of any type `σ`), the number of calls of the
hopping strategy and of sweeps started so far, and the exit taken, if any. -/
structure MonitoringState (σ : Type) where
  measurements_left : Nat
  prev_t : Int
  plan : σ
  planner_calls : Nat
  sweeps_started : Nat
  exit : Option ExitCause

/-- The state when the event loop is entered (lines 1247, 1326-1331): the flag
`FLAG_SAMP_WIND` is raised once by the controller itself, so the first event handled is not
the completion of a sweep. -/
def monitoring_init {σ : Type} (ctx : SpectrumMonitoringCTX) (plan : σ) : MonitoringState σ :=
  { measurements_left := ctx.number_of_sample_runs, prev_t := 0, plan := plan,
    planner_calls := 0, sweeps_started := 0, exit := none }

/-- The handling of one raised `FLAG_SAMP_WIND` (lines 1338-1387). `current_t` is the clock
value read at line 1353. The pacing loop of lines 1358-1364 re-reads a clock that counts
seconds until `min_time_res` seconds have passed since `prev_t`; it ends with the clock at
the later of `current_t` and `prev_t + min_time_res`. -/
def monitoring_event {σ : Type} (hopping_strategy : σ → σ) (ctx : SpectrumMonitoringCTX)
    (start_t : Int) (s : MonitoringState σ) (current_t : Int) : MonitoringState σ :=
  if s.exit.isSome then s
  else if ctx.number_of_sample_runs ≠ 0 ∧ s.measurements_left = 0 then
    { s with exit := some ExitCause.sample_runs }
  else
    let s1 : MonitoringState σ := { s with measurements_left := usub s.measurements_left 1 }
    if ctx.monitor_time > 0 ∧ current_t - start_t > (ctx.monitor_time : Int) then
      { s1 with exit := some ExitCause.monitor_time }
    else
      { s1 with
        prev_t := max current_t (s1.prev_t + (ctx.min_time_res : Int))
        plan := hopping_strategy s1.plan
        planner_calls := s1.planner_calls + 1
        sweeps_started := s1.sweeps_started + 1 }

/-- The event loop run on the flag events whose clock readings are `times`, oldest first:
the first is the flag raised by the controller itself, each later one reports a completed
sweep. -/
def monitoring_logic {σ : Type} (hopping_strategy : σ → σ) (ctx : SpectrumMonitoringCTX)
    (start_t : Int) (plan : σ) (times : List Int) : MonitoringState σ :=
  times.foldl (monitoring_event hopping_strategy ctx start_t) (monitoring_init ctx plan)

/-- `freq_res = ((float) samp_rate) / fft_size` (line 2336), in exact arithmetic. -/
def dumping_freq_res {α : Type} (iin : Item α) : ℚ :=
  (iin.samp_rate : ℚ) / (((1 <<< iin.log2_fft_size) % UINT_MOD : Nat) : ℚ)

/-- The value of `center_freq - (t-i)*freq_res` (line 2349) in exact arithmetic, before the
roundings of binary32 and before it is stored in the `uint32_t` variable `freq`. -/
def dumping_freq_hz {α : Type} (iin : Item α) (i : Nat) : ℚ :=
  (iin.Fc : ℚ)
    - ((((dumping_reduced_fft_size iin / 2 : Nat) : Int) - (i : Int) : Int) : ℚ)
      * dumping_freq_res iin

/-! ## Similarity strategy (lines 987-1234) -/

/-- A history entry `SimilarityHistEntry` (lines 998-1003). -/
structure SimilarityHistEntry (α : Type) where
  Fc : Nat
  similarity : α
  previous_signal : Nat → α

/-- Modelled from the spec: the macro `HASH_FIND` of `include/uthash.h`, which is not part
of the sources at hand. The history is a flat mapping from center frequency to entry; the
table `similarity_hist_htable` is the list of its entries in insertion order, `HASH_ADD`
appends, and the lookup returns the entry with the given key (keys are compared as 32-bit
values). -/
def hist_find {α : Type} (hist : List (SimilarityHistEntry α)) (key : Nat) :
    Option (SimilarityHistEntry α) :=
  hist.find? fun e => decide (e.Fc = key)

/-- An assignment through the pointer `hentry` returned by `HASH_FIND` for `key`: the entry
found is replaced by `f` of it. -/
def hist_modify {α : Type} (key : Nat) (f : SimilarityHistEntry α → SimilarityHistEntry α) :
    List (SimilarityHistEntry α) → List (SimilarityHistEntry α)
  | [] => []
  | e :: rest => if e.Fc = key then f e :: rest else e :: hist_modify key f rest

/-- The recursion of `ema_filter` (lines 1028-1029) with `alpha_filter = 0.75`. -/
def ema_filter_value {α : Type} [Field α] (x : Nat → α) : Nat → α
  | 0 => x 0
  | i + 1 => (3 / 4 : α) * x (i + 1) + (1 - (3 / 4 : α)) * ema_filter_value x i

/-- `ema_filter(N, x, y)` (lines 1025-1030): the content of the output buffer `y`, which
has `N` slots (the model holds `0` past them). -/
def ema_filter {α : Type} [Field α] (N : Nat) (x : Nat → α) : Nat → α :=
  fun i => if i < N then ema_filter_value x i else 0

/-- `ema_recursive` (lines 1038-1040) with `alpha_recursive = 0.75`: the new value of `*s`. -/
def ema_recursive {α : Type} [Field α] (s y : α) : α :=
  (3 / 4 : α) * y + (1 - (3 / 4 : α)) * s

/-- `xcorr(x, y, N, m)` (lines 1057-1068); the loop bound `N-m` is an `unsigned int`. -/
def xcorr {α : Type} [Field α] (x y : Nat → α) (N : Nat) (m : Int) : α :=
  if m < 0 then
    ∑ n in Finset.range (usub N (-m).toNat), y (n + (-m).toNat) * x n
  else
    ∑ n in Finset.range (usub N m.toNat), x (n + m.toNat) * y n

/-- `Sp(m)` (lines 1071-1074) with `M = 2` and `p = 2`. -/
def Sp {α : Type} [Field α] (m : Int) : α :=
  (-(((|m| : Int) : α)) / 2 + 1) ^ 2

/-- The normalisation factor `norm` of `similarity_estimation` (lines 1077-1081). -/
def similarity_norm {α : Type} [Field α] (sqrt : α → α) (N : Nat) (x y : Nat → α) : α :=
  1 / (sqrt (∑ n in Finset.range N, x n * x n) * sqrt (∑ n in Finset.range N, y n * y n))

/-- One pass of the shifting loop (lines 1085-1089) on the pair `(s, b)`. -/
def similarity_shift_step {α : Type} [LinearOrderedField α] (norm : α) (x y : Nat → α)
    (N : Nat) (sb : Int × α) (m : Int) : Int × α :=
  if norm * xcorr x y N m > sb.2 then (m, norm * xcorr x y N m) else sb

/-- The shifting loop `for(m=-M; m<=M; ++m)` (lines 1084-1090): the lag `s` and the value
`b` it leaves. -/
def similarity_shift {α : Type} [LinearOrderedField α] (sqrt : α → α) (N : Nat)
    (x y : Nat → α) : Int × α :=
  ([-2, -1, 0, 1, 2] : List Int).foldl
    (similarity_shift_step (similarity_norm sqrt N x y) x y N) (0, 0)

/-- `similarity_estimation(N, x, y)` (lines 1047-1095) with `c = 0.8`; `sqrt` is the square
root function. -/
def similarity_estimation {α : Type} [LinearOrderedField α] (sqrt : α → α) (N : Nat)
    (x y : Nat → α) : α :=
  ((4 / 5 : α) * (similarity_shift sqrt N x y).2
    + (1 - (4 / 5 : α)) * Sp (similarity_shift sqrt N x y).1) * 100

/-- `similarity_fft_callback(iout)` (lines 1007-1141): the history table after the call. -/
def similarity_fft_callback {α : Type} [LinearOrderedField α] (sqrt : α → α)
    (hist : List (SimilarityHistEntry α)) (iout : Item α) : List (SimilarityHistEntry α) :=
  let key := iout.Fc
  let signal_len := 1 <<< iout.log2_fft_size
  let filtered_signal := ema_filter signal_len iout.samples
  match hist_find hist key with
  | some hentry =>
    let s := similarity_estimation sqrt signal_len hentry.previous_signal filtered_signal
    hist_modify key (fun e =>
      { e with similarity := ema_recursive e.similarity s,
               previous_signal := filtered_signal }) hist
  | none => hist ++ [{ Fc := key, similarity := 0, previous_signal := filtered_signal }]

/-- The history table after the FFT stage has called the callback on each of the Items of
`qout`, in the order it inserted them. -/
def similarity_fft_callbacks {α : Type} [LinearOrderedField α] (sqrt : α → α)
    (hist : List (SimilarityHistEntry α)) (qout : List (Item α)) :
    List (SimilarityHistEntry α) :=
  qout.foldl (similarity_fft_callback sqrt) hist

/-- The draw `r = (rand() % 1000) / 10.f` of `probabilistic_tun` (line 1214). -/
def tun_draw {α : Type} [Field α] (rand_value : Nat) : α :=
  ((rand_value % 1000 : Nat) : α) / 10

/-- The threshold `p = 0.0001f*expf(logf(1000000.f)*similarity/100.f)` of
`probabilistic_tun` (line 1216). -/
def tun_threshold {α : Type} [Field α] (expf logf : α → α) (similarity : α) : α :=
  (1 / 10000 : α) * expf (logf 1000000 * similarity / 100)

/-- `probabilistic_tun(similarity)` (lines 1212-1218) when `rand()` returns `rand_value`. -/
def probabilistic_tun {α : Type} [LinearOrderedField α] (expf logf : α → α)
    (rand_value : Nat) (similarity : α) : Bool :=
  decide (tun_draw rand_value ≥ tun_threshold expf logf similarity)

/-- `similarity_reduction = 1.0005` (line 996). -/
def similarity_reduction {α : Type} [Field α] : α := 10005 / 10000

/-- What the candidate loop of `similarity_hopping_strategy` works on: the history table,
the stream of values the coming calls of `rand()` return, and the slots
`center_freqs[0 .. cnt-1]` filled so far. -/
structure SimilaritySelection (α : Type) where
  hist : List (SimilarityHistEntry α)
  rand : Nat → Nat
  center_freqs : List Nat

/-- One pass of the candidate loop (lines 1203-1231) for the candidate `key`. -/
def similarity_select {α : Type} [LinearOrderedField α] (expf logf : α → α)
    (s : SimilaritySelection α) (key : Nat) : SimilaritySelection α :=
  match hist_find s.hist key with
  | some hentry =>
    if probabilistic_tun expf logf (s.rand 0) hentry.similarity then
      -- Reinspect
      { s with rand := fun n => s.rand (n + 1), center_freqs := s.center_freqs ++ [key] }
    else
      -- Skip
      { s with
        rand := fun n => s.rand (n + 1)
        hist := hist_modify key
          (fun e => { e with similarity := e.similarity / similarity_reduction }) s.hist }
  | none => { s with center_freqs := s.center_freqs ++ [key] }

/-- The block "calculate full hopping parameters once" of `similarity_hopping_strategy`
(lines 1147-1195). The slots of `center_freqs` are allocated, not filled. -/
def similarity_full_plan (ctx : SpectrumMonitoringCTX) (p : HoppingPlan) : HoppingPlan :=
  if p.full_length ≤ 0 then
    let full_length := hopping_length ctx
    { p with
      full_length := full_length
      samp_rates := List.replicate full_length ctx.samp_rate
      log2_fft_sizes := List.replicate full_length ctx.log2_fft_size
      avg_factors := List.replicate full_length ctx.avg_factor
      soverlaps := List.replicate full_length ctx.soverlap
      full_center_freqs := sequential_center_freqs ctx full_length
      center_freqs := []
      freq_overlaps := List.replicate full_length ctx.freq_overlap
      window_funs := List.replicate full_length (select_window_fun ctx.window_fun_id) }
  else p

/-- The candidates `full_center_freqs[0 .. full_length-1]` the loop of a call goes through. -/
def similarity_candidates (ctx : SpectrumMonitoringCTX) (p : HoppingPlan) : List Nat :=
  (List.range (similarity_full_plan ctx p).full_length).map fun i =>
    (similarity_full_plan ctx p).full_center_freqs.getD i 0

/-- The state `similarity_hopping_strategy` works on: history table, `rand()` stream, and
the plan variables of `monitoring_logic`. -/
structure SimilarityState (α : Type) where
  hist : List (SimilarityHistEntry α)
  rand : Nat → Nat
  plan : HoppingPlan

/-- `similarity_hopping_strategy` (lines 1143-1234). Of `center_freqs` only the slots
`0 .. length-1` written by this call are kept. -/
def similarity_hopping_strategy {α : Type} [LinearOrderedField α] (expf logf : α → α)
    (ctx : SpectrumMonitoringCTX) (s : SimilarityState α) : SimilarityState α :=
  let sel := (similarity_candidates ctx s.plan).foldl (similarity_select expf logf)
    { hist := s.hist, rand := s.rand, center_freqs := [] }
  { hist := sel.hist
    rand := sel.rand
    plan := { similarity_full_plan ctx s.plan with
      center_freqs := sel.center_freqs
      length := sel.center_freqs.length } }

/-- The Items the FFT stage hands on in the first sweep of scenario 1 when the similarity
strategy runs it: one Item per planned center frequency (`avg_factor = 1`), each with a
payload of 16 magnitudes (here `0, 1, ..., 15`). -/
def scenario1_fft_items {α : Type} [Field α] : List (Item α) :=
  [{ Fc := 100500000, Ts_sec := 0, Ts_usec := 0, samples_size := 64,
     samples := fun j => (j : α), hopping_strategy_id := 2, window_fun_id := 0,
     gain := 164 / 5, samp_rate := 1000000, log2_fft_size := 4, avg_index := 1,
     avg_factor := 1, freq_overlap := 0, soverlap := 0, freq_res := 0 },
   { Fc := 101500000, Ts_sec := 0, Ts_usec := 0, samples_size := 64,
     samples := fun j => (j : α), hopping_strategy_id := 2, window_fun_id := 0,
     gain := 164 / 5, samp_rate := 1000000, log2_fft_size := 4, avg_index := 1,
     avg_factor := 1, freq_overlap := 0, soverlap := 0, freq_res := 0 }]

/-- Every similarity stored in the history table lies in `[0, 100]`. -/
def similarity_in_range {α : Type} [LinearOrderedField α]
    (hist : List (SimilarityHistEntry α)) : Prop :=
  ∀ e ∈ hist, 0 ≤ e.similarity ∧ e.similarity ≤ 100

/-! ## Sampling: read length and the indices read (lines 1645-1719) -/

/-- The read length of lines 1646-1647:
`slen = ((fft_size-soverlap)*avg_factor+soverlap)*2`, then rounded up to a multiple of
512 by `if(slen % 512 != 0) slen = slen + (512 - (slen % 512))`, all in `unsigned int`. -/
def sampling_slen (fft_size avg_factor soverlap : Nat) : Nat :=
  let slen := (((usub fft_size soverlap * avg_factor) % UINT_MOD + soverlap) * 2) % UINT_MOD
  if slen % 512 ≠ 0 then (slen + (512 - slen % 512)) % UINT_MOD else slen

/-- The index `n + j*(fft_size-soverlap)*2` of `iq_buf` read for interleaved position `n`
of segment `j` (lines 1694-1695 and 1703-1704, with `n = l` and `n = l+1`), in
`unsigned int`. -/
def segment_index (fft_size soverlap j n : Nat) : Nat :=
  (n + (j * usub fft_size soverlap * 2) % UINT_MOD) % UINT_MOD

/-- The mean of the `fft_size` bytes of one channel of a segment: those at
`start, start+2, ...` in `iq_buf` (the sums of lines 1693-1698 divided by `fft_size`). -/
def channel_mean {α : Type} [Field α] (iq_buf : Nat → Nat) (start fft_size : Nat) : α :=
  ((List.range fft_size).map fun m => ((iq_buf (start + 2 * m) : Nat) : α)).sum
    / (fft_size : α)

/-- The lengths passed to `rtlsdr_read_sync` (line 1684), in call order, as recorded in
the log of device calls. -/
def sdr_reads (calls : List SDRCall) : List Nat :=
  calls.filterMap fun c =>
    match c with
    | SDRCall.read slen => some slen
    | _ => none

/-- The read length held by the thread is the one of the segmentation it remembers in
`prev_fft_size`, `prev_avg_factor`, `prev_soverlap`. -/
def sampling_slen_ok {α : Type} (s : SamplingState α) : Prop :=
  s.slen = sampling_slen s.prev_fft_size s.prev_avg_factor s.prev_soverlap

/-! ## FFT stage: the engine seen by each `FFT_forward` -/

/-- The engine set-up left by a sequence of FFT library calls: the arguments of the latest
`FFT_initialize`, `none` after `FFT_release`. -/
def fft_engine_after : Option (Nat × Nat) → List FFTCall → Option (Nat × Nat)
  | e, [] => e
  | _, FFTCall.release :: r => fft_engine_after none r
  | _, FFTCall.init log2_fft_size batchlen :: r =>
    fft_engine_after (some (log2_fft_size, batchlen)) r
  | e, FFTCall.forward _ :: r => fft_engine_after e r

/-- Every `FFT_forward` of the log runs on a batch of `1 .. fft_batchlen` Items while the
engine is set up, by the latest `FFT_initialize`, for exactly that number of Items. -/
def fft_forwards_checked (fft_batchlen : Nat) : Option (Nat × Nat) → List FFTCall → Bool
  | _, [] => true
  | _, FFTCall.release :: r => fft_forwards_checked fft_batchlen none r
  | _, FFTCall.init log2_fft_size batchlen :: r =>
    fft_forwards_checked fft_batchlen (some (log2_fft_size, batchlen)) r
  | e, FFTCall.forward batch_cnt :: r =>
    decide (e.map Prod.snd = some batch_cnt) && decide (1 ≤ batch_cnt)
      && decide (batch_cnt ≤ fft_batchlen) && fft_forwards_checked fft_batchlen e r

/-- The Item `out` is `iin` after an `FFT_forward` over a batch of `1 .. fft_batchlen`
buffers, run on an engine set up for the Item's own `log2_fft_size` and for the number of
buffers of that batch. -/
def fft_forwarded {α : Type}
    (FFT_forward : Option (Nat × Nat) → List (Nat → α) → Nat → (Nat → α))
    (fft_batchlen : Nat) (iin out : Item α) : Prop :=
  ∃ (ins : List (Nat → α)) (i : Nat), i < ins.length ∧ 1 ≤ ins.length ∧
    ins.length ≤ fft_batchlen ∧
    out = { iin with
      samples_size := iin.samples_size / 2
      samples := FFT_forward (some (iin.log2_fft_size, ins.length)) ins i }

/-- Loop invariant of `fft` for the engine set-up: the batch is not full, its Items all
have the size `prev_log2_fft_size`, the engine is (once a size is known) set up for that
size and `fft_batchlen` Items, the log of library calls agrees with the engine state and
every `FFT_forward` in it was checked, and every Item written so far went through an
`FFT_forward` set up for it. -/
def fft_engine_inv {α : Type}
    (FFT_forward : Option (Nat × Nat) → List (Nat → α) → Nat → (Nat → α))
    (fft_batchlen : Nat) (pre : List (Item α)) (s : FFTState α) : Prop :=
  s.its.length < fft_batchlen ∧
  (∀ it ∈ s.its, it.log2_fft_size = s.prev_log2_fft_size) ∧
  (s.prev_log2_fft_size ≠ 0 → s.engine = some (s.prev_log2_fft_size, fft_batchlen)) ∧
  fft_engine_after none s.calls = s.engine ∧
  fft_forwards_checked fft_batchlen none s.calls = true ∧
  ∃ done : List (Item α), pre = done ++ s.its ∧
    List.Forall₂ (fft_forwarded FFT_forward fft_batchlen) done s.qout

/-! ## Command line (`parse_args`, lines 317-460; defaults, lines 43-56 and 463-478) -/

/-- The fields of `ManagerCTX` (lines 90-108) that the command line sets. -/
structure ManagerCTX where
  min_freq : Nat
  max_freq : Nat
  clk_corr_period : Nat
  samp_rate : Nat
  log2_fft_size : Nat
  avg_factor : Nat
  soverlap : Nat
  monitor_time : Nat
  min_time_res : Nat
  number_of_sample_runs : Nat
  fft_batchlen : Nat
  dev_index : Int
  clk_off : Int
  gain : ℚ
  freq_overlap : ℚ
  hopping_strategy_str : String
  window_fun_str : String

/-- One option found by `getopt`, with the value that `atoi`, `atol` or `atof` reads from
its argument (the string itself for `-y` and `-w`); `unknown` is an option character
outside the option string. -/
inductive CmdOption where
  | h
  | d (v : Int)
  | c (v : Int)
  | k (v : Int)
  | g (v : ℚ)
  | y (str : String)
  | s (v : Int)
  | f (v : Int)
  | b (v : Int)
  | a (v : Int)
  | o (v : Int)
  | q (v : ℚ)
  | t (v : Int)
  | r (v : Int)
  | w (str : String)
  | x (v : Int)
  | unknown

/-- Storing the `long` returned by `atol` in an `unsigned int` field. -/
def atol_uint (v : Int) : Nat := (v % (UINT_MOD : Int)).toNat

-- The `DEFAULT_*` constants of lines 43-56; the two `float` constants are held as the
-- rationals they are written as.
def DEFAULT_LOG2_FFT_SIZE : Nat := 8
def DEFAULT_MONITOR_TIME : Nat := 0
def DEFAULT_MIN_TIME_RES : Nat := 0
def DEFAULT_DEV_INDEX : Int := 0
def DEFAULT_CLK_OFF : Int := 0
def DEFAULT_CLK_CORR_PERIOD : Nat := 3600
def DEFAULT_HOPPING_STRATEGY_STR : String := "similarity"
def DEFAULT_GAIN : ℚ := 328 / 10
def DEFAULT_FREQ_OVERLAP : ℚ := 1 / 6
def DEFAULT_AVG_FACTOR : Nat := 5
def DEFAULT_SOVERLAP : Nat := (1 <<< DEFAULT_LOG2_FFT_SIZE) / 2
def DEFAULT_WINDOW_FUN_STR : String := "hanning"
def DEFAULT_FFT_BATCHLEN : Nat := 10
def DEFAULT_SAMP_RATE : Nat := 2400000

/-- The context before the command line is read (lines 463-478). -/
def manager_init : ManagerCTX :=
  { min_freq := 0, max_freq := 0
    dev_index := DEFAULT_DEV_INDEX
    clk_off := DEFAULT_CLK_OFF
    clk_corr_period := DEFAULT_CLK_CORR_PERIOD
    samp_rate := DEFAULT_SAMP_RATE
    log2_fft_size := DEFAULT_LOG2_FFT_SIZE
    avg_factor := DEFAULT_AVG_FACTOR
    soverlap := DEFAULT_SOVERLAP
    monitor_time := DEFAULT_MONITOR_TIME
    min_time_res := DEFAULT_MIN_TIME_RES
    number_of_sample_runs := 0
    fft_batchlen := DEFAULT_FFT_BATCHLEN
    gain := DEFAULT_GAIN
    freq_overlap := DEFAULT_FREQ_OVERLAP
    hopping_strategy_str := DEFAULT_HOPPING_STRATEGY_STR
    window_fun_str := DEFAULT_WINDOW_FUN_STR }

/-- One pass of the `switch(opt)` of lines 323-376; `none` is the jump to `usage`, which
ends the program. The shifts `1<<log2_fft_size` are those of C for
`log2_fft_size < 31`. -/
def parse_option (ctx : ManagerCTX) : CmdOption → Option ManagerCTX
  | CmdOption.h => none
  | CmdOption.d v => some { ctx with dev_index := v }
  | CmdOption.c v => some { ctx with clk_off := v }
  | CmdOption.k v => some { ctx with clk_corr_period := atol_uint v }
  | CmdOption.g v => some { ctx with gain := v }
  | CmdOption.y str => some { ctx with hopping_strategy_str := str }
  | CmdOption.s v => some { ctx with samp_rate := atol_uint v }
  | CmdOption.f v => some { ctx with log2_fft_size := atol_uint v }
  | CmdOption.b v => some { ctx with fft_batchlen := atol_uint v }
  | CmdOption.a v =>
    let ctx1 : ManagerCTX := { ctx with avg_factor := atol_uint v }
    if ctx1.avg_factor < 1 then some { ctx1 with avg_factor := DEFAULT_AVG_FACTOR }
    else some ctx1
  | CmdOption.o v =>
    let ctx1 : ManagerCTX := { ctx with soverlap := atol_uint v }
    if ctx1.soverlap > usub ((1 <<< ctx1.log2_fft_size) % UINT_MOD) 1 then
      some { ctx1 with soverlap := ((1 <<< ctx1.log2_fft_size) % UINT_MOD) / 2 }
    else some ctx1
  | CmdOption.q v => some { ctx with freq_overlap := v }
  | CmdOption.t v => some { ctx with monitor_time := atol_uint v }
  | CmdOption.r v => some { ctx with min_time_res := atol_uint v }
  | CmdOption.w str => some { ctx with window_fun_str := str }
  | CmdOption.x v => some { ctx with number_of_sample_runs := atol_uint v }
  | CmdOption.unknown => none

/-- The `while((opt = getopt(...)) != -1)` loop of lines 322-377 over the options in
command-line order. -/
def parse_options : ManagerCTX → List CmdOption → Option ManagerCTX
  | ctx, [] => some ctx
  | ctx, opt :: rest =>
    match parse_option ctx opt with
    | none => none
    | some ctx1 => parse_options ctx1 rest

/-- The function `parse_args` run on the defaults: `opts` are the options in command-line
order, `args` the values `atol` reads from the non-option arguments. The command line
is accepted (`some`) when no option jumps to `usage` and exactly two non-option
arguments remain (line 380). -/
def parse_args (opts : List CmdOption) (args : List Int) : Option ManagerCTX :=
  match parse_options manager_init opts with
  | none => none
  | some ctx =>
    match args with
    | [min_freq, max_freq] =>
      some { ctx with min_freq := atol_uint min_freq, max_freq := atol_uint max_freq }
    | _ => none

/-- A sweep of one hop: `fft_size = 4`, two segments that overlap by one sample,
rectangular window. -/
def one_hop_ctx : SamplingWindowingCTX :=
  { length := 1, samp_rates := [1000000], log2_fft_sizes := [2], avg_factors := [2],
    soverlaps := [1], center_freqs := [100500000], hopping_strategy_id := 0,
    window_fun_id := 0, clk_off := 0, gain := 0, freq_overlaps := [0],
    window_funs := [WindowFun.rectangular_window] }

/-- Three Items for the FFT stage, the third of another FFT size than the first two. -/
def mixed_size_items : List (Item ℚ) :=
  [scenario1_item, scenario1_item,
    { scenario1_item with log2_fft_size := 5, samples_size := 256 }]

/-- An Item as the averaging stage hands it to the dumping stage with the default FFT size
and no frequency overlap: `log2_fft_size = 8`, a payload of 256 magnitudes (1024 bytes),
`freq_overlap = 0`. -/
def full_span_item : Item ℚ :=
  { scenario1_item with log2_fft_size := 8, samples_size := 1024, samp_rate := 2400000 }

/-- A configuration that monitors for two seconds and has no limit on the number of
sweeps. -/
def monitor_two_seconds_ctx : SpectrumMonitoringCTX :=
  { scenario1_ctx with monitor_time := 2, number_of_sample_runs := 0 }

/-- The expression `center_freq - (t-i)*freq_res` of line 2349 with `t = reduced_fft_size / 2`
(line 2346), in exact arithmetic, for any `reduced_fft_size` and `freq_res` the stage has
computed: its value before the roundings of binary32 and the conversion to `uint32_t`.
The factor `t - i` is an `int` in the source and is exact there too. -/
def dumping_line_hz (center_freq reduced_fft_size : Nat) (freq_res : ℚ) (i : Nat) : ℚ :=
  (center_freq : ℚ)
    - ((((reduced_fft_size / 2 : Nat) : Int) - (i : Int) : Int) : ℚ) * freq_res

/-- An Item for which an even number of lines is written: `log2_fft_size = 4`,
`freq_overlap = 0.05`, `samp_rate = 2048000`, so `reduced_fft_size = 16` and
`freq_res = 128000`. -/
def even_lines_item : Item ℚ :=
  { scenario1_item with freq_overlap := 1 / 20, samp_rate := 2048000 }

/-- Scenario 1 with eight segments per hop (`-a 8`). -/
def static_sweep_ctx : SpectrumMonitoringCTX :=
  { scenario1_ctx with avg_factor := 8 }

/-- The Items the FFT stage hands on in the first sweep of `static_sweep_ctx` when the
similarity strategy runs it on a static input: for each of the two center frequencies
eight Items (`avg_index = 8, ..., 1`) that all carry the same payload of 16 magnitudes
(here `0, 1, ..., 15`). -/
def static_sweep_items {α : Type} [Field α] : List (Item α) :=
  [100500000, 101500000].flatMap fun (f : Nat) =>
    (List.range 8).map fun (j : Nat) =>
      { Fc := f, Ts_sec := 0, Ts_usec := 0, samples_size := 64,
        samples := fun n => (n : α), hopping_strategy_id := 2, window_fun_id := 0,
        gain := 164 / 5, samp_rate := 1000000, log2_fft_size := 4, avg_index := 8 - j,
        avg_factor := 8, freq_overlap := 0, soverlap := 0, freq_res := 0 }

/-! ## FFT stage: every Item is handed on exactly once, in order -/

theorem fft_write_items_take {α : Type}
    (F : Option (Nat × Nat) → List (Nat → α) → Nat → (Nat → α))
    (e : Option (Nat × Nat)) (its : List (Item α)) (n : Nat) :
    List.Forall₂ fft_processed (its.take n) (fft_write_items F e its n) := by
  induction n with
  | zero => simp [fft_write_items]
  | succ n ih =>
    have hsplit : fft_write_items F e its (n + 1) =
        fft_write_items F e its n ++
          (its[n]?.map fun it =>
            { it with samples_size := it.samples_size / 2,
                      samples := F e (its.map Item.samples) n }).toList := by
      unfold fft_write_items
      rw [List.range_succ, List.filterMap_append]
      congr 1
    rw [hsplit, List.take_succ]
    refine List.rel_append ih ?_
    cases its[n]? with
    | none => simp
    | some it =>
      simp only [Option.toList, Option.map]
      exact List.Forall₂.cons ⟨_, rfl⟩ List.Forall₂.nil

theorem fft_write_items_all {α : Type}
    (F : Option (Nat × Nat) → List (Nat → α) → Nat → (Nat → α))
    (e : Option (Nat × Nat)) (its : List (Item α)) (n : Nat) (h : its.length ≤ n) :
    List.Forall₂ fft_processed its (fft_write_items F e its n) := by
  have := fft_write_items_take F e its n
  rwa [List.take_of_length_le h] at this

theorem fft_inv_step {α : Type}
    (F : Option (Nat × Nat) → List (Nat → α) → Nat → (Nat → α))
    (fft_batchlen : Nat) (pre : List (Item α)) (s : FFTState α) (iin : Item α)
    (h : fft_inv fft_batchlen pre s) :
    fft_inv fft_batchlen (pre ++ [iin]) (fft_step F fft_batchlen s iin) := by
  obtain ⟨done, hpre, hdone, hlt⟩ := h
  -- the state after the size-change block
  have h1 : ∀ s1 : FFTState α, fft_inv fft_batchlen pre s1 →
      fft_inv fft_batchlen (pre ++ [iin])
        (if (FFTState.batch_cnt { s1 with its := s1.its ++ [iin] }) ≥ fft_batchlen then
          { s1 with
            calls := s1.calls ++ [FFTCall.forward (s1.its ++ [iin]).length]
            qout := s1.qout ++ fft_write_items F s1.engine (s1.its ++ [iin]) fft_batchlen
            its := [] }
        else { s1 with its := s1.its ++ [iin] }) := by
    rintro s1 ⟨d1, hp1, hd1, hl1⟩
    simp only [FFTState.batch_cnt, List.length_append, List.length_singleton]
    split
    · next hge =>
      refine ⟨d1 ++ (s1.its ++ [iin]), by simp [hp1], ?_, by simpa using (by omega : 0 < fft_batchlen)⟩
      refine List.rel_append hd1 ?_
      exact fft_write_items_all F _ _ _ (by simp; omega)
    · next hlt2 =>
      exact ⟨d1, by simp [hp1], hd1, by simp; omega⟩
  have h2 : fft_inv fft_batchlen pre
      (if s.prev_log2_fft_size ≠ iin.log2_fft_size then
        (let s0 : FFTState α :=
          if s.batch_cnt > 0 then { fft_flush F s with its := [] } else s
        { s0 with
          engine := some (iin.log2_fft_size, fft_batchlen)
          calls := s0.calls ++ [FFTCall.release, FFTCall.init iin.log2_fft_size fft_batchlen]
          prev_log2_fft_size := iin.log2_fft_size })
      else s) := by
    split
    · simp only []
      split
      · refine ⟨done ++ s.its, by simp [hpre], ?_, by simpa using (by omega : 0 < fft_batchlen)⟩
        simp only [fft_flush]
        exact List.rel_append hdone (fft_write_items_all F _ _ _ (le_refl _))
      · exact ⟨done, hpre, hdone, hlt⟩
    · exact ⟨done, hpre, hdone, hlt⟩
  exact h1 _ h2

theorem fft_inv_foldl {α : Type}
    (F : Option (Nat × Nat) → List (Nat → α) → Nat → (Nat → α))
    (fft_batchlen : Nat) (input pre : List (Item α)) (s : FFTState α)
    (h : fft_inv fft_batchlen pre s) :
    fft_inv fft_batchlen (pre ++ input) (input.foldl (fft_step F fft_batchlen) s) := by
  induction input generalizing pre s with
  | nil => simpa using h
  | cons iin rest ih =>
    have := ih (pre ++ [iin]) _ (fft_inv_step F fft_batchlen pre s iin h)
    simpa using this

/-- C1. FFT stage with `fft_batchlen >= 1`: for every finite input sequence of Items
followed by upstream exit, the Items inserted into the output queue (full batches,
size-change flushes and the residual flush together) are the input Items, each exactly
once and in input order; each is the input Item with only its payload replaced by a
magnitude buffer and its byte size halved. -/
theorem fft_output_is_input {α : Type}
    (FFT_forward : Option (Nat × Nat) → List (Nat → α) → Nat → (Nat → α))
    (fft_batchlen : Nat) (input : List (Item α)) (hb : 1 ≤ fft_batchlen) :
    List.Forall₂ fft_processed input (fft FFT_forward fft_batchlen input).qout := by
  have hinit : fft_inv fft_batchlen ([] : List (Item α)) fft_init :=
    ⟨[], rfl, List.Forall₂.nil, by simpa [fft_init] using hb⟩
  obtain ⟨done, hpre, hdone, -⟩ := fft_inv_foldl FFT_forward fft_batchlen input [] _ hinit
  simp only [List.nil_append] at hpre
  unfold fft fft_exit
  generalize List.foldl (fft_step FFT_forward fft_batchlen) fft_init input = s at hpre hdone ⊢
  subst hpre
  simp only []
  split
  · simp only [fft_flush]
    exact List.rel_append hdone (fft_write_items_all FFT_forward _ _ _ (le_refl _))
  · next hz =>
    have : s.its = [] := by
      simpa [FFTState.batch_cnt, List.length_eq_zero] using hz
    rw [this, List.append_nil]
    exact hdone

/-! ## Averaging stage: groups collapse to their mean -/

theorem sum_map_div_const {α β : Type} [Field α] (l : List β) (f : β → α) (c : α) :
    (l.map fun x => f x / c).sum = (l.map f).sum / c := by
  induction l with
  | nil => simp
  | cons x xs ih => simp [ih, add_div]

theorem averaging_from_aborted {α : Type} [Field α] (s : AvgState α) (input : List (Item α))
    (h : s.aborted = true) : averaging_from s input = s := by
  induction input with
  | nil => rfl
  | cons x xs ih =>
    have hstep : averaging_step s x = s := by simp [averaging_step, h]
    simpa [averaging_from, hstep] using ih

theorem averaging_from_append {α : Type} [Field α] (s : AvgState α) (a b : List (Item α)) :
    averaging_from s (a ++ b) = averaging_from (averaging_from s a) b := by
  simp [averaging_from]

/-- Inside a group: the Items that complete the group (indices `K-i, ..., 1`) are all
accepted, and the accumulator with their contributions added is inserted. -/
theorem averaging_in_group {α : Type} [Field α] (rest : List (Item α)) (g : AvgGroup α)
    (q : List (Item α)) (hi : g.i < g.avg_index)
    (hrest : rest.map Item.avg_index = List.iota (g.avg_index - g.i)) :
    averaging_from { cur := some g, qout := q, aborted := false } rest =
      { cur := none,
        qout := q ++ [
          { g.iout with samples := fun j =>
              if j < g.fft_size then
                g.iout.samples j + (rest.map fun it => it.samples j / (g.avg_index : α)).sum
              else g.iout.samples j }],
        aborted := false } := by
  induction rest generalizing g with
  | nil =>
    exfalso
    have h1 : g.avg_index - g.i = (g.avg_index - g.i - 1) + 1 := by omega
    rw [h1] at hrest
    simp [List.iota] at hrest
  | cons x xs ih =>
    have h1 : g.avg_index - g.i = (g.avg_index - (g.i + 1)) + 1 := by omega
    rw [h1, List.iota, List.map_cons, List.cons.injEq] at hrest
    obtain ⟨hx, hxs⟩ := hrest
    have hx' : x.avg_index = g.avg_index - g.i := by omega
    by_cases hlt : g.i + 1 < g.avg_index
    · have hstep : averaging_step { cur := some g, qout := q, aborted := false } x =
          { cur := some { g with
              iout :=
                { g.iout with samples := fun j =>
                    if j < g.fft_size then g.iout.samples j + x.samples j / (g.avg_index : α)
                    else g.iout.samples j },
              i := g.i + 1 },
            qout := q, aborted := false } := by
        simp [averaging_step, hx', averaging_continue, hlt]
      have := ih { g with
          iout :=
            { g.iout with samples := fun j =>
                if j < g.fft_size then g.iout.samples j + x.samples j / (g.avg_index : α)
                else g.iout.samples j },
          i := g.i + 1 } hlt hxs
      simp only [averaging_from, List.foldl_cons] at this ⊢
      rw [hstep, this]
      congr 3
      simp only [Item.mk.injEq, true_and, and_true]
      funext j
      split <;> simp [add_assoc]
    · have hz : g.avg_index - (g.i + 1) = 0 := by omega
      rw [hz] at hxs
      have hnil : xs = [] := by simpa [List.iota] using hxs
      subst hnil
      simp [averaging_from, averaging_step, hx', averaging_continue, hlt]

/-- A complete group read from the idle state is replaced by its mean. -/
theorem averaging_group {α : Type} [Field α] (first : Item α) (rest : List (Item α))
    (q : List (Item α)) (K : Nat) (hK : 1 ≤ K)
    (hg : (first :: rest).map Item.avg_index = List.iota K) :
    averaging_from { cur := none, qout := q, aborted := false } (first :: rest) =
      { cur := none, qout := q ++ [averaged first (first :: rest)], aborted := false } := by
  obtain ⟨k, rfl⟩ : ∃ k, K = k + 1 := ⟨K - 1, by omega⟩
  rw [List.iota, List.map_cons, List.cons.injEq] at hg
  obtain ⟨hf, hr⟩ := hg
  have hlen : rest.length = k := by
    have := congrArg List.length hr
    simpa using this
  by_cases hlt : 1 < k + 1
  · have hstep : averaging_step { cur := none, qout := q, aborted := false } first =
        { cur := some {
            iout :=
              { first with samples := fun j =>
                  if j < 1 <<< first.log2_fft_size then first.samples j / ((k + 1 : ℕ) : α)
                  else first.samples j },
            avg_index := k + 1, fft_size := 1 <<< first.log2_fft_size, i := 1 },
          qout := q, aborted := false } := by
      simp [averaging_step, hf, averaging_continue]
      omega
    have := averaging_in_group rest {
        iout :=
          { first with samples := fun j =>
              if j < 1 <<< first.log2_fft_size then first.samples j / ((k + 1 : ℕ) : α)
              else first.samples j },
        avg_index := k + 1, fft_size := 1 <<< first.log2_fft_size, i := 1 } q hlt
        (by simpa using hr)
    simp only [averaging_from, List.foldl_cons] at this ⊢
    rw [hstep, this]
    simp only [averaged, AvgState.mk.injEq, true_and, and_true, List.append_cancel_left_eq,
      List.cons.injEq]
    congr 1
    funext j
    split
    · simp only [if_pos ‹_›, List.map_cons, List.sum_cons, List.length_cons, hlen]
      rw [sum_map_div_const, add_div]
    · simp [*]
  · have hk : k = 0 := by omega
    subst hk
    have hnil : rest = [] := by simpa using hlen
    subst hnil
    simp [averaging_from, averaging_step, hf, averaging_continue, averaged]

/-- A concatenation of complete groups read from the idle state yields the means of the
groups, in order. A group is given as its first Item and the Items that follow it. -/
theorem averaging_groups {α : Type} [Field α] (groups : List (Item α × List (Item α)))
    (q : List (Item α))
    (hg : ∀ g ∈ groups, ∃ K, 1 ≤ K ∧ (g.1 :: g.2).map Item.avg_index = List.iota K) :
    averaging_from { cur := none, qout := q, aborted := false }
        (groups.map fun g => g.1 :: g.2).flatten =
      { cur := none, qout := q ++ groups.map (fun g => averaged g.1 (g.1 :: g.2)),
        aborted := false } := by
  induction groups generalizing q with
  | nil => simp [averaging_from]
  | cons g gs ih =>
    obtain ⟨K, hK, hgK⟩ := hg g (List.mem_cons_self _ _)
    rw [List.map_cons, List.flatten_cons, averaging_from_append,
      averaging_group g.1 g.2 q K hK hgK, ih _ (fun g' hg' => hg g' (List.mem_cons_of_mem _ hg'))]
    simp

/-- Inside a group, a proper prefix of the Items that would complete it is accepted and
leaves the group in progress: nothing is inserted. -/
theorem averaging_partial_group {α : Type} [Field α] (more : List (Item α)) (g : AvgGroup α)
    (q : List (Item α)) (hi : g.i + more.length < g.avg_index)
    (hmore : more.map Item.avg_index = (List.iota (g.avg_index - g.i)).take more.length) :
    ∃ g' : AvgGroup α,
      averaging_from { cur := some g, qout := q, aborted := false } more =
        { cur := some g', qout := q, aborted := false } := by
  induction more generalizing g with
  | nil => exact ⟨g, rfl⟩
  | cons x xs ih =>
    simp only [List.length_cons] at hi hmore
    have h1 : g.avg_index - g.i = (g.avg_index - (g.i + 1)) + 1 := by omega
    rw [h1, List.iota, List.take_succ_cons, List.map_cons, List.cons.injEq] at hmore
    obtain ⟨hx, hxs⟩ := hmore
    have hx' : x.avg_index = g.avg_index - g.i := by omega
    have hlt : g.i + 1 < g.avg_index := by omega
    obtain ⟨g', hg'⟩ := ih { g with
        iout :=
          { g.iout with samples := fun j =>
              if j < g.fft_size then g.iout.samples j + x.samples j / (g.avg_index : α)
              else g.iout.samples j },
        i := g.i + 1 } (by simp only []; omega) hxs
    refine ⟨g', ?_⟩
    simp only [averaging_from, List.foldl_cons] at hg' ⊢
    rw [← hg']
    congr 1
    simp [averaging_step, hx', averaging_continue, hlt]

/-- Inside a group, with no more Items than the group still expects: the assertion fails
exactly when some Item has an `avg_index` other than the expected one. -/
theorem averaging_in_group_abort {α : Type} [Field α] (rest : List (Item α)) (g : AvgGroup α)
    (q : List (Item α)) (hi : g.i < g.avg_index) (hlen : rest.length ≤ g.avg_index - g.i) :
    (averaging_from { cur := some g, qout := q, aborted := false } rest).aborted = true ↔
      ∃ m it, rest[m]? = some it ∧ it.avg_index ≠ g.avg_index - (g.i + m) := by
  induction rest generalizing g with
  | nil => simp [averaging_from]
  | cons x xs ih =>
    simp only [List.length_cons] at hlen
    have hsplit : (∃ m it, (x :: xs)[m]? = some it ∧ it.avg_index ≠ g.avg_index - (g.i + m)) ↔
        (x.avg_index ≠ g.avg_index - g.i ∨
          ∃ m it, xs[m]? = some it ∧ it.avg_index ≠ g.avg_index - (g.i + 1 + m)) := by
      constructor
      · rintro ⟨m, it, hm, hne⟩
        cases m with
        | zero =>
          simp only [List.getElem?_cons_zero, Option.some.injEq] at hm
          subst hm
          exact Or.inl (by simpa using hne)
        | succ m =>
          simp only [List.getElem?_cons_succ] at hm
          exact Or.inr ⟨m, it, hm, by rwa [show g.i + 1 + m = g.i + (m + 1) by omega]⟩
      · rintro (hne | ⟨m, it, hm, hne⟩)
        · exact ⟨0, x, by simp, by simpa using hne⟩
        · exact ⟨m + 1, it, by simpa using hm,
            by rwa [show g.i + (m + 1) = g.i + 1 + m by omega]⟩
    rw [hsplit]
    by_cases hx : x.avg_index = g.avg_index - g.i
    · by_cases hlt : g.i + 1 < g.avg_index
      · have hstep : averaging_step { cur := some g, qout := q, aborted := false } x =
            { cur := some { g with
                iout :=
                  { g.iout with samples := fun j =>
                      if j < g.fft_size then g.iout.samples j + x.samples j / (g.avg_index : α)
                      else g.iout.samples j },
                i := g.i + 1 },
              qout := q, aborted := false } := by
          simp [averaging_step, hx, averaging_continue, hlt]
        have := ih { g with
            iout :=
              { g.iout with samples := fun j =>
                  if j < g.fft_size then g.iout.samples j + x.samples j / (g.avg_index : α)
                  else g.iout.samples j },
            i := g.i + 1 } hlt (by simp only []; omega)
        simp only [averaging_from, List.foldl_cons] at this ⊢
        rw [hstep, this]
        simp [hx]
      · have hnil : xs = [] := by
          apply List.eq_nil_of_length_eq_zero
          omega
        subst hnil
        simp [averaging_from, averaging_step, hx, averaging_continue, hlt]
    · have hstep : averaging_step { cur := some g, qout := q, aborted := false } x =
          { cur := some g, qout := q, aborted := true } := by
        simp [averaging_step, hx]
      simp only [averaging_from, List.foldl_cons]
      rw [hstep]
      have := averaging_from_aborted
        ({ cur := some g, qout := q, aborted := true } : AvgState α) xs rfl
      simp only [averaging_from] at this
      rw [this]
      simp [hx]

/-- C3. Averaging stage, in exact arithmetic: for a group of `K >= 1` Items whose
`avg_index` values are `K, K-1, ..., 1`, the one Item inserted is the first Item of the
group with `samples[j]` equal to the sum over the group of `samples[j]`, divided by `K`, for
every `j < fft_size`; all its other fields are those of the first Item, and its `avg_index`
is still `K`. -/
theorem averaging_group_mean {α : Type} [Field α] (first : Item α) (rest : List (Item α))
    (K : Nat) (hK : 1 ≤ K) (hg : (first :: rest).map Item.avg_index = List.iota K) :
    ∃ out : Item α, (averaging (first :: rest)).qout = [out] ∧
      (∀ j, j < 1 <<< first.log2_fft_size →
        out.samples j = ((first :: rest).map fun it => it.samples j).sum / (K : α)) ∧
      { out with samples := first.samples } = first ∧ out.avg_index = K := by
  refine ⟨averaged first (first :: rest), ?_, ?_, rfl, ?_⟩
  · have := averaging_group first rest [] K hK hg
    simp only [averaging, averaging_init]
    rw [this]
    simp
  · intro j hj
    have hlen : (first :: rest).length = K := by
      have := congrArg List.length hg
      simpa using this
    simp only [averaged, if_pos hj, hlen]
  · obtain ⟨k, rfl⟩ : ∃ k, K = k + 1 := ⟨K - 1, by omega⟩
    rw [List.iota, List.map_cons, List.cons.injEq] at hg
    exact hg.1

/-- C4. Averaging stage: for an input stream that is the concatenation of `G` complete
groups (each of `K_g >= 1` Items with `avg_index` values `K_g, ..., 1`) followed by upstream
exit, exactly `G` Items are inserted, the `g`-th being the mean of the `g`-th group, and the
`avg_index` assertion never fails. -/
theorem averaging_one_item_per_group {α : Type} [Field α]
    (groups : List (Item α × List (Item α)))
    (hg : ∀ g ∈ groups, ∃ K, 1 ≤ K ∧ (g.1 :: g.2).map Item.avg_index = List.iota K) :
    (averaging (groups.map fun g => g.1 :: g.2).flatten).qout =
        groups.map (fun g => averaged g.1 (g.1 :: g.2)) ∧
      (averaging (groups.map fun g => g.1 :: g.2).flatten).qout.length = groups.length ∧
      (averaging (groups.map fun g => g.1 :: g.2).flatten).aborted = false := by
  have := averaging_groups groups [] hg
  simp only [averaging, averaging_init]
  rw [this]
  simp

/-- C5. Averaging stage: if upstream exit is observed after the first Item of a group with
`avg_index = K > 1` was read and before all `K` Items were read (the Items read so far carry
the expected indices), the partially accumulated Item is not inserted: the output queue
holds exactly the means of the groups completed before, and the partial group is still
pending at exit. -/
theorem averaging_exit_mid_group {α : Type} [Field α]
    (groups : List (Item α × List (Item α))) (first : Item α) (more : List (Item α))
    (hg : ∀ g ∈ groups, ∃ K, 1 ≤ K ∧ (g.1 :: g.2).map Item.avg_index = List.iota K)
    (hlen : more.length + 1 < first.avg_index)
    (hmore : more.map Item.avg_index = (List.iota (first.avg_index - 1)).take more.length) :
    (averaging ((groups.map fun g => g.1 :: g.2).flatten ++ first :: more)).qout =
        groups.map (fun g => averaged g.1 (g.1 :: g.2)) ∧
      (averaging ((groups.map fun g => g.1 :: g.2).flatten ++ first :: more)).aborted = false ∧
      (averaging ((groups.map fun g => g.1 :: g.2).flatten ++ first :: more)).cur.isSome
        = true := by
  have h1 := averaging_groups groups [] hg
  have hstep : averaging_step
      { cur := none, qout := [] ++ groups.map (fun g => averaged g.1 (g.1 :: g.2)),
        aborted := false } first =
      { cur := some {
          iout :=
            { first with samples := fun j =>
                if j < 1 <<< first.log2_fft_size then first.samples j / (first.avg_index : α)
                else first.samples j },
          avg_index := first.avg_index, fft_size := 1 <<< first.log2_fft_size, i := 1 },
        qout := [] ++ groups.map (fun g => averaged g.1 (g.1 :: g.2)), aborted := false } := by
    simp [averaging_step, averaging_continue]
    omega
  obtain ⟨g', hg'⟩ := averaging_partial_group more {
      iout :=
        { first with samples := fun j =>
            if j < 1 <<< first.log2_fft_size then first.samples j / (first.avg_index : α)
            else first.samples j },
      avg_index := first.avg_index, fft_size := 1 <<< first.log2_fft_size, i := 1 }
    ([] ++ groups.map (fun g => averaged g.1 (g.1 :: g.2))) (by simp only []; omega) hmore
  have hall : averaging ((groups.map fun g => g.1 :: g.2).flatten ++ first :: more) =
      { cur := some g', qout := [] ++ groups.map (fun g => averaged g.1 (g.1 :: g.2)),
        aborted := false } := by
    simp only [averaging, averaging_init]
    rw [averaging_from_append, h1, ← hg']
    simp only [averaging_from, List.foldl_cons]
    rw [hstep]
  rw [hall]
  simp

/-- C6. Averaging stage: while a group whose first Item has `avg_index = K` is processed
(`rest` holds at most the `K-1` Items the group still expects), the stage aborts on a failed
assertion if and only if for some `i` with `1 <= i < K` the `i`-th following Item has an
`avg_index` other than `K - i`; and it never aborts on the first Item of a group, whatever
its `avg_index`. -/
theorem averaging_abort_iff {α : Type} [Field α] (q : List (Item α)) (first : Item α)
    (rest : List (Item α)) (hlen : rest.length ≤ first.avg_index - 1) :
    ((averaging_from { cur := none, qout := q, aborted := false } (first :: rest)).aborted
        = true ↔
      ∃ i, 1 ≤ i ∧ i < first.avg_index ∧
        ∃ it, rest[i - 1]? = some it ∧ it.avg_index ≠ first.avg_index - i) ∧
    (averaging_step { cur := none, qout := q, aborted := false } first).aborted = false := by
  constructor
  · by_cases hlt : 1 < first.avg_index
    · have hstep : averaging_step { cur := none, qout := q, aborted := false } first =
          { cur := some {
              iout :=
                { first with samples := fun j =>
                    if j < 1 <<< first.log2_fft_size then
                      first.samples j / (first.avg_index : α)
                    else first.samples j },
              avg_index := first.avg_index, fft_size := 1 <<< first.log2_fft_size, i := 1 },
            qout := q, aborted := false } := by
        simp [averaging_step, averaging_continue]
        omega
      have := averaging_in_group_abort rest {
          iout :=
            { first with samples := fun j =>
                if j < 1 <<< first.log2_fft_size then first.samples j / (first.avg_index : α)
                else first.samples j },
          avg_index := first.avg_index, fft_size := 1 <<< first.log2_fft_size, i := 1 }
        q hlt hlen
      simp only [averaging_from, List.foldl_cons] at this ⊢
      rw [hstep, this]
      constructor
      · rintro ⟨m, it, hm, hne⟩
        have hmlt : m < rest.length := by
          by_contra hcon
          rw [List.getElem?_eq_none (by omega)] at hm
          exact absurd hm (by simp)
        have h1m : 1 ≤ m + 1 := Nat.succ_le_succ (Nat.zero_le m)
        have hmK : m + 1 < first.avg_index := by
          clear this hstep hne hm
          omega
        have hne' : it.avg_index ≠ first.avg_index - (m + 1) := by
          rwa [Nat.add_comm m 1]
        exact ⟨m + 1, h1m, hmK, it, by simpa using hm, hne'⟩
      · rintro ⟨i, hi1, -, it, hm, hne⟩
        have hi : 1 + (i - 1) = i := by
          clear this hstep hne hm
          omega
        exact ⟨i - 1, it, hm, by rwa [hi]⟩
    · have hnil : rest = [] := by
        apply List.eq_nil_of_length_eq_zero
        omega
      subst hnil
      have hna : (averaging_from { cur := none, qout := q, aborted := false }
          [first]).aborted = false := by
        simp [averaging_from, averaging_step, averaging_continue]
        split <;> rfl
      rw [hna]
      simp
  · simp [averaging_step, averaging_continue]
    split <;> rfl

/-! ## Sampling stage: what a sweep inserts -/

theorem sampling_hop_qout {α : Type} [Field α] (cos2pi : ℚ → α) (ctx : SamplingWindowingCTX)
    (gettimeofday : Nat → Nat × Nat) (SDR_read : Nat → Nat → Nat)
    (s : SamplingState α) (i : Nat) :
    (sampling_hop cos2pi ctx gettimeofday SDR_read s i).qout =
      s.qout ++ sampling_hop_items cos2pi ctx gettimeofday SDR_read i := by
  simp only [sampling_hop, sampling_hop_items]
  split_ifs <;> rfl

theorem sampling_hops_qout {α : Type} [Field α] (cos2pi : ℚ → α) (ctx : SamplingWindowingCTX)
    (gettimeofday : Nat → Nat × Nat) (SDR_read : Nat → Nat → Nat)
    (hops : List Nat) (s : SamplingState α) :
    (hops.foldl (sampling_hop cos2pi ctx gettimeofday SDR_read) s).qout =
      s.qout ++ hops.flatMap (sampling_hop_items cos2pi ctx gettimeofday SDR_read) := by
  induction hops generalizing s with
  | nil => simp
  | cons i rest ih =>
    rw [List.foldl_cons, ih, sampling_hop_qout, List.flatMap_cons, List.append_assoc]

theorem sampling_sweep_qout {α : Type} [Field α] (cos2pi : ℚ → α) (ctx : SamplingWindowingCTX)
    (gettimeofday : Nat → Nat × Nat) (SDR_read : Nat → Nat → Nat) (s : SamplingState α) :
    (sampling_sweep cos2pi ctx gettimeofday SDR_read s).qout =
      s.qout ++ (List.range ctx.length).flatMap
        (sampling_hop_items cos2pi ctx gettimeofday SDR_read) := by
  rw [sampling_sweep, sampling_hops_qout]

theorem range_map_sub_eq_iota (n : Nat) : (List.range n).map (fun j => n - j) = List.iota n := by
  induction n with
  | zero => rfl
  | succ n ih =>
    rw [List.range_succ_eq_map, List.map_cons, List.map_map, List.iota]
    congr 1
    rw [← ih]
    apply List.map_congr_left
    intro j _
    simp

/-- C2. Sampling/windowing stage: for every sweep plan of length `N`, the Items inserted
during one sweep are, in order, for `i = 0..N-1` and `j = 0..avg_factors[i]-1`, an Item with
`Fc = center_freqs[i]`, `avg_factor = avg_factors[i]` and `avg_index = avg_factors[i] - j`;
hence each hop emits the `avg_index` values `avg_factor, avg_factor-1, ..., 1` and the sweep
emits exactly the sum of the `avg_factors[i]` Items. -/
theorem sampling_sweep_items {α : Type} [Field α] (cos2pi : ℚ → α)
    (ctx : SamplingWindowingCTX) (gettimeofday : Nat → Nat × Nat) (SDR_read : Nat → Nat → Nat)
    (s : SamplingState α) :
    ∃ items : List (Item α),
      (sampling_sweep cos2pi ctx gettimeofday SDR_read s).qout = s.qout ++ items ∧
      items.map (fun it => (it.Fc, it.avg_factor, it.avg_index)) =
        (List.range ctx.length).flatMap (fun i =>
          (List.range (ctx.avg_factors.getD i 0)).map fun j =>
            (ctx.center_freqs.getD i 0, ctx.avg_factors.getD i 0,
              ctx.avg_factors.getD i 0 - j)) ∧
      items.map Item.avg_index =
        (List.range ctx.length).flatMap (fun i => List.iota (ctx.avg_factors.getD i 0)) ∧
      items.length = ((List.range ctx.length).map fun i => ctx.avg_factors.getD i 0).sum := by
  refine ⟨_, sampling_sweep_qout cos2pi ctx gettimeofday SDR_read s, ?_, ?_, ?_⟩
  · rw [List.map_flatMap]
    congr 1
    funext i
    simp [sampling_hop_items, sampling_segment, Function.comp_def]
  · rw [List.map_flatMap]
    congr 1
    funext i
    rw [← range_map_sub_eq_iota]
    simp [sampling_hop_items, sampling_segment, Function.comp_def]
  · rw [List.length_flatMap]
    congr 1
    apply List.map_congr_left
    intro i _
    simp [sampling_hop_items]

/-! ## Sequential planner -/

theorem to_uint_natCast_div (a b : Nat) :
    to_uint ((a : ℚ) / (b : ℚ)) = (a / b) % UINT_MOD := by
  simp [to_uint, Nat.floor_div_eq_div]

theorem to_uint_add_half (m step : Nat) :
    to_uint ((m : ℚ) + (1 / 2 : ℚ) * (step : ℚ)) = (m + step / 2) % UINT_MOD := by
  have h : (m : ℚ) + (1 / 2 : ℚ) * (step : ℚ) = ((2 * m + step : Nat) : ℚ) / ((2 : Nat) : ℚ) := by
    push_cast
    ring
  rw [h, to_uint_natCast_div]
  congr 1
  omega

theorem usub_of_le (a b : Nat) (hle : b ≤ a) (ha : a < UINT_MOD) : usub a b = a - b := by
  unfold usub
  rw [Nat.mod_eq_of_lt ha, Nat.mod_eq_of_lt (lt_of_le_of_lt hle ha)]
  have h : a + UINT_MOD - b = (a - b) + UINT_MOD := by omega
  rw [h, Nat.add_mod_right, Nat.mod_eq_of_lt (by omega)]

theorem center_freqs_loop_eq (step : Nat) (n prev : Nat)
    (hfit : ∀ k, k ≤ n → prev + k * step < UINT_MOD) :
    center_freqs_loop step n prev = (List.range n).map fun k => prev + (k + 1) * step := by
  induction n generalizing prev with
  | zero => rfl
  | succ n ih =>
    have h1 : (prev + step) % UINT_MOD = prev + step := by
      apply Nat.mod_eq_of_lt
      simpa using hfit 1 (by omega)
    rw [center_freqs_loop, h1, List.range_succ_eq_map, List.map_cons, List.map_map,
      ih (prev + step) (fun k hk => by
        have := hfit (k + 1) (by omega)
        rw [Nat.succ_mul] at this
        omega)]
    congr 1
    · simp
    · apply List.map_congr_left
      intro k _
      simp only [Function.comp_apply, Nat.succ_eq_add_one]
      ring

theorem sequential_center_freqs_eq (ctx : SpectrumMonitoringCTX) (N : Nat)
    (hfit : ∀ i, i < N → ctx.min_freq + hopping_freq_step ctx / 2 + i * hopping_freq_step ctx
      < UINT_MOD) :
    sequential_center_freqs ctx N =
      (List.range N).map fun i =>
        ctx.min_freq + hopping_freq_step ctx / 2 + i * hopping_freq_step ctx := by
  cases N with
  | zero => simp [sequential_center_freqs]
  | succ n =>
    have h0 := hfit 0 (by omega)
    simp only [Nat.zero_mul, Nat.add_zero] at h0
    simp only [sequential_center_freqs, to_uint_add_half, Nat.mod_eq_of_lt h0,
      Nat.add_sub_cancel]
    rw [center_freqs_loop_eq _ _ _ (fun k hk => hfit k (by omega)), List.take_of_length_le
      (by simp), List.range_succ_eq_map, List.map_cons, List.map_map]
    congr 1
    simp

/-- The plan computed by the first call of the sequential planner, in closed form. -/
theorem sequential_plan_first_call (ctx : SpectrumMonitoringCTX) (p : HoppingPlan)
    (freq_step N : Nat) (hp : p.length = 0) (hstep : freq_step = hopping_freq_step ctx)
    (hpos : 0 < freq_step) (hle : ctx.min_freq ≤ ctx.max_freq) (hmax : ctx.max_freq < UINT_MOD)
    (hN : N = (ctx.max_freq - ctx.min_freq + 1000000) / freq_step) (hNfit : N < UINT_MOD)
    (hfit : ∀ i, i < N → ctx.min_freq + freq_step / 2 + i * freq_step < UINT_MOD) :
    (sequential_hopping_strategy ctx p).length = N ∧
    (sequential_hopping_strategy ctx p).center_freqs =
      (List.range N).map (fun i => ctx.min_freq + freq_step / 2 + i * freq_step) ∧
    (sequential_hopping_strategy ctx p).samp_rates = List.replicate N ctx.samp_rate ∧
    (sequential_hopping_strategy ctx p).log2_fft_sizes = List.replicate N ctx.log2_fft_size ∧
    (sequential_hopping_strategy ctx p).avg_factors = List.replicate N ctx.avg_factor ∧
    (sequential_hopping_strategy ctx p).soverlaps = List.replicate N ctx.soverlap ∧
    (sequential_hopping_strategy ctx p).freq_overlaps = List.replicate N ctx.freq_overlap ∧
    (sequential_hopping_strategy ctx p).window_funs =
      List.replicate N (select_window_fun ctx.window_fun_id) := by
  have hlen : hopping_length ctx = N := by
    unfold hopping_length
    rw [usub_of_le _ _ hle hmax, ← hstep]
    have h : ((ctx.max_freq - ctx.min_freq : Nat) : ℚ) + 1000000 =
        ((ctx.max_freq - ctx.min_freq + 1000000 : Nat) : ℚ) := by
      push_cast
      ring
    rw [h, to_uint_natCast_div, ← hN, Nat.mod_eq_of_lt hNfit]
  subst hstep
  have hc := sequential_center_freqs_eq ctx N hfit
  simp only [sequential_hopping_strategy, hp, le_refl, if_true, hlen, hc]
  simp

/-- C9. Sequential planner, first call, given `freq_step > 0`, `min_freq <= max_freq` and no
32-bit overflow: the plan length is `N = (max_freq - min_freq + 1000000) / freq_step`
(integer division), `center_freqs[i] = min_freq + freq_step / 2 + i * freq_step` for every
`i < N`, and every other per-step array holds the single configured value at each of its
`N` indices. -/
theorem sequential_plan_formula (ctx : SpectrumMonitoringCTX) (p : HoppingPlan)
    (freq_step N : Nat) (hp : p.length = 0) (hstep : freq_step = hopping_freq_step ctx)
    (hpos : 0 < freq_step) (hle : ctx.min_freq ≤ ctx.max_freq) (hmax : ctx.max_freq < UINT_MOD)
    (hN : N = (ctx.max_freq - ctx.min_freq + 1000000) / freq_step) (hNfit : N < UINT_MOD)
    (hfit : ∀ i, i < N → ctx.min_freq + freq_step / 2 + i * freq_step < UINT_MOD) :
    (sequential_hopping_strategy ctx p).length = N ∧
    (sequential_hopping_strategy ctx p).center_freqs =
      (List.range N).map (fun i => ctx.min_freq + freq_step / 2 + i * freq_step) ∧
    (sequential_hopping_strategy ctx p).samp_rates = List.replicate N ctx.samp_rate ∧
    (sequential_hopping_strategy ctx p).log2_fft_sizes = List.replicate N ctx.log2_fft_size ∧
    (sequential_hopping_strategy ctx p).avg_factors = List.replicate N ctx.avg_factor ∧
    (sequential_hopping_strategy ctx p).soverlaps = List.replicate N ctx.soverlap ∧
    (sequential_hopping_strategy ctx p).freq_overlaps = List.replicate N ctx.freq_overlap ∧
    (sequential_hopping_strategy ctx p).window_funs =
      List.replicate N (select_window_fun ctx.window_fun_id) :=
  sequential_plan_first_call ctx p freq_step N hp hstep hpos hle hmax hN hNfit hfit

/-- C7 (as stated in the specification, refuted). In scenario 1 the sequential planner does
not produce a plan with the single center frequency 100.5 MHz. -/
theorem sequential_scenario1_not_single :
    ¬ ((sequential_hopping_strategy scenario1_ctx plan_init).length = 1 ∧
       (sequential_hopping_strategy scenario1_ctx plan_init).center_freqs = [100500000]) := by
  have h := sequential_plan_first_call scenario1_ctx plan_init 1000000 2 rfl
    (by norm_num [hopping_freq_step, scenario1_ctx, to_uint, UINT_MOD])
    (by decide) (by decide) (by decide) (by decide) (by decide)
    (by intro i hi; interval_cases i <;> decide)
  rw [h.1]
  intro hcon
  exact absurd hcon.1 (by decide)

/-- C7 (amended). Scenario 1: for `min_freq = 100000000`, `max_freq = 101000000`,
`samp_rate = 1000000`, `freq_overlap = 0` the sequential planner produces a plan with
exactly two center frequencies, 100500000 Hz and 101500000 Hz; with `avg_factor = 1` a sweep
over that plan inserts exactly two Items into the queue of the FFT stage. -/
theorem sequential_scenario1_plan (cos2pi : ℚ → ℚ) (gettimeofday : Nat → Nat × Nat)
    (SDR_read : Nat → Nat → Nat) (s : SamplingState ℚ) :
    (sequential_hopping_strategy scenario1_ctx plan_init).length = 2 ∧
    (sequential_hopping_strategy scenario1_ctx plan_init).center_freqs
      = [100500000, 101500000] ∧
    (sampling_sweep cos2pi
      (publish_plan scenario1_ctx (sequential_hopping_strategy scenario1_ctx plan_init))
      gettimeofday SDR_read s).qout.length = s.qout.length + 2 := by
  have h := sequential_plan_first_call scenario1_ctx plan_init 1000000 2 rfl
    (by norm_num [hopping_freq_step, scenario1_ctx, to_uint, UINT_MOD])
    (by decide) (by decide) (by decide) (by decide) (by decide)
    (by intro i hi; interval_cases i <;> decide)
  obtain ⟨hl, hc, -, -, ha, -⟩ := h
  refine ⟨hl, ?_, ?_⟩
  · rw [hc]
    decide
  · rw [sampling_sweep_qout, List.length_append, List.length_flatMap]
    congr 1
    simp only [publish_plan, hl, ha, sampling_hop_items, Function.comp_def, List.length_map,
      List.length_range]
    decide

/-- C8 (the code at the failing input). The Item of scenario 1 (`log2_fft_size = 4`,
`freq_overlap = 0`, `samp_rate = 1000000`, `Fc = 100500000`) makes the dumping stage write
17 lines, not 16, although `fft_size` is 16 and the payload holds 16 magnitudes: the last
line prints `samples[16]`, one slot past the payload. -/
theorem dumping_scenario1_lines :
    (dumping_item scenario1_item).length = 17 ∧
    1 <<< scenario1_item.log2_fft_size = 16 ∧
    scenario1_item.samples_size / SIZEOF_FLOAT = 16 ∧
    ((dumping_item scenario1_item).getLast?).map (fun l => l.power)
      = some (scenario1_item.samples 16) := by
  have hr : dumping_reduced_fft_size scenario1_item = 17 := by
    norm_num [dumping_reduced_fft_size, scenario1_item, to_uint, UINT_MOD, Nat.shiftLeft_eq]
  refine ⟨?_, by decide, by decide, ?_⟩
  · simp [dumping_item, hr]
  · simp only [dumping_item, hr]
    simp [List.range_succ]

/-- C10 (the code at two failing inputs). With a sample rate of 2.4 MHz and no frequency
overlap (`freq_step = 2400000`): for the band 100 MHz - 100 MHz the plan is empty, and for
the band 100 MHz - 103 MHz the plan is the single center frequency 101.2 MHz, whose upper
edge 102.4 MHz lies below `max_freq`. -/
theorem sequential_band_not_covered :
    narrow_band_ctx.min_freq ≤ narrow_band_ctx.max_freq ∧
    0 < hopping_freq_step narrow_band_ctx ∧
    (sequential_hopping_strategy narrow_band_ctx plan_init).length = 0 ∧
    wide_step_ctx.min_freq ≤ wide_step_ctx.max_freq ∧
    hopping_freq_step wide_step_ctx = 2400000 ∧
    (sequential_hopping_strategy wide_step_ctx plan_init).center_freqs = [101200000] ∧
    101200000 + hopping_freq_step wide_step_ctx / 2 < wide_step_ctx.max_freq := by
  have hs1 : hopping_freq_step narrow_band_ctx = 2400000 := by
    norm_num [hopping_freq_step, narrow_band_ctx, scenario1_ctx, to_uint, UINT_MOD]
  have hs2 : hopping_freq_step wide_step_ctx = 2400000 := by
    norm_num [hopping_freq_step, wide_step_ctx, scenario1_ctx, to_uint, UINT_MOD]
  have h1 := sequential_plan_first_call narrow_band_ctx plan_init 2400000 0 rfl hs1.symm
    (by decide) (by decide) (by decide) (by decide) (by decide)
    (by intro i hi; omega)
  have h2 := sequential_plan_first_call wide_step_ctx plan_init 2400000 1 rfl hs2.symm
    (by decide) (by decide) (by decide) (by decide) (by decide)
    (by intro i hi; interval_cases i; decide)
  refine ⟨by decide, by rw [hs1]; decide, h1.1, by decide, hs2, ?_, ?_⟩
  · rw [h2.2.1]
    decide
  · rw [hs2]
    decide

/-- The band is covered whenever the step does not exceed the widening constant: with
`0 < freq_step <= 1000000` and `min_freq <= max_freq` the plan length
`N = (max_freq - min_freq + 1000000) / freq_step` is at least 1 and the upper edge of the
last hop, `min_freq + freq_step/2 + (N-1)*freq_step + freq_step/2`, is at least `max_freq`. -/
theorem sequential_band_covered_of_small_step (min_freq max_freq freq_step : Nat)
    (hpos : 0 < freq_step) (hsmall : freq_step ≤ 1000000) (hle : min_freq ≤ max_freq) :
    1 ≤ (max_freq - min_freq + 1000000) / freq_step ∧
    max_freq ≤ min_freq + freq_step / 2
      + ((max_freq - min_freq + 1000000) / freq_step - 1) * freq_step + freq_step / 2 := by
  have hN : 1 ≤ (max_freq - min_freq + 1000000) / freq_step := by
    rw [Nat.one_le_div_iff hpos]
    omega
  refine ⟨hN, ?_⟩
  obtain ⟨n, hn⟩ : ∃ n, (max_freq - min_freq + 1000000) / freq_step = n + 1 :=
    ⟨(max_freq - min_freq + 1000000) / freq_step - 1, by omega⟩
  have hdm := Nat.div_add_mod (max_freq - min_freq + 1000000) freq_step
  have hmod := Nat.mod_lt (max_freq - min_freq + 1000000) hpos
  rw [hn] at hdm ⊢
  rw [Nat.mul_succ] at hdm
  rw [Nat.add_sub_cancel]
  have hcomm : n * freq_step = freq_step * n := Nat.mul_comm _ _
  have hhalf : freq_step ≤ 2 * (freq_step / 2) + 1 := by omega
  omega

/-- C1 at a concrete input: three Items, the last of a different FFT size, batches of two. -/
theorem fft_output_is_input_witness :
    1 ≤ 2 ∧
    List.Forall₂ fft_processed
      [sample_item 1 4 2 (fun _ => 1), sample_item 2 4 1 (fun _ => 2),
        sample_item 3 5 1 (fun _ => 3)]
      (fft (fun _ ins i => ins.getD i (fun _ => 0)) 2
        [sample_item 1 4 2 (fun _ => 1), sample_item 2 4 1 (fun _ => 2),
          sample_item 3 5 1 (fun _ => 3)]).qout :=
  ⟨by decide, fft_output_is_input _ 2 _ (by decide)⟩

/-- C3 at a concrete input: a group of three Items. -/
theorem averaging_group_mean_witness :
    1 ≤ 3 ∧
    ([sample_item 1 1 3 (fun _ => 3), sample_item 1 1 2 (fun _ => 6),
      sample_item 1 1 1 (fun _ => 9)].map Item.avg_index = List.iota 3) ∧
    ∃ out : Item ℚ,
      (averaging [sample_item 1 1 3 (fun _ => 3), sample_item 1 1 2 (fun _ => 6),
        sample_item 1 1 1 (fun _ => 9)]).qout = [out] ∧
      (∀ j, j < 1 <<< (sample_item 1 1 3 (fun _ => 3)).log2_fft_size →
        out.samples j =
          ([sample_item 1 1 3 (fun _ => 3), sample_item 1 1 2 (fun _ => 6),
            sample_item 1 1 1 (fun _ => 9)].map fun it => it.samples j).sum / ((3 : Nat) : ℚ)) ∧
      { out with samples := (sample_item 1 1 3 (fun _ => 3)).samples }
        = sample_item 1 1 3 (fun _ => 3) ∧
      out.avg_index = 3 :=
  ⟨by decide, by decide,
    averaging_group_mean (sample_item 1 1 3 (fun _ => 3))
      [sample_item 1 1 2 (fun _ => 6), sample_item 1 1 1 (fun _ => 9)] 3 (by decide)
      (by decide)⟩

/-- C4 at a concrete input: a group of three Items followed by a group of one. -/
theorem averaging_one_item_per_group_witness :
    (averaging ([(sample_item 1 1 3 (fun _ => 3),
          [sample_item 1 1 2 (fun _ => 6), sample_item 1 1 1 (fun _ => 9)]),
        (sample_item 2 1 1 (fun _ => 5), [])].map fun g => g.1 :: g.2).flatten).qout =
      [(sample_item 1 1 3 (fun _ => 3),
          [sample_item 1 1 2 (fun _ => 6), sample_item 1 1 1 (fun _ => 9)]),
        (sample_item 2 1 1 (fun _ => 5), [])].map (fun g => averaged g.1 (g.1 :: g.2)) ∧
    (averaging ([(sample_item 1 1 3 (fun _ => 3),
          [sample_item 1 1 2 (fun _ => 6), sample_item 1 1 1 (fun _ => 9)]),
        (sample_item 2 1 1 (fun _ => 5), [])].map fun g => g.1 :: g.2).flatten).qout.length =
      [(sample_item 1 1 3 (fun _ => 3),
          [sample_item 1 1 2 (fun _ => 6), sample_item 1 1 1 (fun _ => 9)]),
        (sample_item 2 1 1 (fun _ => 5), [])].length ∧
    (averaging ([(sample_item 1 1 3 (fun _ => 3),
          [sample_item 1 1 2 (fun _ => 6), sample_item 1 1 1 (fun _ => 9)]),
        (sample_item 2 1 1 (fun _ => 5), [])].map fun g => g.1 :: g.2).flatten).aborted
      = false :=
  averaging_one_item_per_group
    [(sample_item 1 1 3 (fun _ => 3),
        [sample_item 1 1 2 (fun _ => 6), sample_item 1 1 1 (fun _ => 9)]),
      (sample_item 2 1 1 (fun _ => 5), [])]
    (by
      intro g hg
      simp only [List.mem_cons, List.mem_singleton, List.not_mem_nil, or_false] at hg
      rcases hg with rfl | rfl
      · exact ⟨3, by decide, by decide⟩
      · exact ⟨1, by decide, by decide⟩)

/-- C5 at a concrete input: a complete group of one, then two of the three Items of the
next group. -/
theorem averaging_exit_mid_group_witness :
    (averaging (([(sample_item 2 1 1 (fun _ => 5), [])].map fun g => g.1 :: g.2).flatten
        ++ sample_item 1 1 3 (fun _ => 3) :: [sample_item 1 1 2 (fun _ => 6)])).qout =
      [(sample_item 2 1 1 (fun _ => 5), [])].map (fun g => averaged g.1 (g.1 :: g.2)) ∧
    (averaging (([(sample_item 2 1 1 (fun _ => 5), [])].map fun g => g.1 :: g.2).flatten
        ++ sample_item 1 1 3 (fun _ => 3) :: [sample_item 1 1 2 (fun _ => 6)])).aborted
      = false ∧
    (averaging (([(sample_item 2 1 1 (fun _ => 5), [])].map fun g => g.1 :: g.2).flatten
        ++ sample_item 1 1 3 (fun _ => 3) :: [sample_item 1 1 2 (fun _ => 6)])).cur.isSome
      = true :=
  averaging_exit_mid_group [(sample_item 2 1 1 (fun _ => 5), [])]
    (sample_item 1 1 3 (fun _ => 3)) [sample_item 1 1 2 (fun _ => 6)]
    (by
      intro g hg
      simp only [List.mem_singleton] at hg
      subst hg
      exact ⟨1, by decide, by decide⟩)
    (by decide) (by decide)

/-- C6 at a concrete input: a group announced with `avg_index = 3` whose second following
Item repeats the index 2. -/
theorem averaging_abort_iff_witness :
    ((averaging_from { cur := none, qout := [], aborted := false }
        (sample_item 1 1 3 (fun _ => 3) ::
          [sample_item 1 1 2 (fun _ => 6), sample_item 1 1 2 (fun _ => 9)])).aborted = true ↔
      ∃ i, 1 ≤ i ∧ i < (sample_item 1 1 3 (fun _ => 3)).avg_index ∧
        ∃ it, [sample_item 1 1 2 (fun _ => 6), sample_item 1 1 2 (fun _ => 9)][i - 1]? = some it ∧
          it.avg_index ≠ (sample_item 1 1 3 (fun _ => 3)).avg_index - i) ∧
    (averaging_step { cur := none, qout := [], aborted := false }
      (sample_item 1 1 3 (fun _ => 3))).aborted = false :=
  averaging_abort_iff [] (sample_item 1 1 3 (fun _ => 3))
    [sample_item 1 1 2 (fun _ => 6), sample_item 1 1 2 (fun _ => 9)] (by decide)

/-- C9 at a concrete input: the configuration of scenario 1, `freq_step = 1000000`,
`N = 2`. -/
theorem sequential_plan_formula_witness :
    (sequential_hopping_strategy scenario1_ctx plan_init).length = 2 ∧
    (sequential_hopping_strategy scenario1_ctx plan_init).center_freqs =
      (List.range 2).map (fun i => scenario1_ctx.min_freq + 1000000 / 2 + i * 1000000) ∧
    (sequential_hopping_strategy scenario1_ctx plan_init).samp_rates
      = List.replicate 2 scenario1_ctx.samp_rate ∧
    (sequential_hopping_strategy scenario1_ctx plan_init).log2_fft_sizes
      = List.replicate 2 scenario1_ctx.log2_fft_size ∧
    (sequential_hopping_strategy scenario1_ctx plan_init).avg_factors
      = List.replicate 2 scenario1_ctx.avg_factor ∧
    (sequential_hopping_strategy scenario1_ctx plan_init).soverlaps
      = List.replicate 2 scenario1_ctx.soverlap ∧
    (sequential_hopping_strategy scenario1_ctx plan_init).freq_overlaps
      = List.replicate 2 scenario1_ctx.freq_overlap ∧
    (sequential_hopping_strategy scenario1_ctx plan_init).window_funs =
      List.replicate 2 (select_window_fun scenario1_ctx.window_fun_id) :=
  sequential_plan_formula scenario1_ctx plan_init 1000000 2 rfl
    (by norm_num [hopping_freq_step, scenario1_ctx, to_uint, UINT_MOD])
    (by decide) (by decide) (by decide) (by decide) (by decide)
    (by intro i hi; interval_cases i <;> decide)

/-! ## Sequential planner: a second call changes nothing -/

/-- C11. Sequential planner idempotence: calling `sequential_hopping_strategy` twice with
unchanged parameters (and unchanged shared `clk_off`) yields identical plans: the plan
variables after the second call (length, `center_freqs`, `samp_rates`, `log2_fft_sizes`,
`avg_factors`, `soverlaps`, `freq_overlaps`, `window_funs`, `clk_off`) are those after the
first. -/
theorem sequential_idempotent (ctx : SpectrumMonitoringCTX) (p : HoppingPlan) :
    sequential_hopping_strategy ctx (sequential_hopping_strategy ctx p) =
      sequential_hopping_strategy ctx p := by
  by_cases hp : p.length ≤ 0
  · by_cases hl : hopping_length ctx ≤ 0
    · simp [sequential_hopping_strategy, hp, hl]
    · simp [sequential_hopping_strategy, hp, hl]
  · simp [sequential_hopping_strategy, hp]

/-! ## Random planner -/

theorem to_uint_lt (x : ℚ) : to_uint x < UINT_MOD :=
  Nat.mod_lt _ (by decide)

/-- The offset drawn at line 984 stays within `0 .. max_f - min_f`. -/
theorem random_offset_le (min_f max_f r : Nat) (hle : min_f ≤ max_f) (hmax : max_f < UINT_MOD) :
    (r % UINT_MOD) % ((usub max_f min_f + 1) % UINT_MOD) ≤ max_f - min_f := by
  rw [usub_of_le _ _ hle hmax]
  by_cases h : max_f - min_f + 1 < UINT_MOD
  · rw [Nat.mod_eq_of_lt h]
    have := Nat.mod_lt (r % UINT_MOD) (show 0 < max_f - min_f + 1 by omega)
    omega
  · have h1 : max_f - min_f + 1 = UINT_MOD := by omega
    rw [h1, Nat.mod_self, Nat.mod_zero]
    have := Nat.mod_lt r (show 0 < UINT_MOD by decide)
    omega

/-- C18. Random planner: whenever `max_f >= min_f`, for every stream of `rand()` values each
planned `center_freqs[i]` is `(min_f + k) * resolution` as an `unsigned int` (the product
reduced modulo `2^32`, hence the product itself whenever `max_f * resolution` fits in 32
bits) for some `k` with `0 <= k <= max_f - min_f`, where `resolution`, `min_f` and `max_f`
are the values of lines 980-983; the plan length equals that of the sequential planner. -/
theorem random_plan_on_grid (ctx : SpectrumMonitoringCTX) (rand : Nat → Nat) (p : HoppingPlan)
    (hle : random_min_f ctx ≤ random_max_f ctx) :
    (random_hopping_strategy ctx rand p).1.length = (sequential_hopping_strategy ctx p).length ∧
    (random_hopping_strategy ctx rand p).1.center_freqs.length
      = (random_hopping_strategy ctx rand p).1.length ∧
    ∀ i, i < (random_hopping_strategy ctx rand p).1.length →
      ∃ k, k ≤ random_max_f ctx - random_min_f ctx ∧
        (random_hopping_strategy ctx rand p).1.center_freqs.getD i 0
          = ((random_min_f ctx + k) * random_resolution ctx) % UINT_MOD ∧
        (random_max_f ctx * random_resolution ctx < UINT_MOD →
          (random_hopping_strategy ctx rand p).1.center_freqs.getD i 0
            = (random_min_f ctx + k) * random_resolution ctx) := by
  refine ⟨?_, ?_, ?_⟩
  · simp only [random_hopping_strategy, sequential_hopping_strategy]
    split_ifs <;> rfl
  · simp [random_hopping_strategy]
  · intro i hi
    have hk := random_offset_le (random_min_f ctx) (random_max_f ctx) (rand i) hle
      (to_uint_lt _)
    refine ⟨(rand i % UINT_MOD) % ((usub (random_max_f ctx) (random_min_f ctx) + 1) % UINT_MOD),
      hk, ?_, ?_⟩
    · simp only [random_hopping_strategy] at hi ⊢
      rw [List.getD_eq_getElem _ _ (by simpa using hi)]
      simp [random_center_freq]
    · intro hfit
      simp only [random_hopping_strategy] at hi ⊢
      rw [List.getD_eq_getElem _ _ (by simpa using hi)]
      simp only [List.getElem_map, List.getElem_range, random_center_freq]
      apply Nat.mod_eq_of_lt
      refine lt_of_le_of_lt (Nat.mul_le_mul_right _ ?_) hfit
      omega

/-- C18 at a concrete input: scenario 1, where `min_f = 1608`, `max_f = 1609` and
`resolution = 62500`. -/
theorem random_plan_on_grid_witness :
    (random_hopping_strategy scenario1_ctx (fun n => 7 * n + 3) plan_init).1.length
      = (sequential_hopping_strategy scenario1_ctx plan_init).length ∧
    (random_hopping_strategy scenario1_ctx (fun n => 7 * n + 3) plan_init).1.center_freqs.length
      = (random_hopping_strategy scenario1_ctx (fun n => 7 * n + 3) plan_init).1.length ∧
    ∀ i, i < (random_hopping_strategy scenario1_ctx (fun n => 7 * n + 3) plan_init).1.length →
      ∃ k, k ≤ random_max_f scenario1_ctx - random_min_f scenario1_ctx ∧
        (random_hopping_strategy scenario1_ctx (fun n => 7 * n + 3) plan_init).1.center_freqs.getD
            i 0
          = ((random_min_f scenario1_ctx + k) * random_resolution scenario1_ctx) % UINT_MOD ∧
        (random_max_f scenario1_ctx * random_resolution scenario1_ctx < UINT_MOD →
          (random_hopping_strategy scenario1_ctx (fun n => 7 * n + 3)
              plan_init).1.center_freqs.getD i 0
            = (random_min_f scenario1_ctx + k) * random_resolution scenario1_ctx) :=
  random_plan_on_grid scenario1_ctx (fun n => 7 * n + 3) plan_init (by
    have h1 : random_min_f scenario1_ctx = 1608 := by
      norm_num [random_min_f, random_resolution, hopping_freq_step, scenario1_ctx, to_uint,
        UINT_MOD, Nat.shiftLeft_eq]
    have h2 : random_max_f scenario1_ctx = 1609 := by
      norm_num [random_max_f, random_resolution, hopping_freq_step, scenario1_ctx, to_uint,
        UINT_MOD, Nat.shiftLeft_eq]
    rw [h1, h2]
    decide)

/-! ## Dumping stage: emitted frequencies -/

theorem dumping_item_freq {α : Type} (iin : Item α) (i : Nat)
    (hi : i < dumping_reduced_fft_size iin) :
    ((dumping_item iin)[i]?).map (fun l => l.freq) = some (to_uint (dumping_freq_hz iin i)) := by
  simp [dumping_item, dumping_freq_hz, dumping_freq_res, hi]

/-- C19. Dumping stage, in exact arithmetic: for every Item and every emitted line
`i < reduced_fft_size`, `freq_hz = Fc - (t - i) * freq_res` with `t = reduced_fft_size / 2`
(integer division) lies in the closed interval `[Fc - t * freq_res, Fc + t * freq_res]`;
the number printed on line `i` is that value converted to `uint32_t`, which without 32-bit
wrap is its integer part, so it is at most `Fc + t * freq_res` and misses
`Fc - t * freq_res` by less than 1. -/
theorem dumping_freq_in_span {α : Type} (iin : Item α) (i : Nat)
    (hi : i < dumping_reduced_fft_size iin) :
    (iin.Fc : ℚ) - ((dumping_reduced_fft_size iin / 2 : Nat) : ℚ) * dumping_freq_res iin
        ≤ dumping_freq_hz iin i ∧
    dumping_freq_hz iin i
        ≤ (iin.Fc : ℚ) + ((dumping_reduced_fft_size iin / 2 : Nat) : ℚ) * dumping_freq_res iin ∧
    ((dumping_item iin)[i]?).map (fun l => l.freq) = some (to_uint (dumping_freq_hz iin i)) ∧
    (0 ≤ dumping_freq_hz iin i → dumping_freq_hz iin i < (UINT_MOD : ℚ) →
      ((to_uint (dumping_freq_hz iin i) : Nat) : ℚ) ≤ dumping_freq_hz iin i ∧
      dumping_freq_hz iin i - 1 < ((to_uint (dumping_freq_hz iin i) : Nat) : ℚ)) := by
  have hres : 0 ≤ dumping_freq_res iin := by
    unfold dumping_freq_res
    positivity
  have h2 : (i : ℚ) ≤ 2 * ((dumping_reduced_fft_size iin / 2 : Nat) : ℚ) := by
    have : i ≤ 2 * (dumping_reduced_fft_size iin / 2) := by omega
    exact_mod_cast this
  refine ⟨?_, ?_, dumping_item_freq iin i hi, ?_⟩
  · unfold dumping_freq_hz
    simp only [Int.cast_sub, Int.cast_natCast]
    nlinarith [mul_nonneg (Nat.cast_nonneg (α := ℚ) i) hres]
  · unfold dumping_freq_hz
    simp only [Int.cast_sub, Int.cast_natCast]
    nlinarith [mul_nonneg (sub_nonneg.mpr h2) hres]
  · intro h0 hlt
    have hfl : ⌊dumping_freq_hz iin i⌋₊ < UINT_MOD := by
      rw [Nat.floor_lt h0]
      exact hlt
    unfold to_uint
    rw [Nat.mod_eq_of_lt hfl]
    exact ⟨Nat.floor_le h0, Nat.sub_one_lt_floor _⟩

/-- C19 at a concrete input: the Item of scenario 1, line 3. -/
theorem dumping_freq_in_span_witness :
    (scenario1_item.Fc : ℚ)
        - ((dumping_reduced_fft_size scenario1_item / 2 : Nat) : ℚ)
          * dumping_freq_res scenario1_item
        ≤ dumping_freq_hz scenario1_item 3 ∧
    dumping_freq_hz scenario1_item 3
        ≤ (scenario1_item.Fc : ℚ)
          + ((dumping_reduced_fft_size scenario1_item / 2 : Nat) : ℚ)
            * dumping_freq_res scenario1_item ∧
    ((dumping_item scenario1_item)[3]?).map (fun l => l.freq)
      = some (to_uint (dumping_freq_hz scenario1_item 3)) ∧
    (0 ≤ dumping_freq_hz scenario1_item 3 → dumping_freq_hz scenario1_item 3 < (UINT_MOD : ℚ) →
      ((to_uint (dumping_freq_hz scenario1_item 3) : Nat) : ℚ)
          ≤ dumping_freq_hz scenario1_item 3 ∧
      dumping_freq_hz scenario1_item 3 - 1
          < ((to_uint (dumping_freq_hz scenario1_item 3) : Nat) : ℚ)) :=
  dumping_freq_in_span scenario1_item 3 (by
    norm_num [dumping_reduced_fft_size, scenario1_item, to_uint, UINT_MOD, Nat.shiftLeft_eq])

/-! ## Monitoring controller: termination by run count -/

theorem monitoring_events_running {σ : Type} (hopping_strategy : σ → σ)
    (ctx : SpectrumMonitoringCTX) (start_t : Int) (hmt : ctx.monitor_time = 0)
    (times : List Int) (s : MonitoringState σ) (hex : s.exit = none)
    (hlen : times.length ≤ s.measurements_left) (hfit : s.measurements_left < UINT_MOD) :
    (times.foldl (monitoring_event hopping_strategy ctx start_t) s).exit = none ∧
    (times.foldl (monitoring_event hopping_strategy ctx start_t) s).measurements_left
      = s.measurements_left - times.length ∧
    (times.foldl (monitoring_event hopping_strategy ctx start_t) s).planner_calls
      = s.planner_calls + times.length ∧
    (times.foldl (monitoring_event hopping_strategy ctx start_t) s).sweeps_started
      = s.sweeps_started + times.length := by
  induction times generalizing s with
  | nil => simp [hex]
  | cons t rest ih =>
    simp only [List.length_cons] at hlen
    have hne : s.measurements_left ≠ 0 := by omega
    have hsub : usub s.measurements_left 1 = s.measurements_left - 1 :=
      usub_of_le _ _ (by omega) hfit
    have hstep : monitoring_event hopping_strategy ctx start_t s t =
        { s with
          measurements_left := s.measurements_left - 1
          prev_t := max t (s.prev_t + (ctx.min_time_res : Int))
          plan := hopping_strategy s.plan
          planner_calls := s.planner_calls + 1
          sweeps_started := s.sweeps_started + 1 } := by
      simp [monitoring_event, hex, hne, hmt, hsub]
    rw [List.foldl_cons, hstep]
    obtain ⟨h1, h2, h3, h4⟩ := ih
      { s with
        measurements_left := s.measurements_left - 1
        prev_t := max t (s.prev_t + (ctx.min_time_res : Int))
        plan := hopping_strategy s.plan
        planner_calls := s.planner_calls + 1
        sweeps_started := s.sweeps_started + 1 }
      hex (show rest.length ≤ s.measurements_left - 1 by omega)
      (show s.measurements_left - 1 < UINT_MOD by omega)
    refine ⟨h1, ?_, ?_, ?_⟩
    · rw [h2]
      show s.measurements_left - 1 - rest.length = s.measurements_left - (rest.length + 1)
      omega
    · rw [h3]
      show s.planner_calls + 1 + rest.length = s.planner_calls + (rest.length + 1)
      omega
    · rw [h4]
      show s.sweeps_started + 1 + rest.length = s.sweeps_started + (rest.length + 1)
      omega

theorem monitoring_event_no_count_exit {σ : Type} (hopping_strategy : σ → σ)
    (ctx : SpectrumMonitoringCTX) (start_t : Int) (hn : ctx.number_of_sample_runs = 0)
    (times : List Int) (s : MonitoringState σ) (hex : s.exit ≠ some ExitCause.sample_runs) :
    (times.foldl (monitoring_event hopping_strategy ctx start_t) s).exit
      ≠ some ExitCause.sample_runs := by
  induction times generalizing s with
  | nil => simpa using hex
  | cons t rest ih =>
    rw [List.foldl_cons]
    apply ih
    simp only [monitoring_event, hn]
    split_ifs <;> simp_all

/-- C20. Sample-run termination: with `number_of_sample_runs = n > 0` and
`monitor_time = 0`, after the controller's own start event and `j - 1 < n` reported sweep
completions the controller has not exited and has run the hopping planner and started a
sweep `j` times each; on the `n`-th reported sweep completion it exits by the run count,
having run the planner and started a sweep exactly `n` times. With
`number_of_sample_runs = 0` it never exits by the run count. -/
theorem monitoring_sample_runs {σ : Type} (hopping_strategy : σ → σ)
    (ctx : SpectrumMonitoringCTX) (start_t : Int) (plan : σ) (times : List Int) :
    (0 < ctx.number_of_sample_runs → ctx.number_of_sample_runs < UINT_MOD →
      ctx.monitor_time = 0 →
      (times.length ≤ ctx.number_of_sample_runs →
        (monitoring_logic hopping_strategy ctx start_t plan times).exit = none ∧
        (monitoring_logic hopping_strategy ctx start_t plan times).planner_calls
          = times.length ∧
        (monitoring_logic hopping_strategy ctx start_t plan times).sweeps_started
          = times.length) ∧
      (times.length = ctx.number_of_sample_runs + 1 →
        (monitoring_logic hopping_strategy ctx start_t plan times).exit
          = some ExitCause.sample_runs ∧
        (monitoring_logic hopping_strategy ctx start_t plan times).planner_calls
          = ctx.number_of_sample_runs ∧
        (monitoring_logic hopping_strategy ctx start_t plan times).sweeps_started
          = ctx.number_of_sample_runs)) ∧
    (ctx.number_of_sample_runs = 0 →
      (monitoring_logic hopping_strategy ctx start_t plan times).exit
        ≠ some ExitCause.sample_runs) := by
  refine ⟨fun hpos hfit hmt => ⟨fun hlen => ?_, fun hlen => ?_⟩, fun hn => ?_⟩
  · obtain ⟨h1, -, h3, h4⟩ := monitoring_events_running hopping_strategy ctx start_t hmt times
      (monitoring_init ctx plan) rfl hlen hfit
    exact ⟨h1, by simpa [monitoring_init] using h3, by simpa [monitoring_init] using h4⟩
  · obtain ⟨front, last, rfl⟩ : ∃ front last, times = front ++ [last] := by
      rcases List.eq_nil_or_concat times with h | ⟨front, last, h⟩
      · subst h
        simp at hlen
      · exact ⟨front, last, by rw [h, List.concat_eq_append]⟩
    have hfl : front.length = ctx.number_of_sample_runs := by simpa using hlen
    obtain ⟨h1, h2, h3, h4⟩ := monitoring_events_running hopping_strategy ctx start_t hmt front
      (monitoring_init ctx plan) rfl (by simp [monitoring_init, hfl]) hfit
    have hne : ctx.number_of_sample_runs ≠ 0 := by omega
    simp only [monitoring_logic, List.foldl_append, List.foldl_cons, List.foldl_nil]
    generalize List.foldl (monitoring_event hopping_strategy ctx start_t)
      (monitoring_init ctx plan) front = S at h1 h2 h3 h4
    simp only [monitoring_init, hfl, Nat.sub_self, Nat.zero_add] at h2 h3 h4
    simp [monitoring_event, h1, h2, h3, h4, hne]
  · exact monitoring_event_no_count_exit hopping_strategy ctx start_t hn times _
      (by simp [monitoring_init])

/-- C20 at a concrete input: three sample runs, the start event and three reported sweep
completions. -/
theorem monitoring_sample_runs_witness :
    (monitoring_logic (fun n : Nat => n + 1)
        { scenario1_ctx with number_of_sample_runs := 3 } 0 0 [10, 20, 30, 40]).exit
      = some ExitCause.sample_runs ∧
    (monitoring_logic (fun n : Nat => n + 1)
        { scenario1_ctx with number_of_sample_runs := 3 } 0 0 [10, 20, 30, 40]).planner_calls
      = 3 ∧
    (monitoring_logic (fun n : Nat => n + 1)
        { scenario1_ctx with number_of_sample_runs := 3 } 0 0 [10, 20, 30, 40]).sweeps_started
      = 3 :=
  ((monitoring_sample_runs (fun n : Nat => n + 1)
      { scenario1_ctx with number_of_sample_runs := 3 } 0 0 [10, 20, 30, 40]).1
    (by decide) (by decide) rfl).2 rfl

/-! ## Similarity planner -/

theorem similarity_select_fold_empty {α : Type} [LinearOrderedField α] (expf logf : α → α)
    (keys : List Nat) (s : SimilaritySelection α) (hs : s.hist = []) :
    keys.foldl (similarity_select expf logf) s =
      { s with center_freqs := s.center_freqs ++ keys } := by
  induction keys generalizing s with
  | nil => simp
  | cons k rest ih =>
    have hstep : similarity_select expf logf s k =
        { s with center_freqs := s.center_freqs ++ [k] } := by
      simp [similarity_select, hist_find, hs]
    rw [List.foldl_cons, hstep,
      ih { s with center_freqs := s.center_freqs ++ [k] } hs]
    simp

/-- C12. Similarity planner cold start: when the history table is empty, for every stream
of `rand()` values the working plan equals the full plan: `length = full_length` and
`center_freqs[i] = full_center_freqs[i]` for every `i < full_length`; the history is left
empty and no value of `rand()` is consumed. -/
theorem similarity_cold_start {α : Type} [LinearOrderedField α] (expf logf : α → α)
    (ctx : SpectrumMonitoringCTX) (rand : Nat → Nat) (p : HoppingPlan) :
    (similarity_hopping_strategy expf logf ctx
        { hist := ([] : List (SimilarityHistEntry α)), rand := rand, plan := p }).plan.length
      = (similarity_hopping_strategy expf logf ctx
        { hist := ([] : List (SimilarityHistEntry α)), rand := rand, plan := p }).plan.full_length ∧
    (∀ i, i < (similarity_hopping_strategy expf logf ctx
        { hist := ([] : List (SimilarityHistEntry α)), rand := rand,
          plan := p }).plan.full_length →
      (similarity_hopping_strategy expf logf ctx
        { hist := ([] : List (SimilarityHistEntry α)), rand := rand,
          plan := p }).plan.center_freqs.getD i 0
      = (similarity_hopping_strategy expf logf ctx
        { hist := ([] : List (SimilarityHistEntry α)), rand := rand,
          plan := p }).plan.full_center_freqs.getD i 0) ∧
    (similarity_hopping_strategy expf logf ctx
        { hist := ([] : List (SimilarityHistEntry α)), rand := rand, plan := p }).hist = [] ∧
    (similarity_hopping_strategy expf logf ctx
        { hist := ([] : List (SimilarityHistEntry α)), rand := rand, plan := p }).rand = rand := by
  have hfold := similarity_select_fold_empty expf logf (similarity_candidates ctx p)
    { hist := ([] : List (SimilarityHistEntry α)), rand := rand, center_freqs := [] } rfl
  simp only [similarity_hopping_strategy, hfold, List.nil_append]
  refine ⟨by simp [similarity_candidates], ?_, trivial, trivial⟩
  intro i hi
  simp only [similarity_candidates]
  rw [List.getD_eq_getElem _ _ (by simpa using hi)]
  simp

/-- C14. Similarity planner at `s = 100`, in exact arithmetic: the skip threshold
`p = 0.0001 * exp(ln(1000000) * 100 / 100)` equals 100, the draw `r = (rand() % 1000) / 10`
is at most 99.9, so the include test `r >= p` is false for every value of `rand()`: the
frequency is always skipped. -/
theorem similarity_100_always_skipped (rand_value : Nat) :
    tun_threshold Real.exp Real.log (100 : ℝ) = 100 ∧
    tun_draw rand_value ≤ (999 / 10 : ℝ) ∧
    probabilistic_tun Real.exp Real.log rand_value (100 : ℝ) = false := by
  have hp : tun_threshold Real.exp Real.log (100 : ℝ) = 100 := by
    unfold tun_threshold
    rw [show Real.log 1000000 * 100 / 100 = Real.log 1000000 by ring,
      Real.exp_log (by norm_num)]
    norm_num
  have hr : tun_draw rand_value ≤ (999 / 10 : ℝ) := by
    unfold tun_draw
    have h : rand_value % 1000 ≤ 999 := by omega
    have h' : ((rand_value % 1000 : Nat) : ℝ) ≤ 999 := by exact_mod_cast h
    linarith
  refine ⟨hp, hr, ?_⟩
  unfold probabilistic_tun
  rw [hp, decide_eq_false_iff_not]
  intro hge
  linarith [hge.le]

/-! ## Similarity decay -/

theorem hist_find_modify_ne {α : Type} (hist : List (SimilarityHistEntry α)) (key f : Nat)
    (g : SimilarityHistEntry α → SimilarityHistEntry α) (hg : ∀ e, (g e).Fc = e.Fc)
    (hne : key ≠ f) : hist_find (hist_modify key g hist) f = hist_find hist f := by
  induction hist with
  | nil => rfl
  | cons e rest ih =>
    simp only [hist_modify]
    split_ifs with he
    · have hef : ¬ e.Fc = f := fun h => hne (he ▸ h)
      simp only [hist_find, List.find?_cons, hg, hef, decide_False]
    · simp only [hist_find, List.find?_cons]
      by_cases hf : e.Fc = f
      · simp only [hf, decide_True]
      · simp only [hf, decide_False]
        simpa only [hist_find] using ih

theorem hist_find_modify_eq {α : Type} (hist : List (SimilarityHistEntry α)) (key : Nat)
    (g : SimilarityHistEntry α → SimilarityHistEntry α) (hg : ∀ e, (g e).Fc = e.Fc) :
    hist_find (hist_modify key g hist) key = (hist_find hist key).map g := by
  induction hist with
  | nil => rfl
  | cons e rest ih =>
    simp only [hist_modify]
    split_ifs with he
    · simp only [hist_find, List.find?_cons, hg, he, decide_True, Option.map_some']
    · simp only [hist_find, List.find?_cons, he, decide_False]
      simpa only [hist_find] using ih

/-- A pass of the candidate loop for a candidate other than `f` leaves the entry of `f` and
the selection of `f` as they are. -/
theorem similarity_select_other {α : Type} [LinearOrderedField α] (expf logf : α → α)
    (s : SimilaritySelection α) (key f : Nat) (hne : key ≠ f) :
    hist_find (similarity_select expf logf s key).hist f = hist_find s.hist f ∧
    (f ∈ (similarity_select expf logf s key).center_freqs ↔ f ∈ s.center_freqs) := by
  unfold similarity_select
  cases hfind : hist_find s.hist key with
  | none => simp [Ne.symm hne]
  | some hentry =>
    simp only []
    split_ifs
    · simp [Ne.symm hne]
    · exact ⟨hist_find_modify_ne _ _ _ _ (fun _ => rfl) hne, Iff.rfl⟩

theorem similarity_fold_other {α : Type} [LinearOrderedField α] (expf logf : α → α)
    (keys : List Nat) (s : SimilaritySelection α) (f : Nat) (hnot : f ∉ keys) :
    hist_find (keys.foldl (similarity_select expf logf) s).hist f = hist_find s.hist f ∧
    (f ∈ (keys.foldl (similarity_select expf logf) s).center_freqs ↔ f ∈ s.center_freqs) := by
  induction keys generalizing s with
  | nil => simp
  | cons k rest ih =>
    have hk : k ≠ f := fun h => hnot (h ▸ List.mem_cons_self _ _)
    have hrest : f ∉ rest := fun h => hnot (List.mem_cons_of_mem _ h)
    obtain ⟨h1, h2⟩ := similarity_select_other expf logf s k f hk
    obtain ⟨h3, h4⟩ := ih (similarity_select expf logf s k) hrest
    rw [List.foldl_cons]
    exact ⟨h3.trans h1, h4.trans h2⟩

/-- The pass of the candidate loop for `f` itself: `f` is either selected, its entry
untouched, or skipped, its similarity divided by `similarity_reduction`. -/
theorem similarity_select_self {α : Type} [LinearOrderedField α] (expf logf : α → α)
    (s : SimilaritySelection α) (f : Nat) (e : SimilarityHistEntry α)
    (he : hist_find s.hist f = some e) (hf : f ∉ s.center_freqs) :
    (f ∈ (similarity_select expf logf s f).center_freqs ∧
      hist_find (similarity_select expf logf s f).hist f = some e) ∨
    (f ∉ (similarity_select expf logf s f).center_freqs ∧
      hist_find (similarity_select expf logf s f).hist f
        = some { e with similarity := e.similarity / similarity_reduction }) := by
  unfold similarity_select
  rw [he]
  simp only []
  split_ifs
  · left
    exact ⟨by simp, he⟩
  · right
    refine ⟨hf, ?_⟩
    have h := hist_find_modify_eq s.hist f
      (fun e : SimilarityHistEntry α =>
        { e with similarity := e.similarity / similarity_reduction }) (fun _ => rfl)
    show hist_find (hist_modify f _ s.hist) f = _
    rw [h, he]
    rfl

theorem similarity_fold_self {α : Type} [LinearOrderedField α] (expf logf : α → α)
    (keys : List Nat) (s : SimilaritySelection α) (f : Nat) (e : SimilarityHistEntry α)
    (hcount : keys.count f = 1) (he : hist_find s.hist f = some e) (hf : f ∉ s.center_freqs) :
    (f ∈ (keys.foldl (similarity_select expf logf) s).center_freqs ∧
      hist_find (keys.foldl (similarity_select expf logf) s).hist f = some e) ∨
    (f ∉ (keys.foldl (similarity_select expf logf) s).center_freqs ∧
      hist_find (keys.foldl (similarity_select expf logf) s).hist f
        = some { e with similarity := e.similarity / similarity_reduction }) := by
  induction keys generalizing s with
  | nil => simp at hcount
  | cons k rest ih =>
    rw [List.foldl_cons]
    by_cases hk : k = f
    · subst hk
      have hrest : k ∉ rest := by
        rw [List.count_cons_self] at hcount
        exact List.count_eq_zero.mp (by omega)
      obtain ⟨h3, h4⟩ := similarity_fold_other expf logf rest
        (similarity_select expf logf s k) k hrest
      rcases similarity_select_self expf logf s k e he hf with ⟨h1, h2⟩ | ⟨h1, h2⟩
      · exact Or.inl ⟨h4.mpr h1, h3.trans h2⟩
      · exact Or.inr ⟨fun h => h1 (h4.mp h), h3.trans h2⟩
    · obtain ⟨h1, h2⟩ := similarity_select_other expf logf s k f hk
      rw [List.count_cons_of_ne (Ne.symm hk)] at hcount
      exact ih (similarity_select expf logf s k) hcount (h1.trans he)
        (fun h => hf (h2.mp h))

theorem similarity_full_plan_idem (ctx : SpectrumMonitoringCTX) (p : HoppingPlan) :
    similarity_full_plan ctx (similarity_full_plan ctx p) = similarity_full_plan ctx p := by
  by_cases hp : p.full_length ≤ 0
  · by_cases hl : hopping_length ctx ≤ 0
    · simp [similarity_full_plan, hp, hl]
    · simp [similarity_full_plan, hp, hl]
  · simp [similarity_full_plan, hp]

theorem similarity_full_plan_selection (ctx : SpectrumMonitoringCTX) (q : HoppingPlan)
    (cf : List Nat) (n : Nat) :
    (similarity_full_plan ctx { q with center_freqs := cf, length := n }).full_length
      = (similarity_full_plan ctx q).full_length ∧
    (similarity_full_plan ctx { q with center_freqs := cf, length := n }).full_center_freqs
      = (similarity_full_plan ctx q).full_center_freqs := by
  simp only [similarity_full_plan]
  split_ifs <;> exact ⟨rfl, rfl⟩

theorem similarity_candidates_selection (ctx : SpectrumMonitoringCTX) (q : HoppingPlan)
    (cf : List Nat) (n : Nat) :
    similarity_candidates ctx { q with center_freqs := cf, length := n }
      = similarity_candidates ctx q := by
  unfold similarity_candidates
  rw [(similarity_full_plan_selection ctx q cf n).1, (similarity_full_plan_selection ctx q cf n).2]

/-- The candidates of a call are those of the call before it. -/
theorem similarity_candidates_stable {α : Type} [LinearOrderedField α] (expf logf : α → α)
    (ctx : SpectrumMonitoringCTX) (s : SimilarityState α) :
    similarity_candidates ctx (similarity_hopping_strategy expf logf ctx s).plan
      = similarity_candidates ctx s.plan := by
  unfold similarity_hopping_strategy
  simp only []
  rw [similarity_candidates_selection]
  unfold similarity_candidates
  rw [similarity_full_plan_idem]

/-- One call of the planner, seen from a frequency `f` that is a candidate exactly once and
has a history entry `e`. -/
theorem similarity_call_entry {α : Type} [LinearOrderedField α] (expf logf : α → α)
    (ctx : SpectrumMonitoringCTX) (s : SimilarityState α) (f : Nat)
    (e : SimilarityHistEntry α) (hcount : (similarity_candidates ctx s.plan).count f = 1)
    (he : hist_find s.hist f = some e) :
    (f ∈ (similarity_hopping_strategy expf logf ctx s).plan.center_freqs ∧
      hist_find (similarity_hopping_strategy expf logf ctx s).hist f = some e) ∨
    (f ∉ (similarity_hopping_strategy expf logf ctx s).plan.center_freqs ∧
      hist_find (similarity_hopping_strategy expf logf ctx s).hist f
        = some { e with similarity := e.similarity / similarity_reduction }) :=
  similarity_fold_self expf logf (similarity_candidates ctx s.plan)
    { hist := s.hist, rand := s.rand, center_freqs := [] } f e hcount he (by simp)

theorem similarity_skipped_calls {α : Type} [LinearOrderedField α] (expf logf : α → α)
    (ctx : SpectrumMonitoringCTX) (f : Nat) (k : Nat) (s : SimilarityState α)
    (e : SimilarityHistEntry α) (hcount : (similarity_candidates ctx s.plan).count f = 1)
    (he : hist_find s.hist f = some e)
    (hskip : ∀ j, j < k →
      f ∉ ((similarity_hopping_strategy expf logf ctx)^[j + 1] s).plan.center_freqs) :
    hist_find ((similarity_hopping_strategy expf logf ctx)^[k] s).hist f
      = some { e with similarity := e.similarity / similarity_reduction ^ k } := by
  induction k generalizing s e with
  | zero => simpa using he
  | succ k ih =>
    rw [Function.iterate_succ_apply]
    have h0 := hskip 0 (by omega)
    rw [Function.iterate_succ_apply, Function.iterate_zero_apply] at h0
    rcases similarity_call_entry expf logf ctx s f e hcount he with ⟨h1, -⟩ | ⟨-, h2⟩
    · exact absurd h1 h0
    · have := ih (similarity_hopping_strategy expf logf ctx s)
        { e with similarity := e.similarity / similarity_reduction }
        (by rw [similarity_candidates_stable]; exact hcount) h2
        (fun j hj => by
          have := hskip (j + 1) (by omega)
          rwa [Function.iterate_succ_apply] at this)
      rw [this]
      congr 2
      simp only []
      rw [div_div, pow_succ']

/-- C15. Similarity decay, in exact arithmetic: if a frequency that is a candidate of the
full plan (once) and has a stored similarity `s0` is skipped by the planner on `k`
consecutive planner calls (no callback in between), its stored similarity afterwards is
`s0 / 1.0005^k`; an entry whose frequency a planner call includes keeps its similarity
unchanged. -/
theorem similarity_decay {α : Type} [LinearOrderedField α] (expf logf : α → α)
    (ctx : SpectrumMonitoringCTX) (f : Nat) (k : Nat) (s : SimilarityState α)
    (e : SimilarityHistEntry α) (hcount : (similarity_candidates ctx s.plan).count f = 1)
    (he : hist_find s.hist f = some e) :
    ((∀ j, j < k →
        f ∉ ((similarity_hopping_strategy expf logf ctx)^[j + 1] s).plan.center_freqs) →
      (hist_find ((similarity_hopping_strategy expf logf ctx)^[k] s).hist f).map
          (fun e' => e'.similarity)
        = some (e.similarity / (10005 / 10000 : α) ^ k)) ∧
    (f ∈ (similarity_hopping_strategy expf logf ctx s).plan.center_freqs →
      (hist_find (similarity_hopping_strategy expf logf ctx s).hist f).map
          (fun e' => e'.similarity)
        = some e.similarity) := by
  constructor
  · intro hskip
    rw [similarity_skipped_calls expf logf ctx f k s e hcount he hskip]
    rfl
  · intro hin
    rcases similarity_call_entry expf logf ctx s f e hcount he with ⟨-, h2⟩ | ⟨h1, -⟩
    · rw [h2]
      rfl
    · exact absurd hin h1

/-! ## Similarity strategy: the second sweep after a cold start -/

/-- In exact arithmetic an entry of similarity 0 has the skip threshold `0.0001`: its
frequency is included unless the draw is `rand() % 1000 = 0`. -/
theorem probabilistic_tun_zero (rand_value : Nat) :
    probabilistic_tun Real.exp Real.log rand_value (0 : ℝ) = true ↔ rand_value % 1000 ≠ 0 := by
  have hp : tun_threshold Real.exp Real.log (0 : ℝ) = 1 / 10000 := by
    simp [tun_threshold]
  unfold probabilistic_tun
  rw [hp, decide_eq_true_iff]
  unfold tun_draw
  constructor
  · intro h hz
    rw [hz] at h
    norm_num at h
  · intro h
    have h1 : 1 ≤ rand_value % 1000 := Nat.one_le_iff_ne_zero.mpr h
    have h2 : (1 : ℝ) ≤ ((rand_value % 1000 : Nat) : ℝ) := by exact_mod_cast h1
    show (1 / 10000 : ℝ) ≤ ((rand_value % 1000 : Nat) : ℝ) / 10
    linarith

theorem similarity_candidates_scenario1 :
    similarity_candidates scenario1_ctx plan_init = [100500000, 101500000] := by
  have hl : hopping_length scenario1_ctx = 2 := by
    norm_num [hopping_length, hopping_freq_step, scenario1_ctx, to_uint, UINT_MOD, usub]
  have hc : sequential_center_freqs scenario1_ctx 2 = [100500000, 101500000] := by
    norm_num [sequential_center_freqs, center_freqs_loop, hopping_freq_step, scenario1_ctx,
      to_uint, UINT_MOD]
  simp only [similarity_candidates, similarity_full_plan, plan_init, le_refl, if_true, hl, hc]
  decide

theorem xcorr_pos_lag {α : Type} [Field α] (x y : Nat → α) (N k : Nat) (hk : k ≤ N)
    (hN : N < UINT_MOD) :
    xcorr x y N (k : Int) = ∑ n in Finset.range (N - k), x (n + k) * y n := by
  have h : ¬ ((k : Int) < 0) := by omega
  simp only [xcorr, h, if_false, Int.toNat_natCast, usub_of_le N k hk hN]

theorem xcorr_neg_lag {α : Type} [Field α] (x y : Nat → α) (N k : Nat) (hk0 : 1 ≤ k)
    (hk : k ≤ N) (hN : N < UINT_MOD) :
    xcorr x y N (-(k : Int)) = ∑ n in Finset.range (N - k), y (n + k) * x n := by
  have h : -(k : Int) < 0 := by omega
  simp only [xcorr, h, if_true, neg_neg, Int.toNat_natCast, usub_of_le N k hk hN]

/-- A signal that is not identically zero correlates with a shifted copy of itself strictly
less than with itself. -/
theorem autocorr_lt (x : Nat → ℝ) (d k : Nat) (hk : 1 ≤ k)
    (hx : ∃ n, n < d + k ∧ x n ≠ 0) :
    ∑ n in Finset.range d, x (n + k) * x n < ∑ n in Finset.range (d + k), x n * x n := by
  by_contra hge
  rw [not_lt] at hge
  have e1 : ∑ n in Finset.range (d + k), x n * x n
      = ∑ n in Finset.range d, x n * x n + ∑ n in Finset.range k, x (d + n) * x (d + n) :=
    Finset.sum_range_add _ d k
  have e2 : ∑ n in Finset.range (d + k), x n * x n
      = ∑ n in Finset.range k, x n * x n + ∑ n in Finset.range d, x (n + k) * x (n + k) := by
    rw [Nat.add_comm d k, Finset.sum_range_add]
    congr 1
    apply Finset.sum_congr rfl
    intro n _
    rw [Nat.add_comm k n]
  have e3 : ∑ n in Finset.range d, (x (n + k) - x n) * (x (n + k) - x n)
      = ∑ n in Finset.range d, x (n + k) * x (n + k)
        - 2 * ∑ n in Finset.range d, x (n + k) * x n + ∑ n in Finset.range d, x n * x n := by
    rw [Finset.mul_sum, ← Finset.sum_sub_distrib, ← Finset.sum_add_distrib]
    apply Finset.sum_congr rfl
    intro n _
    ring
  have hP : 0 ≤ ∑ n in Finset.range k, x n * x n :=
    Finset.sum_nonneg fun n _ => mul_self_nonneg _
  have hQ : 0 ≤ ∑ n in Finset.range k, x (d + n) * x (d + n) :=
    Finset.sum_nonneg fun n _ => mul_self_nonneg _
  have hR : 0 ≤ ∑ n in Finset.range d, (x (n + k) - x n) * (x (n + k) - x n) :=
    Finset.sum_nonneg fun n _ => mul_self_nonneg _
  have hP0 : ∑ n in Finset.range k, x n * x n = 0 := by linarith
  have hR0 : ∑ n in Finset.range d, (x (n + k) - x n) * (x (n + k) - x n) = 0 := by linarith
  have hhead : ∀ n, n < k → x n = 0 := by
    intro n hn
    have := (Finset.sum_eq_zero_iff_of_nonneg (fun n _ => mul_self_nonneg (x n))).mp hP0 n
      (Finset.mem_range.mpr hn)
    exact mul_self_eq_zero.mp this
  have hper : ∀ n, n < d → x (n + k) = x n := by
    intro n hn
    have := (Finset.sum_eq_zero_iff_of_nonneg
      (fun n _ => mul_self_nonneg (x (n + k) - x n))).mp hR0 n (Finset.mem_range.mpr hn)
    exact sub_eq_zero.mp (mul_self_eq_zero.mp this)
  have hall : ∀ n, n < d + k → x n = 0 := by
    intro n
    induction n using Nat.strong_induction_on with
    | _ n ih =>
      intro hn
      by_cases hnk : n < k
      · exact hhead n hnk
      · have h1 : n - k + k = n := by omega
        have h2 := hper (n - k) (by omega)
        rw [h1] at h2
        rw [h2]
        exact ih (n - k) (by omega) (by omega)
  obtain ⟨n, hn, hne⟩ := hx
  exact hne (hall n hn)

/-- Cauchy-Schwarz for a signal against a shifted one, with the sums of squares taken over
the whole signals. -/
theorem shifted_corr_le (u v : Nat → ℝ) (d k : Nat) :
    ∑ n in Finset.range d, u (n + k) * v n
      ≤ Real.sqrt (∑ n in Finset.range (d + k), u n * u n)
        * Real.sqrt (∑ n in Finset.range (d + k), v n * v n) := by
  have hcs := Real.sum_mul_le_sqrt_mul_sqrt (Finset.range d) (fun n => u (n + k)) v
  have hu : ∑ n in Finset.range d, u (n + k) ^ 2 ≤ ∑ n in Finset.range (d + k), u n * u n := by
    rw [Nat.add_comm d k, Finset.sum_range_add]
    have h0 : 0 ≤ ∑ n in Finset.range k, u n * u n :=
      Finset.sum_nonneg fun n _ => mul_self_nonneg _
    have h1 : ∑ n in Finset.range d, u (n + k) ^ 2
        = ∑ n in Finset.range d, u (k + n) * u (k + n) := by
      apply Finset.sum_congr rfl
      intro n _
      rw [Nat.add_comm n k, sq]
    linarith
  have hv : ∑ n in Finset.range d, v n ^ 2 ≤ ∑ n in Finset.range (d + k), v n * v n := by
    rw [Finset.sum_range_add]
    have h0 : 0 ≤ ∑ n in Finset.range k, v (d + n) * v (d + n) :=
      Finset.sum_nonneg fun n _ => mul_self_nonneg _
    have h1 : ∑ n in Finset.range d, v n ^ 2 = ∑ n in Finset.range d, v n * v n := by
      apply Finset.sum_congr rfl
      intro n _
      rw [sq]
    linarith
  exact hcs.trans (mul_le_mul (Real.sqrt_le_sqrt hu) (Real.sqrt_le_sqrt hv)
    (Real.sqrt_nonneg _) (Real.sqrt_nonneg _))

/-- Every normalised correlation value `t` of the shifting loop is at most 1. -/
theorem normalized_xcorr_le_one (N : Nat) (x y : Nat → ℝ) (hN : 2 ≤ N) (hfit : N < UINT_MOD)
    (m : Int) (hm1 : -2 ≤ m) (hm2 : m ≤ 2) :
    similarity_norm Real.sqrt N x y * xcorr x y N m ≤ 1 := by
  have hbound : xcorr x y N m
      ≤ Real.sqrt (∑ n in Finset.range N, x n * x n)
        * Real.sqrt (∑ n in Finset.range N, y n * y n) := by
    by_cases hneg : m < 0
    · obtain ⟨k, hk⟩ : ∃ k : Nat, m = -(k : Int) := ⟨(-m).toNat, by omega⟩
      have hk1 : 1 ≤ k := by omega
      have hk2 : k ≤ N := by omega
      rw [hk, xcorr_neg_lag x y N k hk1 hk2 hfit]
      have := shifted_corr_le y x (N - k) k
      rw [Nat.sub_add_cancel hk2] at this
      rw [mul_comm (Real.sqrt _)]
      exact this
    · obtain ⟨k, hk⟩ : ∃ k : Nat, m = (k : Int) := ⟨m.toNat, by omega⟩
      have hk2 : k ≤ N := by omega
      rw [hk, xcorr_pos_lag x y N k hk2 hfit]
      have := shifted_corr_le x y (N - k) k
      rw [Nat.sub_add_cancel hk2] at this
      exact this
  unfold similarity_norm
  have hden : 0 ≤ Real.sqrt (∑ n in Finset.range N, x n * x n)
      * Real.sqrt (∑ n in Finset.range N, y n * y n) :=
    mul_nonneg (Real.sqrt_nonneg _) (Real.sqrt_nonneg _)
  rcases hden.eq_or_lt with h0 | hpos
  · rw [← h0]
    simp
  · rw [one_div, inv_mul_le_iff₀ hpos, mul_one]
    exact hbound

theorem Sp_range (s : Int) (h1 : -2 ≤ s) (h2 : s ≤ 2) :
    0 ≤ (Sp s : ℝ) ∧ (Sp s : ℝ) ≤ 1 := by
  have ha0 : (0 : ℝ) ≤ ((|s| : Int) : ℝ) := by exact_mod_cast abs_nonneg s
  have ha2 : ((|s| : Int) : ℝ) ≤ 2 := by
    have : |s| ≤ 2 := abs_le.mpr ⟨h1, h2⟩
    exact_mod_cast this
  unfold Sp
  constructor
  · positivity
  · have hv0 : 0 ≤ -((|s| : Int) : ℝ) / 2 + 1 := by linarith
    have hv1 : -((|s| : Int) : ℝ) / 2 + 1 ≤ 1 := by linarith
    nlinarith

/-- The shifting loop keeps `0 <= b <= 1` and `-2 <= s <= 2`. -/
theorem similarity_shift_range (N : Nat) (x y : Nat → ℝ) (hN : 2 ≤ N) (hfit : N < UINT_MOD) :
    0 ≤ (similarity_shift Real.sqrt N x y).2 ∧ (similarity_shift Real.sqrt N x y).2 ≤ 1 ∧
    -2 ≤ (similarity_shift Real.sqrt N x y).1 ∧ (similarity_shift Real.sqrt N x y).1 ≤ 2 := by
  have hstep : ∀ (l : List Int) (sb : Int × ℝ), (∀ m ∈ l, -2 ≤ m ∧ m ≤ 2) →
      (0 ≤ sb.2 ∧ sb.2 ≤ 1 ∧ -2 ≤ sb.1 ∧ sb.1 ≤ 2) →
      0 ≤ (l.foldl (similarity_shift_step (similarity_norm Real.sqrt N x y) x y N) sb).2 ∧
      (l.foldl (similarity_shift_step (similarity_norm Real.sqrt N x y) x y N) sb).2 ≤ 1 ∧
      -2 ≤ (l.foldl (similarity_shift_step (similarity_norm Real.sqrt N x y) x y N) sb).1 ∧
      (l.foldl (similarity_shift_step (similarity_norm Real.sqrt N x y) x y N) sb).1 ≤ 2 := by
    intro l
    induction l with
    | nil => intro sb _ h; exact h
    | cons m rest ih =>
      intro sb hl hsb
      rw [List.foldl_cons]
      apply ih _ (fun m' hm' => hl m' (List.mem_cons_of_mem _ hm'))
      obtain ⟨hm1, hm2⟩ := hl m (List.mem_cons_self _ _)
      have ht := normalized_xcorr_le_one N x y hN hfit m hm1 hm2
      unfold similarity_shift_step
      split_ifs with hgt
      · exact ⟨le_of_lt (lt_of_le_of_lt hsb.1 hgt), ht, hm1, hm2⟩
      · exact hsb
  exact hstep _ _ (by decide) (by norm_num)

/-- The value returned by `similarity_estimation` lies in `[0, 100]`. -/
theorem similarity_estimation_range (N : Nat) (x y : Nat → ℝ) (hN : 2 ≤ N)
    (hfit : N < UINT_MOD) :
    0 ≤ similarity_estimation Real.sqrt N x y ∧ similarity_estimation Real.sqrt N x y ≤ 100 := by
  obtain ⟨hb0, hb1, hs1, hs2⟩ := similarity_shift_range N x y hN hfit
  obtain ⟨hp0, hp1⟩ := Sp_range _ hs1 hs2
  unfold similarity_estimation
  constructor
  · nlinarith
  · nlinarith

/-- Self-similarity: lag 0 wins with value 1 and the result is 100. -/
theorem self_similarity_value (N : Nat) (x : Nat → ℝ) (hN : 2 ≤ N) (hfit : N < UINT_MOD)
    (hx : ∃ n, n < N ∧ x n ≠ 0) :
    similarity_norm Real.sqrt N x x * xcorr x x N 0 = 1 ∧
    (∀ m : Int, m ≠ 0 → -2 ≤ m → m ≤ 2 →
      similarity_norm Real.sqrt N x x * xcorr x x N m < 1) ∧
    similarity_shift Real.sqrt N x x = (0, 1) ∧
    similarity_estimation Real.sqrt N x x = 100 := by
  have hS0 : 0 ≤ ∑ n in Finset.range N, x n * x n :=
    Finset.sum_nonneg fun n _ => mul_self_nonneg _
  have hSpos : 0 < ∑ n in Finset.range N, x n * x n := by
    obtain ⟨n, hn, hne⟩ := hx
    have hterm : 0 < x n * x n := mul_self_pos.mpr hne
    have hle : x n * x n ≤ ∑ n in Finset.range N, x n * x n :=
      Finset.single_le_sum (f := fun n => x n * x n) (fun n _ => mul_self_nonneg _)
        (Finset.mem_range.mpr hn)
    linarith
  have hnorm : similarity_norm Real.sqrt N x x = 1 / ∑ n in Finset.range N, x n * x n := by
    unfold similarity_norm
    rw [Real.mul_self_sqrt hS0]
  have h0 : similarity_norm Real.sqrt N x x * xcorr x x N 0 = 1 := by
    have hx0 := xcorr_pos_lag x x N 0 (by omega) hfit
    simp only [Nat.cast_zero, Nat.sub_zero, Nat.add_zero] at hx0
    rw [hnorm, hx0]
    field_simp
  have hlt : ∀ m : Int, m ≠ 0 → -2 ≤ m → m ≤ 2 →
      similarity_norm Real.sqrt N x x * xcorr x x N m < 1 := by
    intro m hm0 hm1 hm2
    have hauto : ∀ k : Nat, 1 ≤ k → k ≤ N →
        ∑ n in Finset.range (N - k), x (n + k) * x n < ∑ n in Finset.range N, x n * x n := by
      intro k hk1 hk2
      have := autocorr_lt x (N - k) k hk1 (by rw [Nat.sub_add_cancel hk2]; exact hx)
      rwa [Nat.sub_add_cancel hk2] at this
    have hxc : xcorr x x N m < ∑ n in Finset.range N, x n * x n := by
      by_cases hneg : m < 0
      · obtain ⟨k, hk⟩ : ∃ k : Nat, m = -(k : Int) := ⟨(-m).toNat, by omega⟩
        have hk1 : 1 ≤ k := by omega
        have hk2 : k ≤ N := by omega
        rw [hk, xcorr_neg_lag x x N k hk1 hk2 hfit]
        exact hauto k hk1 hk2
      · obtain ⟨k, hk⟩ : ∃ k : Nat, m = (k : Int) := ⟨m.toNat, by omega⟩
        have hk1 : 1 ≤ k := by omega
        have hk2 : k ≤ N := by omega
        rw [hk, xcorr_pos_lag x x N k hk2 hfit]
        exact hauto k hk1 hk2
    rw [hnorm, one_div, inv_mul_lt_iff₀ hSpos, mul_one]
    exact hxc
  have hkeep : ∀ (sb : Int × ℝ) (m : Int), m ≠ 0 → -2 ≤ m → m ≤ 2 → sb.2 < 1 →
      (similarity_shift_step (similarity_norm Real.sqrt N x x) x x N sb m).2 < 1 := by
    intro sb m hm0 hm1 hm2 hsb
    unfold similarity_shift_step
    split_ifs
    · exact hlt m hm0 hm1 hm2
    · exact hsb
  have hstay : ∀ (m : Int), m ≠ 0 → -2 ≤ m → m ≤ 2 →
      similarity_shift_step (similarity_norm Real.sqrt N x x) x x N (0, 1) m = (0, 1) := by
    intro m hm0 hm1 hm2
    unfold similarity_shift_step
    rw [if_neg]
    exact not_lt.mpr (le_of_lt (hlt m hm0 hm1 hm2))
  have hshift : similarity_shift Real.sqrt N x x = (0, 1) := by
    unfold similarity_shift
    simp only [List.foldl_cons, List.foldl_nil]
    have h1 := hkeep (0, 0) (-2) (by decide) (by decide) (by decide) (by norm_num)
    have h2 := hkeep _ (-1) (by decide) (by decide) (by decide) h1
    have h3 : similarity_shift_step (similarity_norm Real.sqrt N x x) x x N
        (similarity_shift_step (similarity_norm Real.sqrt N x x) x x N
          (similarity_shift_step (similarity_norm Real.sqrt N x x) x x N (0, 0) (-2)) (-1)) 0
        = (0, 1) := by
      unfold similarity_shift_step at h2 ⊢
      rw [h0, if_pos h2]
    rw [h3, hstay 1 (by decide) (by decide) (by decide),
      hstay 2 (by decide) (by decide) (by decide)]
  refine ⟨h0, hlt, hshift, ?_⟩
  unfold similarity_estimation
  rw [hshift]
  norm_num [Sp]

/-- C16. Self-similarity, in exact real arithmetic: for every signal `x` of length `N >= 2`
that is not identically zero, `similarity_estimation(N, x, x)` selects lag 0 with normalised
correlation 1 (every other lag in `[-2, 2]` gives a strictly smaller value) and returns
exactly 100. -/
theorem self_similarity (N : Nat) (x : Nat → ℝ) (hN : 2 ≤ N) (hfit : N < UINT_MOD)
    (hx : ∃ n, n < N ∧ x n ≠ 0) :
    similarity_norm Real.sqrt N x x * xcorr x x N 0 = 1 ∧
    (∀ m : Int, m ≠ 0 → -2 ≤ m → m ≤ 2 →
      similarity_norm Real.sqrt N x x * xcorr x x N m < 1) ∧
    similarity_shift Real.sqrt N x x = (0, 1) ∧
    similarity_estimation Real.sqrt N x x = 100 :=
  self_similarity_value N x hN hfit hx

/-- C16 at a concrete input: the ramp `0, 1, 2, 3`. -/
theorem self_similarity_witness :
    similarity_norm Real.sqrt 4 (fun n => (n : ℝ)) (fun n => (n : ℝ))
      * xcorr (fun n => (n : ℝ)) (fun n => (n : ℝ)) 4 0 = 1 ∧
    (∀ m : Int, m ≠ 0 → -2 ≤ m → m ≤ 2 →
      similarity_norm Real.sqrt 4 (fun n => (n : ℝ)) (fun n => (n : ℝ))
        * xcorr (fun n => (n : ℝ)) (fun n => (n : ℝ)) 4 m < 1) ∧
    similarity_shift Real.sqrt 4 (fun n => (n : ℝ)) (fun n => (n : ℝ)) = (0, 1) ∧
    similarity_estimation Real.sqrt 4 (fun n => (n : ℝ)) (fun n => (n : ℝ)) = 100 :=
  self_similarity 4 (fun n => (n : ℝ)) (by decide) (by decide) ⟨1, by decide, by norm_num⟩

/-! ## History invariant: similarities stay in `[0, 100]` -/

theorem mem_hist_modify {α : Type} (key : Nat)
    (g : SimilarityHistEntry α → SimilarityHistEntry α) (hist : List (SimilarityHistEntry α))
    (e' : SimilarityHistEntry α) (h : e' ∈ hist_modify key g hist) :
    e' ∈ hist ∨ ∃ e, e ∈ hist ∧ e' = g e := by
  induction hist with
  | nil => simp [hist_modify] at h
  | cons e rest ih =>
    simp only [hist_modify] at h
    split_ifs at h with he
    · rcases List.mem_cons.mp h with h1 | h1
      · exact Or.inr ⟨e, List.mem_cons_self _ _, h1⟩
      · exact Or.inl (List.mem_cons_of_mem _ h1)
    · rcases List.mem_cons.mp h with h1 | h1
      · exact Or.inl (h1 ▸ List.mem_cons_self _ _)
      · rcases ih h1 with h2 | ⟨e0, h2, h3⟩
        · exact Or.inl (List.mem_cons_of_mem _ h2)
        · exact Or.inr ⟨e0, List.mem_cons_of_mem _ h2, h3⟩

theorem similarity_callback_in_range (hist : List (SimilarityHistEntry ℝ)) (iout : Item ℝ)
    (hok : similarity_in_range hist) (h1 : 1 ≤ iout.log2_fft_size)
    (h2 : iout.log2_fft_size < 32) :
    similarity_in_range (similarity_fft_callback Real.sqrt hist iout) := by
  have hN : 2 ≤ 1 <<< iout.log2_fft_size := by
    rw [Nat.shiftLeft_eq, Nat.one_mul]
    calc 2 = 2 ^ 1 := rfl
      _ ≤ 2 ^ iout.log2_fft_size := Nat.pow_le_pow_right (by decide) h1
  have hfit : 1 <<< iout.log2_fft_size < UINT_MOD := by
    rw [Nat.shiftLeft_eq, Nat.one_mul]
    exact Nat.pow_lt_pow_right (by decide) h2
  cases hfind : hist_find hist iout.Fc with
  | none =>
    have hc : similarity_fft_callback Real.sqrt hist iout =
        hist ++ [
          { Fc := iout.Fc, similarity := 0,
            previous_signal := ema_filter (1 <<< iout.log2_fft_size) iout.samples }] := by
      simp [similarity_fft_callback, hfind]
    rw [hc]
    intro e he
    rcases List.mem_append.mp he with h | h
    · exact hok e h
    · rw [List.mem_singleton] at h
      rw [h]
      norm_num
  | some hentry =>
    have hc : similarity_fft_callback Real.sqrt hist iout =
        hist_modify iout.Fc (fun e =>
          { e with
            similarity := ema_recursive e.similarity
              (similarity_estimation Real.sqrt (1 <<< iout.log2_fft_size)
                hentry.previous_signal (ema_filter (1 <<< iout.log2_fft_size) iout.samples)),
            previous_signal := ema_filter (1 <<< iout.log2_fft_size) iout.samples }) hist := by
      simp [similarity_fft_callback, hfind]
    rw [hc]
    intro e' he'
    rcases mem_hist_modify _ _ _ _ he' with h | ⟨e, h, heq⟩
    · exact hok e' h
    · obtain ⟨hs0, hs1⟩ := similarity_estimation_range (1 <<< iout.log2_fft_size)
        hentry.previous_signal (ema_filter (1 <<< iout.log2_fft_size) iout.samples) hN hfit
      obtain ⟨he0, he1⟩ := hok e h
      rw [heq]
      simp only [ema_recursive]
      constructor <;> linarith

theorem similarity_select_in_range {α : Type} [LinearOrderedField α] (expf logf : α → α)
    (s : SimilaritySelection α) (key : Nat) (hok : similarity_in_range s.hist) :
    similarity_in_range (similarity_select expf logf s key).hist := by
  unfold similarity_select
  cases hfind : hist_find s.hist key with
  | none => exact hok
  | some hentry =>
    simp only []
    split_ifs
    · exact hok
    · intro e' he'
      rcases mem_hist_modify _ _ _ _ he' with h | ⟨e, h, heq⟩
      · exact hok e' h
      · obtain ⟨he0, he1⟩ := hok e h
        have hr : (1 : α) ≤ similarity_reduction := by
          unfold similarity_reduction
          rw [le_div_iff₀ (by norm_num)]
          norm_num
        rw [heq]
        exact ⟨div_nonneg he0 (le_trans zero_le_one hr),
          le_trans (div_le_self he0 hr) he1⟩

theorem similarity_planner_in_range {α : Type} [LinearOrderedField α] (expf logf : α → α)
    (ctx : SpectrumMonitoringCTX) (s : SimilarityState α) (hok : similarity_in_range s.hist) :
    similarity_in_range (similarity_hopping_strategy expf logf ctx s).hist := by
  have hfold : ∀ (keys : List Nat) (sel : SimilaritySelection α),
      similarity_in_range sel.hist →
      similarity_in_range (keys.foldl (similarity_select expf logf) sel).hist := by
    intro keys
    induction keys with
    | nil => intro sel h; exact h
    | cons k rest ih =>
      intro sel h
      rw [List.foldl_cons]
      exact ih _ (similarity_select_in_range expf logf sel k h)
  exact hfold _ _ hok

/-- C17. History invariant, in exact real arithmetic: every history entry's similarity lies
in `[0, 100]` at all times. The table is empty at the start and an entry is created with
similarity 0; `similarity_estimation` returns a value in `[0, 100]` for all signals of equal
length `N >= 2`; the callback (entry creation, or the EMA update, a convex combination of
two values in `[0, 100]`) keeps the invariant, and so does a planner call, whose decay
divides by 1.0005. -/
theorem similarity_history_in_range :
    similarity_in_range ([] : List (SimilarityHistEntry ℝ)) ∧
    (∀ (N : Nat) (x y : Nat → ℝ), 2 ≤ N → N < UINT_MOD →
      0 ≤ similarity_estimation Real.sqrt N x y ∧
      similarity_estimation Real.sqrt N x y ≤ 100) ∧
    (∀ (hist : List (SimilarityHistEntry ℝ)) (iout : Item ℝ), similarity_in_range hist →
      1 ≤ iout.log2_fft_size → iout.log2_fft_size < 32 →
      similarity_in_range (similarity_fft_callback Real.sqrt hist iout)) ∧
    (∀ (ctx : SpectrumMonitoringCTX) (s : SimilarityState ℝ), similarity_in_range s.hist →
      similarity_in_range (similarity_hopping_strategy Real.exp Real.log ctx s).hist) := by
  refine ⟨?_, ?_, ?_, ?_⟩
  · intro e he
    simp at he
  · intro N x y hN hfit
    exact similarity_estimation_range N x y hN hfit
  · intro hist iout hok h1 h2
    exact similarity_callback_in_range hist iout hok h1 h2
  · intro ctx s hok
    exact similarity_planner_in_range Real.exp Real.log ctx s hok

/-- C17 at a concrete input: the history of scenario 1 after two identical sweeps. -/
theorem similarity_history_in_range_witness :
    similarity_in_range
      (similarity_fft_callbacks Real.sqrt [] (scenario1_fft_items ++ scenario1_fft_items)) := by
  have h := similarity_history_in_range
  simp only [similarity_fft_callbacks, scenario1_fft_items, List.cons_append, List.nil_append,
    List.foldl_cons, List.foldl_nil]
  exact h.2.2.1 _ _ (h.2.2.1 _ _ (h.2.2.1 _ _ (h.2.2.1 _ _ h.1
    (by decide) (by decide)) (by decide) (by decide)) (by decide) (by decide))
    (by decide) (by decide)

/-- C15 at a concrete input: scenario 1, an entry at similarity 80 for 100.5 MHz, one
planner call with the draw `rand() = 0`. -/
theorem similarity_decay_witness :
    ((∀ j, j < 1 →
        100500000 ∉ ((similarity_hopping_strategy Real.exp Real.log scenario1_ctx)^[j + 1]
          { hist := [{ Fc := 100500000, similarity := (80 : ℝ), previous_signal := fun _ => 0 }],
            rand := fun _ => 0, plan := plan_init }).plan.center_freqs) →
      (hist_find ((similarity_hopping_strategy Real.exp Real.log scenario1_ctx)^[1]
          { hist := [{ Fc := 100500000, similarity := (80 : ℝ), previous_signal := fun _ => 0 }],
            rand := fun _ => 0, plan := plan_init }).hist 100500000).map
          (fun e' => e'.similarity)
        = some ((80 : ℝ) / (10005 / 10000 : ℝ) ^ 1)) ∧
    (100500000 ∈ (similarity_hopping_strategy Real.exp Real.log scenario1_ctx
          { hist := [{ Fc := 100500000, similarity := (80 : ℝ), previous_signal := fun _ => 0 }],
            rand := fun _ => 0, plan := plan_init }).plan.center_freqs →
      (hist_find (similarity_hopping_strategy Real.exp Real.log scenario1_ctx
          { hist := [{ Fc := 100500000, similarity := (80 : ℝ), previous_signal := fun _ => 0 }],
            rand := fun _ => 0, plan := plan_init }).hist 100500000).map
          (fun e' => e'.similarity)
        = some (80 : ℝ)) :=
  similarity_decay Real.exp Real.log scenario1_ctx 100500000 1
    { hist := [{ Fc := 100500000, similarity := (80 : ℝ), previous_signal := fun _ => 0 }],
      rand := fun _ => 0, plan := plan_init }
    { Fc := 100500000, similarity := (80 : ℝ), previous_signal := fun _ => 0 }
    (by
      show (similarity_candidates scenario1_ctx plan_init).count 100500000 = 1
      rw [similarity_candidates_scenario1]
      decide)
    (by simp [hist_find])

/-! ## Controller: termination by elapsed time -/

theorem monitoring_event_time_exit {σ : Type} (hopping_strategy : σ → σ)
    (ctx : SpectrumMonitoringCTX) (start_t : Int) (s : MonitoringState σ) (current_t : Int)
    (hs : s.exit = none)
    (hcount : ¬ (ctx.number_of_sample_runs ≠ 0 ∧ s.measurements_left = 0)) :
    ((monitoring_event hopping_strategy ctx start_t s current_t).exit
        = some ExitCause.monitor_time
      ↔ 0 < ctx.monitor_time ∧ (ctx.monitor_time : Int) < current_t - start_t) ∧
    ((monitoring_event hopping_strategy ctx start_t s current_t).exit = none
      ↔ ¬ (0 < ctx.monitor_time ∧ (ctx.monitor_time : Int) < current_t - start_t)) ∧
    (ctx.monitor_time = 0 →
      (monitoring_event hopping_strategy ctx start_t s current_t).exit = none) := by
  have hs' : s.exit.isSome = false := by rw [hs]; rfl
  by_cases ht : ctx.monitor_time > 0 ∧ current_t - start_t > (ctx.monitor_time : Int)
  · have h : (monitoring_event hopping_strategy ctx start_t s current_t).exit
        = some ExitCause.monitor_time := by
      simp only [monitoring_event, hs', if_neg hcount, if_pos ht]
      simp
    refine ⟨⟨fun _ => ht, fun _ => h⟩, ⟨fun h' => ?_, fun h' => absurd ht h'⟩, fun h0 => ?_⟩
    · rw [h] at h'; cases h'
    · omega
  · have h : (monitoring_event hopping_strategy ctx start_t s current_t).exit = none := by
      simp only [monitoring_event, hs', if_neg hcount, if_neg ht]
      simpa using hs
    refine ⟨⟨fun h' => ?_, fun h' => absurd h' ht⟩, ⟨fun _ => ht, fun _ => h⟩, fun _ => h⟩
    rw [h] at h'; cases h'

/-- C21 (as stated in the specification, refuted). With `monitor_time = 2` and no limit on the number of sweeps, an
event at which exactly 2 seconds have elapsed since the start does not terminate the
controller (a further sweep is started); an event at 3 seconds does. -/
theorem monitoring_time_equal_goes_on :
    monitor_two_seconds_ctx.monitor_time = 2 ∧
    (monitoring_logic (fun (p : Unit) => p) monitor_two_seconds_ctx 0 () [2]).exit = none ∧
    (monitoring_logic (fun (p : Unit) => p) monitor_two_seconds_ctx 0 () [2]).sweeps_started
      = 1 ∧
    (monitoring_logic (fun (p : Unit) => p) monitor_two_seconds_ctx 0 () [3]).exit
      = some ExitCause.monitor_time := by
  refine ⟨rfl, ?_, ?_, ?_⟩ <;>
    simp [monitoring_logic, monitoring_event, monitoring_init, monitor_two_seconds_ctx,
      scenario1_ctx]

/-- C21 (amended). At an event that does not end the run by the sweep count, the controller
terminates by time if and only if `monitor_time > 0` and the elapsed time is strictly
greater than `monitor_time`; otherwise it goes on, so with `monitor_time = 0` elapsed time
never terminates it. -/
theorem monitoring_time_exit_iff {σ : Type} (hopping_strategy : σ → σ)
    (ctx : SpectrumMonitoringCTX) (start_t : Int) (s : MonitoringState σ) (current_t : Int)
    (hs : s.exit = none)
    (hcount : ¬ (ctx.number_of_sample_runs ≠ 0 ∧ s.measurements_left = 0)) :
    ((monitoring_event hopping_strategy ctx start_t s current_t).exit
        = some ExitCause.monitor_time
      ↔ 0 < ctx.monitor_time ∧ (ctx.monitor_time : Int) < current_t - start_t) ∧
    ((monitoring_event hopping_strategy ctx start_t s current_t).exit = none
      ↔ ¬ (0 < ctx.monitor_time ∧ (ctx.monitor_time : Int) < current_t - start_t)) ∧
    (ctx.monitor_time = 0 →
      (monitoring_event hopping_strategy ctx start_t s current_t).exit = none) :=
  monitoring_event_time_exit hopping_strategy ctx start_t s current_t hs hcount

/-- C21 (amended) at a concrete input: `monitor_time = 2`, the first event at 3 seconds. -/
theorem monitoring_time_exit_iff_witness :
    ((monitoring_event (fun (p : Unit) => p) monitor_two_seconds_ctx 0
          (monitoring_init monitor_two_seconds_ctx ()) 3).exit
        = some ExitCause.monitor_time
      ↔ 0 < monitor_two_seconds_ctx.monitor_time ∧
        (monitor_two_seconds_ctx.monitor_time : Int) < 3 - 0) ∧
    ((monitoring_event (fun (p : Unit) => p) monitor_two_seconds_ctx 0
          (monitoring_init monitor_two_seconds_ctx ()) 3).exit = none
      ↔ ¬ (0 < monitor_two_seconds_ctx.monitor_time ∧
        (monitor_two_seconds_ctx.monitor_time : Int) < 3 - 0)) ∧
    (monitor_two_seconds_ctx.monitor_time = 0 →
      (monitoring_event (fun (p : Unit) => p) monitor_two_seconds_ctx 0
          (monitoring_init monitor_two_seconds_ctx ()) 3).exit = none) :=
  monitoring_time_exit_iff (fun (p : Unit) => p) monitor_two_seconds_ctx 0
    (monitoring_init monitor_two_seconds_ctx ()) 3 rfl
    (by simp [monitor_two_seconds_ctx])

/-! ## Command line -/

theorem atol_uint_of_nonneg (v : Int) (h0 : 0 ≤ v) (h1 : v < (UINT_MOD : Int)) :
    atol_uint v = v.toNat := by
  unfold atol_uint
  rw [Int.emod_eq_of_lt h0 h1]

/-- An argument `v` of `-a` with `1 <= v < 2^32` is stored as it is. -/
theorem parse_option_avg_factor_pos (ctx : ManagerCTX) (v : Int) (h1 : 1 ≤ v)
    (h2 : v < (UINT_MOD : Int)) :
    parse_option ctx (CmdOption.a v) = some { ctx with avg_factor := v.toNat } := by
  have hv : atol_uint v = v.toNat := atol_uint_of_nonneg v (by omega) h2
  have hpos : ¬ v.toNat < 1 := by omega
  simp [parse_option, hv, hpos]

/-- The argument `0` of `-a` is replaced by the default 5. -/
theorem parse_option_avg_factor_zero (ctx : ManagerCTX) :
    parse_option ctx (CmdOption.a 0) = some { ctx with avg_factor := 5 } := by
  simp [parse_option, atol_uint, DEFAULT_AVG_FACTOR]

/-- A negative argument `v > -2^32` of `-a` is stored as `2^32 + v`. -/
theorem parse_option_avg_factor_neg (ctx : ManagerCTX) (v : Int) (h1 : v < 0)
    (h2 : -(UINT_MOD : Int) < v) :
    parse_option ctx (CmdOption.a v)
      = some { ctx with avg_factor := ((UINT_MOD : Int) + v).toNat } := by
  have hv : atol_uint v = ((UINT_MOD : Int) + v).toNat := by
    unfold atol_uint
    congr 1
    rw [← Int.add_emod_self_left]
    exact Int.emod_eq_of_lt (by omega) (by omega)
  have hpos : ¬ ((UINT_MOD : Int) + v).toNat < 1 := by omega
  simp [parse_option, hv, hpos]

/-- C22 (the code at the failing input). On `-a -1` (with the band `100000000 101000000`): the command line is
accepted and `avg_factor` is 4294967295, not the default 5; `-a 0` gives 5 and `-a 7`
gives 7. -/
theorem parse_args_avg_factor_minus_one :
    (parse_args [CmdOption.a (-1)] [100000000, 101000000]).map (fun ctx => ctx.avg_factor)
      = some 4294967295 ∧
    (parse_args [CmdOption.a 0] [100000000, 101000000]).map (fun ctx => ctx.avg_factor)
      = some 5 ∧
    (parse_args [CmdOption.a 7] [100000000, 101000000]).map (fun ctx => ctx.avg_factor)
      = some 7 := by
  refine ⟨?_, ?_, ?_⟩ <;>
    simp [parse_args, parse_options, parse_option, atol_uint, manager_init, UINT_MOD,
      DEFAULT_AVG_FACTOR]

/-- C23 (the code at two failing inputs). On `-f 4` alone and on `-o 200 -f 4` (with the band
`100000000 101000000`): both command lines are accepted; the first leaves
`soverlap = 128` and the second `soverlap = 200`, with `fft_size = 1 << 4 = 16`, so
`soverlap < fft_size` fails, and without `-o` the overlap is not `fft_size / 2 = 8`.
With `-f 4 -o 200` the overlap is 8. -/
theorem parse_args_soverlap_not_below_fft_size :
    (parse_args [CmdOption.f 4] [100000000, 101000000]).map
        (fun ctx => (ctx.log2_fft_size, ctx.soverlap)) = some (4, 128) ∧
    (parse_args [CmdOption.o 200, CmdOption.f 4] [100000000, 101000000]).map
        (fun ctx => (ctx.log2_fft_size, ctx.soverlap)) = some (4, 200) ∧
    (parse_args [CmdOption.f 4, CmdOption.o 200] [100000000, 101000000]).map
        (fun ctx => (ctx.log2_fft_size, ctx.soverlap)) = some (4, 8) ∧
    ¬ (128 < 1 <<< 4) ∧ ¬ (200 < 1 <<< 4) ∧ (1 <<< 4) / 2 = 8 := by
  refine ⟨?_, ?_, ?_, by decide, by decide, by decide⟩ <;>
    simp [parse_args, parse_options, parse_option, atol_uint, manager_init, UINT_MOD,
      DEFAULT_SOVERLAP, DEFAULT_LOG2_FFT_SIZE, usub, Nat.shiftLeft_eq]

/-- Right after `-o` is handled the overlap is below the FFT size of the `log2_fft_size`
held at that moment (for `log2_fft_size < 32`). -/
theorem parse_option_soverlap (ctx : ManagerCTX) (v : Int) (hlog : ctx.log2_fft_size < 32) :
    ∃ ctx1, parse_option ctx (CmdOption.o v) = some ctx1 ∧
      ctx1.log2_fft_size = ctx.log2_fft_size ∧
      ctx1.soverlap < 1 <<< ctx1.log2_fft_size := by
  have hpow : 2 ^ ctx.log2_fft_size < UINT_MOD := by
    unfold UINT_MOD
    exact Nat.pow_lt_pow_right (by norm_num) hlog
  have hpos : 0 < 2 ^ ctx.log2_fft_size := by positivity
  have hu : usub (2 ^ ctx.log2_fft_size) 1 = 2 ^ ctx.log2_fft_size - 1 :=
    usub_of_le _ _ hpos hpow
  simp only [parse_option, Nat.shiftLeft_eq, one_mul, Nat.mod_eq_of_lt hpow, hu]
  split_ifs with h
  · exact ⟨_, rfl, rfl, by simp only []; omega⟩
  · exact ⟨_, rfl, rfl, by simp only [] at h ⊢; omega⟩

/-! ## Sampling: payload, read length and buffer bounds -/

/-- The interleaved position `n` of segment `j` is computed from `iq_buf` at
`segment_index fft_size soverlap j n`, with the window taken at the even position. -/
theorem sampling_segment_reads {α : Type} [Field α] (cos2pi : ℚ → α)
    (ctx : SamplingWindowingCTX) (tv : Nat × Nat) (iq_buf : Nat → Nat)
    (samp_rate log2_fft_size fft_size avg_factor soverlap center_freq : Nat)
    (freq_overlap : ℚ) (window_fun : WindowFun) (j k : Nat) (hk : k < fft_size) :
    (sampling_segment cos2pi ctx tv iq_buf samp_rate log2_fft_size fft_size avg_factor
        soverlap center_freq freq_overlap window_fun j).samples (2 * k)
      = (((iq_buf (segment_index fft_size soverlap j (2 * k)) : Nat) : α)
          - ((List.range fft_size).map fun m =>
              ((iq_buf (segment_index fft_size soverlap j (2 * m)) : Nat) : α)).sum
            / (fft_size : α))
        * window_fun.apply cos2pi ((2 * k : Nat) : Int) (fft_size : Int) ∧
    (sampling_segment cos2pi ctx tv iq_buf samp_rate log2_fft_size fft_size avg_factor
        soverlap center_freq freq_overlap window_fun j).samples (2 * k + 1)
      = (((iq_buf (segment_index fft_size soverlap j (2 * k + 1)) : Nat) : α)
          - ((List.range fft_size).map fun m =>
              ((iq_buf (segment_index fft_size soverlap j (2 * m + 1)) : Nat) : α)).sum
            / (fft_size : α))
        * window_fun.apply cos2pi ((2 * k : Nat) : Int) (fft_size : Int) := by
  have h1 : 2 * k < fft_size * 2 := by omega
  have h2 : 2 * k + 1 < fft_size * 2 := by omega
  have h3 : (2 * k) % 2 = 0 := by omega
  have h4 : ¬ (2 * k + 1) % 2 = 0 := by omega
  constructor
  · simp only [sampling_segment, segment_index, if_pos h1, if_pos h3]
  · simp only [sampling_segment, segment_index, if_pos h2, if_neg h4]
    congr 2
    push_cast
    ring

/-- Without wrap-around the index read is `n + j*(fft_size-soverlap)*2`. -/
theorem segment_index_eq (fft_size soverlap j n : Nat) (hso : soverlap ≤ fft_size)
    (hn : n < 2 * fft_size)
    (hfit : j * (fft_size - soverlap) * 2 + 2 * fft_size ≤ UINT_MOD) :
    segment_index fft_size soverlap j n = n + j * (fft_size - soverlap) * 2 := by
  have hf : fft_size < UINT_MOD := by omega
  unfold segment_index
  rw [usub_of_le fft_size soverlap hso hf]
  generalize j * (fft_size - soverlap) * 2 = d at hfit
  rw [Nat.mod_eq_of_lt (by omega : d < UINT_MOD), Nat.mod_eq_of_lt (by omega)]

theorem sampling_payload_segment {α : Type} [Field α] (cos2pi : ℚ → α)
    (ctx : SamplingWindowingCTX) (tv : Nat × Nat) (iq_buf : Nat → Nat)
    (samp_rate log2_fft_size fft_size avg_factor soverlap center_freq : Nat)
    (freq_overlap : ℚ) (window_fun : WindowFun) (j k : Nat)
    (hso : soverlap ≤ fft_size)
    (hfit : j * (fft_size - soverlap) * 2 + 2 * fft_size ≤ UINT_MOD)
    (hk : k < fft_size) :
    (sampling_segment cos2pi ctx tv iq_buf samp_rate log2_fft_size fft_size avg_factor
        soverlap center_freq freq_overlap window_fun j).samples (2 * k)
      = (((iq_buf (j * (fft_size - soverlap) * 2 + 2 * k) : Nat) : α)
          - channel_mean iq_buf (j * (fft_size - soverlap) * 2) fft_size)
        * window_fun.apply cos2pi ((2 * k : Nat) : Int) (fft_size : Int) ∧
    (sampling_segment cos2pi ctx tv iq_buf samp_rate log2_fft_size fft_size avg_factor
        soverlap center_freq freq_overlap window_fun j).samples (2 * k + 1)
      = (((iq_buf (j * (fft_size - soverlap) * 2 + 2 * k + 1) : Nat) : α)
          - channel_mean iq_buf (j * (fft_size - soverlap) * 2 + 1) fft_size)
        * window_fun.apply cos2pi ((2 * k : Nat) : Int) (fft_size : Int) := by
  have hidx : ∀ n, n < 2 * fft_size →
      segment_index fft_size soverlap j n = j * (fft_size - soverlap) * 2 + n := by
    intro n hn
    rw [segment_index_eq fft_size soverlap j n hso hn hfit, Nat.add_comm]
  have hI : ((List.range fft_size).map fun m =>
        ((iq_buf (segment_index fft_size soverlap j (2 * m)) : Nat) : α))
      = (List.range fft_size).map fun m =>
        ((iq_buf (j * (fft_size - soverlap) * 2 + 2 * m) : Nat) : α) := by
    apply List.map_congr_left
    intro m hm
    rw [hidx (2 * m) (by have := List.mem_range.mp hm; omega)]
  have hQ : ((List.range fft_size).map fun m =>
        ((iq_buf (segment_index fft_size soverlap j (2 * m + 1)) : Nat) : α))
      = (List.range fft_size).map fun m =>
        ((iq_buf (j * (fft_size - soverlap) * 2 + 1 + 2 * m) : Nat) : α) := by
    apply List.map_congr_left
    intro m hm
    rw [hidx (2 * m + 1) (by have := List.mem_range.mp hm; omega)]
    congr 2
    omega
  have h := sampling_segment_reads cos2pi ctx tv iq_buf samp_rate log2_fft_size fft_size
    avg_factor soverlap center_freq freq_overlap window_fun j k hk
  rw [hI, hQ, hidx (2 * k) (by omega), hidx (2 * k + 1) (by omega)] at h
  exact h

theorem sampling_hop_items_getElem {α : Type} [Field α] (cos2pi : ℚ → α)
    (ctx : SamplingWindowingCTX) (gettimeofday : Nat → Nat × Nat)
    (SDR_read : Nat → Nat → Nat) (i j : Nat) (hj : j < ctx.avg_factors.getD i 0) :
    (sampling_hop_items cos2pi ctx gettimeofday SDR_read i)[j]?
      = some (sampling_segment cos2pi ctx (gettimeofday i) (SDR_read i)
          (ctx.samp_rates.getD i 0) (ctx.log2_fft_sizes.getD i 0)
          ((1 <<< ctx.log2_fft_sizes.getD i 0) % UINT_MOD) (ctx.avg_factors.getD i 0)
          (ctx.soverlaps.getD i 0) (ctx.center_freqs.getD i 0) (ctx.freq_overlaps.getD i 0)
          (ctx.window_funs.getD i WindowFun.rectangular_window) j) := by
  unfold sampling_hop_items
  rw [List.getElem?_map, List.getElem?_range hj]
  rfl

theorem window_rectangular {α : Type} [Field α] (cos2pi : ℚ → α) (n N : Int) :
    WindowFun.rectangular_window.apply cos2pi n N = (1 : α) := rfl

/-- C24. Sampling payload, in exact arithmetic: in hop `i` of a sweep, the Item of segment `j` holds, for every `k < fft_size`,
`samples[2k] = (iq_buf[off + 2k] - mean_I) * w(2k, fft_size)` and
`samples[2k+1] = (iq_buf[off + 2k + 1] - mean_Q) * w(2k, fft_size)` with
`off = j * (fft_size - soverlap) * 2` and `mean_I`, `mean_Q` the means of the segment's
`fft_size` I bytes and Q bytes, provided the indices fit in 32 bits; with the rectangular
window both are the input minus the channel mean. -/
theorem sampling_payload {α : Type} [Field α] (cos2pi : ℚ → α)
    (ctx : SamplingWindowingCTX) (gettimeofday : Nat → Nat × Nat)
    (SDR_read : Nat → Nat → Nat) (i j k fft_size soverlap : Nat)
    (hfft : fft_size = (1 <<< ctx.log2_fft_sizes.getD i 0) % UINT_MOD)
    (hsov : soverlap = ctx.soverlaps.getD i 0)
    (hso : soverlap ≤ fft_size) (hj : j < ctx.avg_factors.getD i 0)
    (hfit : j * (fft_size - soverlap) * 2 + 2 * fft_size ≤ UINT_MOD)
    (hk : k < fft_size) :
    ∃ it : Item α, (sampling_hop_items cos2pi ctx gettimeofday SDR_read i)[j]? = some it ∧
      it.samples (2 * k)
        = (((SDR_read i (j * (fft_size - soverlap) * 2 + 2 * k) : Nat) : α)
            - channel_mean (SDR_read i) (j * (fft_size - soverlap) * 2) fft_size)
          * (ctx.window_funs.getD i WindowFun.rectangular_window).apply cos2pi
              ((2 * k : Nat) : Int) (fft_size : Int) ∧
      it.samples (2 * k + 1)
        = (((SDR_read i (j * (fft_size - soverlap) * 2 + 2 * k + 1) : Nat) : α)
            - channel_mean (SDR_read i) (j * (fft_size - soverlap) * 2 + 1) fft_size)
          * (ctx.window_funs.getD i WindowFun.rectangular_window).apply cos2pi
              ((2 * k : Nat) : Int) (fft_size : Int) ∧
      (ctx.window_funs.getD i WindowFun.rectangular_window = WindowFun.rectangular_window →
        it.samples (2 * k)
          = ((SDR_read i (j * (fft_size - soverlap) * 2 + 2 * k) : Nat) : α)
            - channel_mean (SDR_read i) (j * (fft_size - soverlap) * 2) fft_size ∧
        it.samples (2 * k + 1)
          = ((SDR_read i (j * (fft_size - soverlap) * 2 + 2 * k + 1) : Nat) : α)
            - channel_mean (SDR_read i) (j * (fft_size - soverlap) * 2 + 1) fft_size) := by
  subst hfft hsov
  have h := sampling_payload_segment cos2pi ctx (gettimeofday i) (SDR_read i)
    (ctx.samp_rates.getD i 0) (ctx.log2_fft_sizes.getD i 0)
    ((1 <<< ctx.log2_fft_sizes.getD i 0) % UINT_MOD) (ctx.avg_factors.getD i 0)
    (ctx.soverlaps.getD i 0) (ctx.center_freqs.getD i 0) (ctx.freq_overlaps.getD i 0)
    (ctx.window_funs.getD i WindowFun.rectangular_window) j k hso hfit hk
  refine ⟨_, sampling_hop_items_getElem cos2pi ctx gettimeofday SDR_read i j hj,
    h.1, h.2, fun hw => ?_⟩
  simp only [hw, window_rectangular, mul_one] at h ⊢
  exact h

/-- C24 at a concrete input: hop 0 of `one_hop_ctx`, segment 1, `k = 3`, with the byte
`n % 256` at index `n` of `iq_buf`. -/
theorem sampling_payload_witness :
    ∃ it : Item ℚ,
      (sampling_hop_items (fun _ => (1 : ℚ)) one_hop_ctx (fun _ => (0, 0))
        (fun _ n => n % 256) 0)[1]? = some it ∧
      it.samples (2 * 3)
        = ((((fun (_ : Nat) (n : Nat) => n % 256) 0 (1 * (4 - 1) * 2 + 2 * 3) : Nat) : ℚ)
            - channel_mean ((fun (_ : Nat) (n : Nat) => n % 256) 0) (1 * (4 - 1) * 2) 4)
          * (one_hop_ctx.window_funs.getD 0 WindowFun.rectangular_window).apply
              (fun _ => (1 : ℚ)) ((2 * 3 : Nat) : Int) ((4 : Nat) : Int) ∧
      it.samples (2 * 3 + 1)
        = ((((fun (_ : Nat) (n : Nat) => n % 256) 0 (1 * (4 - 1) * 2 + 2 * 3 + 1) : Nat) : ℚ)
            - channel_mean ((fun (_ : Nat) (n : Nat) => n % 256) 0) (1 * (4 - 1) * 2 + 1) 4)
          * (one_hop_ctx.window_funs.getD 0 WindowFun.rectangular_window).apply
              (fun _ => (1 : ℚ)) ((2 * 3 : Nat) : Int) ((4 : Nat) : Int) ∧
      (one_hop_ctx.window_funs.getD 0 WindowFun.rectangular_window
          = WindowFun.rectangular_window →
        it.samples (2 * 3)
          = (((fun (_ : Nat) (n : Nat) => n % 256) 0 (1 * (4 - 1) * 2 + 2 * 3) : Nat) : ℚ)
            - channel_mean ((fun (_ : Nat) (n : Nat) => n % 256) 0) (1 * (4 - 1) * 2) 4 ∧
        it.samples (2 * 3 + 1)
          = (((fun (_ : Nat) (n : Nat) => n % 256) 0 (1 * (4 - 1) * 2 + 2 * 3 + 1) : Nat) : ℚ)
            - channel_mean ((fun (_ : Nat) (n : Nat) => n % 256) 0) (1 * (4 - 1) * 2 + 1)
                4) :=
  sampling_payload (fun _ => (1 : ℚ)) one_hop_ctx (fun _ => (0, 0)) (fun _ n => n % 256)
    0 1 3 4 1 (by decide) (by decide) (by decide) (by decide) (by decide) (by decide)

/-! ## Sampling: the read length -/

/-- Without wrap-around `sampling_slen` is the least multiple of 512 that is at least
`((fft_size - soverlap) * avg_factor + soverlap) * 2`. -/
theorem sampling_slen_least_multiple (fft_size avg_factor soverlap : Nat)
    (hso : soverlap < fft_size) (haf : 1 ≤ avg_factor)
    (hfit : ((fft_size - soverlap) * avg_factor + soverlap) * 2 + 511 < UINT_MOD) :
    512 ∣ sampling_slen fft_size avg_factor soverlap ∧
    ((fft_size - soverlap) * avg_factor + soverlap) * 2
      ≤ sampling_slen fft_size avg_factor soverlap ∧
    ∀ m, 512 ∣ m → ((fft_size - soverlap) * avg_factor + soverlap) * 2 ≤ m →
      sampling_slen fft_size avg_factor soverlap ≤ m := by
  have hd : fft_size - soverlap ≤ (fft_size - soverlap) * avg_factor :=
    Nat.le_mul_of_pos_right _ haf
  have hf : fft_size < UINT_MOD := by omega
  unfold sampling_slen
  rw [usub_of_le fft_size soverlap (le_of_lt hso) hf]
  generalize (fft_size - soverlap) * avg_factor = p at hfit hd
  have hU : UINT_MOD = 4294967296 := by norm_num [UINT_MOD]
  rw [hU] at hfit ⊢
  rw [Nat.mod_eq_of_lt (by omega : p < 4294967296),
    Nat.mod_eq_of_lt (by omega : (p + soverlap) * 2 < 4294967296)]
  generalize (p + soverlap) * 2 = X at hfit
  by_cases h0 : X % 512 ≠ 0
  · simp only [if_pos h0]
    rw [Nat.mod_eq_of_lt (by omega : X + (512 - X % 512) < 4294967296)]
    refine ⟨by omega, by omega, ?_⟩
    intro m hm hle
    obtain ⟨c, rfl⟩ := hm
    omega
  · simp only [if_neg h0]
    refine ⟨by omega, le_refl _, fun m _ hle => hle⟩

theorem sampling_slen_ok_init {α : Type} :
    sampling_slen_ok (sampling_init : SamplingState α) := by
  simp [sampling_slen_ok, sampling_init, sampling_slen, usub, UINT_MOD]

/-- One hop: the length passed to the read is the one of the hop's own segmentation,
whether or not it was recomputed. -/
theorem sampling_hop_slen {α : Type} [Field α] (cos2pi : ℚ → α) (ctx : SamplingWindowingCTX)
    (gettimeofday : Nat → Nat × Nat) (SDR_read : Nat → Nat → Nat)
    (s : SamplingState α) (i : Nat) (hok : sampling_slen_ok s) :
    sampling_slen_ok (sampling_hop cos2pi ctx gettimeofday SDR_read s i) ∧
    sdr_reads (sampling_hop cos2pi ctx gettimeofday SDR_read s i).sdr
      = sdr_reads s.sdr ++ [sampling_slen ((1 <<< ctx.log2_fft_sizes.getD i 0) % UINT_MOD)
          (ctx.avg_factors.getD i 0) (ctx.soverlaps.getD i 0)] := by
  unfold sampling_slen_ok at hok
  by_cases hch : s.prev_fft_size ≠ (1 <<< ctx.log2_fft_sizes.getD i 0) % UINT_MOD ∨
      s.prev_avg_factor ≠ ctx.avg_factors.getD i 0 ∨ s.prev_soverlap ≠ ctx.soverlaps.getD i 0
  · simp only [sampling_hop, if_pos hch, sampling_slen_ok]
    split_ifs <;> simp_all [sdr_reads, sampling_slen]
  · have h1 : s.prev_fft_size = (1 <<< ctx.log2_fft_sizes.getD i 0) % UINT_MOD := by
      by_contra h; exact hch (Or.inl h)
    have h2 : s.prev_avg_factor = ctx.avg_factors.getD i 0 := by
      by_contra h; exact hch (Or.inr (Or.inl h))
    have h3 : s.prev_soverlap = ctx.soverlaps.getD i 0 := by
      by_contra h; exact hch (Or.inr (Or.inr h))
    simp only [sampling_hop, if_neg hch, sampling_slen_ok]
    rw [← h1, ← h2, ← h3]
    split_ifs <;> simp_all [sdr_reads]

theorem sampling_hops_slen {α : Type} [Field α] (cos2pi : ℚ → α) (ctx : SamplingWindowingCTX)
    (gettimeofday : Nat → Nat × Nat) (SDR_read : Nat → Nat → Nat) (n : Nat)
    (s : SamplingState α) (hok : sampling_slen_ok s) :
    sampling_slen_ok
      ((List.range n).foldl (sampling_hop cos2pi ctx gettimeofday SDR_read) s) ∧
    sdr_reads ((List.range n).foldl (sampling_hop cos2pi ctx gettimeofday SDR_read) s).sdr
      = sdr_reads s.sdr ++ (List.range n).map fun i =>
          sampling_slen ((1 <<< ctx.log2_fft_sizes.getD i 0) % UINT_MOD)
            (ctx.avg_factors.getD i 0) (ctx.soverlaps.getD i 0) := by
  induction n with
  | zero => simpa using hok
  | succ n ih =>
    rw [List.range_succ, List.foldl_append, List.map_append]
    have h := sampling_hop_slen cos2pi ctx gettimeofday SDR_read
      ((List.range n).foldl (sampling_hop cos2pi ctx gettimeofday SDR_read) s) n ih.1
    refine ⟨h.1, ?_⟩
    simp only [List.foldl_cons, List.foldl_nil, List.map_cons, List.map_nil]
    rw [h.2, ih.2, List.append_assoc]

theorem sampling_sweep_slen {α : Type} [Field α] (cos2pi : ℚ → α)
    (ctx : SamplingWindowingCTX) (gettimeofday : Nat → Nat × Nat)
    (SDR_read : Nat → Nat → Nat) (s : SamplingState α) (hok : sampling_slen_ok s) :
    sampling_slen_ok (sampling_sweep cos2pi ctx gettimeofday SDR_read s) ∧
    sdr_reads (sampling_sweep cos2pi ctx gettimeofday SDR_read s).sdr
      = sdr_reads s.sdr ++ (List.range ctx.length).map fun i =>
          sampling_slen ((1 <<< ctx.log2_fft_sizes.getD i 0) % UINT_MOD)
            (ctx.avg_factors.getD i 0) (ctx.soverlaps.getD i 0) := by
  have h := sampling_hops_slen cos2pi ctx gettimeofday SDR_read ctx.length
    { s with sdr := s.sdr ++ [SDRCall.set_freq_correction ctx.clk_off] } hok
  refine ⟨h.1, ?_⟩
  unfold sampling_sweep
  rw [h.2]
  simp [sdr_reads]

/-- Without wrap-around every index read for the segments `j < avg_factor` is at most
`((fft_size - soverlap) * avg_factor + soverlap) * 2 - 1`, which is read. -/
theorem segment_index_bound (fft_size avg_factor soverlap : Nat)
    (hso : soverlap < fft_size) (haf : 1 ≤ avg_factor)
    (hfit : ((fft_size - soverlap) * avg_factor + soverlap) * 2 + 511 < UINT_MOD) :
    (∀ j n, j < avg_factor → n < 2 * fft_size →
      segment_index fft_size soverlap j n = n + j * (fft_size - soverlap) * 2 ∧
      segment_index fft_size soverlap j n
        ≤ ((fft_size - soverlap) * avg_factor + soverlap) * 2 - 1 ∧
      segment_index fft_size soverlap j n < sampling_slen fft_size avg_factor soverlap) ∧
    segment_index fft_size soverlap (avg_factor - 1) (2 * fft_size - 1)
      = ((fft_size - soverlap) * avg_factor + soverlap) * 2 - 1 := by
  have hsl := (sampling_slen_least_multiple fft_size avg_factor soverlap hso haf hfit).2.1
  have hmul : ∀ j, j < avg_factor →
      j * (fft_size - soverlap) + (fft_size - soverlap)
        ≤ (fft_size - soverlap) * avg_factor := by
    intro j hj
    calc j * (fft_size - soverlap) + (fft_size - soverlap)
        = (fft_size - soverlap) * (j + 1) := by ring
      _ ≤ (fft_size - soverlap) * avg_factor := Nat.mul_le_mul_left _ hj
  have hlast : (avg_factor - 1) * (fft_size - soverlap) + (fft_size - soverlap)
      = (fft_size - soverlap) * avg_factor := by
    obtain ⟨a, rfl⟩ : ∃ a, avg_factor = a + 1 := ⟨avg_factor - 1, by omega⟩
    simp only [Nat.add_sub_cancel]
    ring
  have hidx : ∀ j n, j < avg_factor → n < 2 * fft_size →
      segment_index fft_size soverlap j n = n + j * (fft_size - soverlap) * 2 := by
    intro j n hj hn
    apply segment_index_eq fft_size soverlap j n (le_of_lt hso) hn
    have := hmul j hj
    generalize j * (fft_size - soverlap) = q at this ⊢
    generalize (fft_size - soverlap) * avg_factor = p at this hfit
    have hU : UINT_MOD = 4294967296 := by norm_num [UINT_MOD]
    omega
  constructor
  · intro j n hj hn
    have hle : n + j * (fft_size - soverlap) * 2
        ≤ ((fft_size - soverlap) * avg_factor + soverlap) * 2 - 1 := by
      have := hmul j hj
      generalize j * (fft_size - soverlap) = q at this ⊢
      generalize (fft_size - soverlap) * avg_factor = p at this
      omega
    rw [hidx j n hj hn]
    refine ⟨rfl, hle, ?_⟩
    have hpos : 0 < ((fft_size - soverlap) * avg_factor + soverlap) * 2 := by
      have := hmul 0 haf
      generalize (fft_size - soverlap) * avg_factor = p at this ⊢
      omega
    omega
  · rw [hidx (avg_factor - 1) (2 * fft_size - 1) (by omega) (by omega)]
    generalize (avg_factor - 1) * (fft_size - soverlap) = q at hlast ⊢
    generalize (fft_size - soverlap) * avg_factor = p at hlast ⊢
    omega

/-- C26. Bulk-read length: the length passed to the SDR read is, at every hop of a sweep, the value
`sampling_slen` of that hop's own `fft_size`, `avg_factor` and `soverlap`, although the
thread recomputes it only when one of the three changed (started from its initial state,
or from any state left by earlier sweeps); and whenever `soverlap < fft_size`,
`avg_factor >= 1` and nothing wraps in 32 bits that value is the least multiple of 512
that is at least `((fft_size - soverlap) * avg_factor + soverlap) * 2`. -/
theorem sampling_read_length {α : Type} [Field α] (cos2pi : ℚ → α)
    (ctx : SamplingWindowingCTX) (gettimeofday : Nat → Nat × Nat)
    (SDR_read : Nat → Nat → Nat) (s : SamplingState α) (hok : sampling_slen_ok s) :
    sampling_slen_ok (sampling_init : SamplingState α) ∧
    sampling_slen_ok (sampling_sweep cos2pi ctx gettimeofday SDR_read s) ∧
    sdr_reads (sampling_sweep cos2pi ctx gettimeofday SDR_read s).sdr
      = sdr_reads s.sdr ++ (List.range ctx.length).map (fun i =>
          sampling_slen ((1 <<< ctx.log2_fft_sizes.getD i 0) % UINT_MOD)
            (ctx.avg_factors.getD i 0) (ctx.soverlaps.getD i 0)) ∧
    ∀ fft_size avg_factor soverlap : Nat, soverlap < fft_size → 1 ≤ avg_factor →
      ((fft_size - soverlap) * avg_factor + soverlap) * 2 + 511 < UINT_MOD →
      512 ∣ sampling_slen fft_size avg_factor soverlap ∧
      ((fft_size - soverlap) * avg_factor + soverlap) * 2
        ≤ sampling_slen fft_size avg_factor soverlap ∧
      ∀ m, 512 ∣ m → ((fft_size - soverlap) * avg_factor + soverlap) * 2 ≤ m →
        sampling_slen fft_size avg_factor soverlap ≤ m :=
  ⟨sampling_slen_ok_init,
    (sampling_sweep_slen cos2pi ctx gettimeofday SDR_read s hok).1,
    (sampling_sweep_slen cos2pi ctx gettimeofday SDR_read s hok).2,
    sampling_slen_least_multiple⟩

/-- C26 at a concrete input: the sweep of `one_hop_ctx` from the initial state. -/
theorem sampling_read_length_witness :
    sampling_slen_ok (sampling_init : SamplingState ℚ) ∧
    sampling_slen_ok (sampling_sweep (fun _ => (1 : ℚ)) one_hop_ctx (fun _ => (0, 0))
      (fun _ n => n % 256) sampling_init) ∧
    sdr_reads (sampling_sweep (fun _ => (1 : ℚ)) one_hop_ctx (fun _ => (0, 0))
        (fun _ n => n % 256) sampling_init).sdr
      = sdr_reads (sampling_init : SamplingState ℚ).sdr
        ++ (List.range one_hop_ctx.length).map (fun i =>
          sampling_slen ((1 <<< one_hop_ctx.log2_fft_sizes.getD i 0) % UINT_MOD)
            (one_hop_ctx.avg_factors.getD i 0) (one_hop_ctx.soverlaps.getD i 0)) ∧
    ∀ fft_size avg_factor soverlap : Nat, soverlap < fft_size → 1 ≤ avg_factor →
      ((fft_size - soverlap) * avg_factor + soverlap) * 2 + 511 < UINT_MOD →
      512 ∣ sampling_slen fft_size avg_factor soverlap ∧
      ((fft_size - soverlap) * avg_factor + soverlap) * 2
        ≤ sampling_slen fft_size avg_factor soverlap ∧
      ∀ m, 512 ∣ m → ((fft_size - soverlap) * avg_factor + soverlap) * 2 ≤ m →
        sampling_slen fft_size avg_factor soverlap ≤ m :=
  sampling_read_length (fun _ => (1 : ℚ)) one_hop_ctx (fun _ => (0, 0)) (fun _ n => n % 256)
    sampling_init (by simp [sampling_slen_ok, sampling_init, sampling_slen, usub, UINT_MOD])

/-- C29. Segmentation stays inside the bulk buffer: for `soverlap < fft_size` (so `fft_size >= 1`), `avg_factor >= 1` and no wrap in 32
bits, every index `n + j*(fft_size - soverlap)*2` read from `iq_buf` (segments
`j < avg_factor`, interleaved positions `n < 2*fft_size`, even for I and odd for Q) is
strictly below the read length `slen`; the largest index read, that of the last position
of the last segment, is exactly `((fft_size - soverlap)*avg_factor + soverlap)*2 - 1`. -/
theorem segmentation_inside_buffer (fft_size avg_factor soverlap : Nat)
    (hso : soverlap < fft_size) (haf : 1 ≤ avg_factor)
    (hfit : ((fft_size - soverlap) * avg_factor + soverlap) * 2 + 511 < UINT_MOD) :
    (∀ j n, j < avg_factor → n < 2 * fft_size →
      segment_index fft_size soverlap j n = n + j * (fft_size - soverlap) * 2 ∧
      segment_index fft_size soverlap j n
        ≤ ((fft_size - soverlap) * avg_factor + soverlap) * 2 - 1 ∧
      segment_index fft_size soverlap j n < sampling_slen fft_size avg_factor soverlap) ∧
    segment_index fft_size soverlap (avg_factor - 1) (2 * fft_size - 1)
      = ((fft_size - soverlap) * avg_factor + soverlap) * 2 - 1 :=
  segment_index_bound fft_size avg_factor soverlap hso haf hfit

/-- C29 at a concrete input: `fft_size = 256`, `avg_factor = 5`, `soverlap = 128` (the
defaults): 1536 bytes are read and the largest index is 1535. -/
theorem segmentation_inside_buffer_witness :
    (∀ j n, j < 5 → n < 2 * 256 →
      segment_index 256 128 j n = n + j * (256 - 128) * 2 ∧
      segment_index 256 128 j n ≤ ((256 - 128) * 5 + 128) * 2 - 1 ∧
      segment_index 256 128 j n < sampling_slen 256 5 128) ∧
    segment_index 256 128 (5 - 1) (2 * 256 - 1) = ((256 - 128) * 5 + 128) * 2 - 1 :=
  segmentation_inside_buffer 256 5 128 (by decide) (by decide) (by norm_num [UINT_MOD])

/-! ## FFT stage: the engine is set up for the batch it transforms -/

theorem fft_log_append (b : Nat) (l1 l2 : List FFTCall) (e : Option (Nat × Nat)) :
    fft_engine_after e (l1 ++ l2) = fft_engine_after (fft_engine_after e l1) l2 ∧
    fft_forwards_checked b e (l1 ++ l2)
      = (fft_forwards_checked b e l1
          && fft_forwards_checked b (fft_engine_after e l1) l2) := by
  induction l1 generalizing e with
  | nil => simp [fft_engine_after, fft_forwards_checked]
  | cons c r ih =>
    cases c with
    | release => simpa [fft_engine_after, fft_forwards_checked] using ih none
    | init sz len => simpa [fft_engine_after, fft_forwards_checked] using ih (some (sz, len))
    | forward cnt =>
      have := ih e
      simp [fft_engine_after, fft_forwards_checked, this.1, this.2, Bool.and_assoc]

theorem fft_write_items_forwarded {α : Type}
    (F : Option (Nat × Nat) → List (Nat → α) → Nat → (Nat → α))
    (b sz : Nat) (its : List (Item α)) (hsz : ∀ it ∈ its, it.log2_fft_size = sz)
    (h1 : 1 ≤ its.length) (hb : its.length ≤ b) (n : Nat) :
    List.Forall₂ (fft_forwarded F b) (its.take n)
      (fft_write_items F (some (sz, its.length)) its n) := by
  induction n with
  | zero => simp [fft_write_items]
  | succ n ih =>
    have hsplit : fft_write_items F (some (sz, its.length)) its (n + 1) =
        fft_write_items F (some (sz, its.length)) its n ++
          (its[n]?.map fun it =>
            { it with samples_size := it.samples_size / 2,
                      samples := F (some (sz, its.length)) (its.map Item.samples) n }).toList := by
      unfold fft_write_items
      rw [List.range_succ, List.filterMap_append]
      congr 1
    rw [hsplit, List.take_succ]
    refine List.rel_append ih ?_
    cases hn : its[n]? with
    | none => simp
    | some it =>
      simp only [Option.toList, Option.map]
      obtain ⟨hlt, hget⟩ := List.getElem?_eq_some.mp hn
      have hmem : it ∈ its := hget ▸ List.getElem_mem hlt
      refine List.Forall₂.cons ⟨its.map Item.samples, n, by simpa using hlt,
        by simpa using h1, by simpa using hb, ?_⟩ List.Forall₂.nil
      rw [hsz it hmem, List.length_map]

theorem fft_engine_inv_step {α : Type}
    (F : Option (Nat × Nat) → List (Nat → α) → Nat → (Nat → α))
    (fft_batchlen : Nat) (pre : List (Item α)) (s : FFTState α) (iin : Item α)
    (hb : 1 ≤ fft_batchlen) (hpos : 1 ≤ iin.log2_fft_size)
    (h : fft_engine_inv F fft_batchlen pre s) :
    fft_engine_inv F fft_batchlen (pre ++ [iin]) (fft_step F fft_batchlen s iin) := by
  obtain ⟨hlt, hsame, heng, hlog, hchk, done, hpre, hdone⟩ := h
  -- the state after the size-change block
  have h1 : ∀ s1 : FFTState α, fft_engine_inv F fft_batchlen pre s1 →
      s1.prev_log2_fft_size = iin.log2_fft_size →
      fft_engine_inv F fft_batchlen (pre ++ [iin])
        (if (FFTState.batch_cnt { s1 with its := s1.its ++ [iin] }) ≥ fft_batchlen then
          { s1 with
            calls := s1.calls ++ [FFTCall.forward (s1.its ++ [iin]).length]
            qout := s1.qout ++ fft_write_items F s1.engine (s1.its ++ [iin]) fft_batchlen
            its := [] }
        else { s1 with its := s1.its ++ [iin] }) := by
    rintro s1 ⟨hl1, hs1, he1, hg1, hc1, d1, hp1, hd1⟩ hprev
    have he : s1.engine = some (iin.log2_fft_size, fft_batchlen) := by
      rw [← hprev]; exact he1 (by omega)
    have hall : ∀ it ∈ s1.its ++ [iin], it.log2_fft_size = iin.log2_fft_size := by
      intro it hit
      rcases List.mem_append.mp hit with hm | hm
      · rw [hs1 it hm, hprev]
      · rw [List.mem_singleton.mp hm]
    simp only [FFTState.batch_cnt, List.length_append, List.length_singleton]
    split
    · next hge =>
      have hlen : (s1.its ++ [iin]).length = fft_batchlen := by
        simp only [List.length_append, List.length_singleton]; omega
      refine ⟨by simpa using hb, by simp, fun _ => ?_, ?_, ?_,
        d1 ++ (s1.its ++ [iin]), by simp [hp1], ?_⟩
      · rw [hprev]; exact he
      · rw [(fft_log_append fft_batchlen _ _ _).1, hg1]
        rfl
      · rw [(fft_log_append fft_batchlen _ _ _).2, hc1, hg1, he]
        have : s1.its.length + 1 = fft_batchlen := by omega
        simp [fft_forwards_checked, this, hb]
      · refine List.rel_append hd1 ?_
        have hw := fft_write_items_forwarded F fft_batchlen iin.log2_fft_size
          (s1.its ++ [iin]) hall (by rw [hlen]; exact hb) (by rw [hlen]) fft_batchlen
        rw [hlen, List.take_of_length_le (by rw [hlen])] at hw
        rw [he]
        exact hw
    · next hlt2 =>
      refine ⟨by simp; omega, ?_, he1, hg1, hc1, d1, by simp [hp1], hd1⟩
      intro it hit
      rw [hall it hit, hprev]
  have h2 : fft_engine_inv F fft_batchlen pre
      (if s.prev_log2_fft_size ≠ iin.log2_fft_size then
        (let s0 : FFTState α :=
          if s.batch_cnt > 0 then { fft_flush F s with its := [] } else s
        { s0 with
          engine := some (iin.log2_fft_size, fft_batchlen)
          calls := s0.calls ++ [FFTCall.release, FFTCall.init iin.log2_fft_size fft_batchlen]
          prev_log2_fft_size := iin.log2_fft_size })
      else s) ∧
      (if s.prev_log2_fft_size ≠ iin.log2_fft_size then
        (let s0 : FFTState α :=
          if s.batch_cnt > 0 then { fft_flush F s with its := [] } else s
        { s0 with
          engine := some (iin.log2_fft_size, fft_batchlen)
          calls := s0.calls ++ [FFTCall.release, FFTCall.init iin.log2_fft_size fft_batchlen]
          prev_log2_fft_size := iin.log2_fft_size })
      else s).prev_log2_fft_size = iin.log2_fft_size := by
    by_cases hne : s.prev_log2_fft_size ≠ iin.log2_fft_size
    · simp only [if_pos hne]
      by_cases hcnt : s.batch_cnt > 0
      · simp only [if_pos hcnt, fft_flush]
        have hcnt' : 1 ≤ s.its.length := hcnt
        refine ⟨⟨by simpa using hb, by simp, fun _ => rfl, ?_, ?_,
          done ++ s.its, by simp [hpre], ?_⟩, trivial⟩
        · rw [(fft_log_append fft_batchlen _ _ _).1]
          rfl
        · rw [(fft_log_append fft_batchlen _ _ _).2, (fft_log_append fft_batchlen _ _ _).2,
            hchk]
          have hle : s.its.length ≤ fft_batchlen := le_of_lt hlt
          simp [fft_forwards_checked, fft_engine_after, FFTState.batch_cnt, hcnt', hle]
        · refine List.rel_append hdone ?_
          have hw := fft_write_items_forwarded F fft_batchlen s.prev_log2_fft_size
            s.its hsame hcnt' (le_of_lt hlt) s.its.length
          rw [List.take_of_length_le (le_refl _)] at hw
          exact hw
      · simp only [if_neg hcnt]
        have hnil : s.its = [] := by
          simpa [FFTState.batch_cnt, List.length_eq_zero] using hcnt
        refine ⟨⟨hlt, ?_, fun _ => rfl, ?_, ?_, done, hpre, hdone⟩, trivial⟩
        · intro it hit
          rw [hnil] at hit
          cases hit
        · rw [(fft_log_append fft_batchlen _ _ _).1]
          rfl
        · rw [(fft_log_append fft_batchlen _ _ _).2, hchk]
          rfl
    · have heq : s.prev_log2_fft_size = iin.log2_fft_size := by
        by_contra hc; exact hne hc
      simp only [if_neg hne]
      exact ⟨⟨hlt, hsame, heng, hlog, hchk, done, hpre, hdone⟩, heq⟩
  exact h1 _ h2.1 h2.2

theorem fft_engine_inv_foldl {α : Type}
    (F : Option (Nat × Nat) → List (Nat → α) → Nat → (Nat → α))
    (fft_batchlen : Nat) (hb : 1 ≤ fft_batchlen) (input pre : List (Item α))
    (hpos : ∀ it ∈ input, 1 ≤ it.log2_fft_size) (s : FFTState α)
    (h : fft_engine_inv F fft_batchlen pre s) :
    fft_engine_inv F fft_batchlen (pre ++ input)
      (input.foldl (fft_step F fft_batchlen) s) := by
  induction input generalizing pre s with
  | nil => simpa using h
  | cons iin rest ih =>
    have := ih (pre ++ [iin]) (fun it hit => hpos it (List.mem_cons_of_mem _ hit)) _
      (fft_engine_inv_step F fft_batchlen pre s iin hb
        (hpos iin (List.mem_cons_self _ _)) h)
    simpa using this

theorem fft_engine_inv_init {α : Type}
    (F : Option (Nat × Nat) → List (Nat → α) → Nat → (Nat → α))
    (fft_batchlen : Nat) (hb : 1 ≤ fft_batchlen) :
    fft_engine_inv F fft_batchlen ([] : List (Item α)) fft_init :=
  ⟨by simpa [fft_init] using hb, by simp [fft_init], by simp [fft_init], rfl, rfl,
    [], rfl, List.Forall₂.nil⟩

theorem fft_engine_agrees {α : Type}
    (FFT_forward : Option (Nat × Nat) → List (Nat → α) → Nat → (Nat → α))
    (fft_batchlen : Nat) (input : List (Item α)) (hb : 1 ≤ fft_batchlen)
    (hpos : ∀ it ∈ input, 1 ≤ it.log2_fft_size) :
    (∀ pre rest : List (Item α), input = pre ++ rest →
      (pre.foldl (fft_step FFT_forward fft_batchlen) fft_init).batch_cnt < fft_batchlen ∧
      ∀ it ∈ (pre.foldl (fft_step FFT_forward fft_batchlen) fft_init).its,
        it.log2_fft_size
          = (pre.foldl (fft_step FFT_forward fft_batchlen) fft_init).prev_log2_fft_size) ∧
    fft_forwards_checked fft_batchlen none (fft FFT_forward fft_batchlen input).calls
      = true ∧
    List.Forall₂ (fft_forwarded FFT_forward fft_batchlen) input
      (fft FFT_forward fft_batchlen input).qout := by
  refine ⟨?_, ?_⟩
  · intro pre rest hsplit
    have hpre : ∀ it ∈ pre, 1 ≤ it.log2_fft_size := fun it hit =>
      hpos it (by rw [hsplit]; exact List.mem_append_left _ hit)
    obtain ⟨hlt, hsame, -⟩ := fft_engine_inv_foldl FFT_forward fft_batchlen hb pre [] hpre _
      (fft_engine_inv_init FFT_forward fft_batchlen hb)
    exact ⟨hlt, hsame⟩
  · obtain ⟨hlt, hsame, heng, hlog, hchk, done, hpre, hdone⟩ :=
      fft_engine_inv_foldl FFT_forward fft_batchlen hb input [] hpos _
        (fft_engine_inv_init FFT_forward fft_batchlen hb)
    simp only [List.nil_append] at hpre
    unfold fft fft_exit
    generalize List.foldl (fft_step FFT_forward fft_batchlen) fft_init input = s
      at hpre hdone hlt hsame heng hlog hchk ⊢
    subst hpre
    by_cases hcnt : s.batch_cnt > 0
    · simp only [if_pos hcnt, fft_flush]
      have hcnt' : 1 ≤ s.its.length := hcnt
      have hle : s.its.length ≤ fft_batchlen := le_of_lt hlt
      constructor
      · rw [(fft_log_append fft_batchlen _ _ _).2, (fft_log_append fft_batchlen _ _ _).2,
          hchk]
        simp [fft_forwards_checked, fft_engine_after, FFTState.batch_cnt, hcnt', hle]
      · refine List.rel_append hdone ?_
        have hw := fft_write_items_forwarded FFT_forward fft_batchlen s.prev_log2_fft_size
          s.its hsame hcnt' hle s.its.length
        rw [List.take_of_length_le (le_refl _)] at hw
        exact hw
    · simp only [if_neg hcnt]
      have hnil : s.its = [] := by
        simpa [FFTState.batch_cnt, List.length_eq_zero] using hcnt
      constructor
      · rw [(fft_log_append fft_batchlen _ _ _).2, hchk]
        rfl
      · rw [hnil, List.append_nil]
        exact hdone

/-- With `fft_batchlen = 1` an Item of `log2_fft_size = 0` that comes first is transformed
by an engine that was never initialised: the size does not differ from the initial
`prev_log2_fft_size = 0`. -/
theorem fft_forward_without_engine :
    fft_forwards_checked 1 none
      (fft (fun _ ins i => ins.getD i (fun _ => (0 : ℚ))) 1
        [{ scenario1_item with log2_fft_size := 0 }]).calls = false := by
  decide

/-- C25. FFT engine and batch agree: with `fft_batchlen >= 1` and every input Item of `log2_fft_size >= 1`: between
Items the pending batch holds fewer than `fft_batchlen` Items, all of the size
`prev_log2_fft_size`; every `FFT_forward` in the log of library calls runs on a batch of
`1 .. fft_batchlen` Items while the latest `FFT_initialize` has `len` equal to the number
of Items of the batch; and every Item written was transformed by an `FFT_forward` whose
engine was initialised with the Item's own `log2_fft_size` and with the number of buffers
of its batch. -/
theorem fft_engine_batch_agreement {α : Type}
    (FFT_forward : Option (Nat × Nat) → List (Nat → α) → Nat → (Nat → α))
    (fft_batchlen : Nat) (input : List (Item α)) (hb : 1 ≤ fft_batchlen)
    (hpos : ∀ it ∈ input, 1 ≤ it.log2_fft_size) :
    (∀ pre rest : List (Item α), input = pre ++ rest →
      (pre.foldl (fft_step FFT_forward fft_batchlen) fft_init).batch_cnt < fft_batchlen ∧
      ∀ it ∈ (pre.foldl (fft_step FFT_forward fft_batchlen) fft_init).its,
        it.log2_fft_size
          = (pre.foldl (fft_step FFT_forward fft_batchlen) fft_init).prev_log2_fft_size) ∧
    fft_forwards_checked fft_batchlen none (fft FFT_forward fft_batchlen input).calls
      = true ∧
    List.Forall₂ (fft_forwarded FFT_forward fft_batchlen) input
      (fft FFT_forward fft_batchlen input).qout :=
  fft_engine_agrees FFT_forward fft_batchlen input hb hpos

/-- C25 at a concrete input: `mixed_size_items` with `fft_batchlen = 2`. -/
theorem fft_engine_batch_agreement_witness :
    (∀ pre rest : List (Item ℚ), mixed_size_items = pre ++ rest →
      (pre.foldl (fft_step (fun _ ins i => ins.getD i (fun _ => (0 : ℚ))) 2)
        fft_init).batch_cnt < 2 ∧
      ∀ it ∈ (pre.foldl (fft_step (fun _ ins i => ins.getD i (fun _ => (0 : ℚ))) 2)
          fft_init).its,
        it.log2_fft_size
          = (pre.foldl (fft_step (fun _ ins i => ins.getD i (fun _ => (0 : ℚ))) 2)
              fft_init).prev_log2_fft_size) ∧
    fft_forwards_checked 2 none
      (fft (fun _ ins i => ins.getD i (fun _ => (0 : ℚ))) 2 mixed_size_items).calls
      = true ∧
    List.Forall₂ (fft_forwarded (fun _ ins i => ins.getD i (fun _ => (0 : ℚ))) 2)
      mixed_size_items
      (fft (fun _ ins i => ins.getD i (fun _ => (0 : ℚ))) 2 mixed_size_items).qout :=
  fft_engine_batch_agreement (fun _ ins i => ins.getD i (fun _ => (0 : ℚ))) 2
    mixed_size_items (by decide) (by
      intro it hit
      simp only [mixed_size_items, List.mem_cons, List.mem_singleton, List.mem_nil_iff,
        or_false] at hit
      rcases hit with h | h | h <;> subst h <;> simp [scenario1_item])

/-- The log of library calls for `mixed_size_items` with `fft_batchlen = 2`. -/
theorem fft_calls_mixed_size :
    (fft (fun _ ins i => ins.getD i (fun _ => (0 : ℚ))) 2 mixed_size_items).calls
      = [FFTCall.release, FFTCall.init 4 2, FFTCall.forward 2,
         FFTCall.release, FFTCall.init 5 2,
         FFTCall.release, FFTCall.init 5 1, FFTCall.forward 1, FFTCall.release] := by
  decide

/-! ## Similarity history: what one callback changes -/

theorem ema_filter_recurrence {α : Type} [LinearOrderedField α] (N : Nat) (x : Nat → α) :
    (0 < N → ema_filter N x 0 = x 0) ∧
    ∀ n, n + 1 < N →
      ema_filter N x (n + 1) = (3 / 4 : α) * x (n + 1) + (1 / 4 : α) * ema_filter N x n := by
  constructor
  · intro h
    simp [ema_filter, h, ema_filter_value]
  · intro n hn
    have hn' : n < N := by omega
    simp only [ema_filter, if_pos hn, if_pos hn', ema_filter_value]
    norm_num

theorem hist_find_append_ne {α : Type} (hist : List (SimilarityHistEntry α))
    (e : SimilarityHistEntry α) (f : Nat) (hne : e.Fc ≠ f) :
    hist_find (hist ++ [e]) f = hist_find hist f := by
  unfold hist_find
  rw [List.find?_append]
  cases hist.find? (fun e => decide (e.Fc = f)) with
  | some e' => rfl
  | none => simp [hne]

theorem hist_modify_length {α : Type} (key : Nat)
    (g : SimilarityHistEntry α → SimilarityHistEntry α) (hist : List (SimilarityHistEntry α)) :
    (hist_modify key g hist).length = hist.length := by
  induction hist with
  | nil => rfl
  | cons e rest ih =>
    simp only [hist_modify]
    split_ifs
    · rfl
    · simp [ih]

theorem similarity_callback_effect {α : Type} [LinearOrderedField α] (sqrt : α → α)
    (hist : List (SimilarityHistEntry α)) (iout : Item α) :
    (hist_find hist iout.Fc = none →
      similarity_fft_callback sqrt hist iout
        = hist ++ [{ Fc := iout.Fc, similarity := 0,
                     previous_signal :=
                       ema_filter (1 <<< iout.log2_fft_size) iout.samples }]) ∧
    (∀ e, hist_find hist iout.Fc = some e →
      hist_find (similarity_fft_callback sqrt hist iout) iout.Fc
        = some { e with
            similarity := (3 / 4 : α) * similarity_estimation sqrt
                (1 <<< iout.log2_fft_size) e.previous_signal
                (ema_filter (1 <<< iout.log2_fft_size) iout.samples)
              + (1 / 4 : α) * e.similarity
            previous_signal := ema_filter (1 <<< iout.log2_fft_size) iout.samples } ∧
      (similarity_fft_callback sqrt hist iout).length = hist.length) ∧
    (∀ f, f ≠ iout.Fc →
      hist_find (similarity_fft_callback sqrt hist iout) f = hist_find hist f) := by
  refine ⟨fun hnone => ?_, fun e he => ?_, fun f hf => ?_⟩
  · simp [similarity_fft_callback, hnone]
  · have hc : similarity_fft_callback sqrt hist iout
        = hist_modify iout.Fc (fun e' =>
            { e' with
              similarity := ema_recursive e'.similarity
                (similarity_estimation sqrt (1 <<< iout.log2_fft_size) e.previous_signal
                  (ema_filter (1 <<< iout.log2_fft_size) iout.samples))
              previous_signal := ema_filter (1 <<< iout.log2_fft_size) iout.samples })
            hist := by
      simp [similarity_fft_callback, he]
    have key := hist_find_modify_eq hist iout.Fc (fun e' : SimilarityHistEntry α =>
        { e' with
          similarity := ema_recursive e'.similarity
            (similarity_estimation sqrt (1 <<< iout.log2_fft_size) e.previous_signal
              (ema_filter (1 <<< iout.log2_fft_size) iout.samples))
          previous_signal := ema_filter (1 <<< iout.log2_fft_size) iout.samples })
      (fun _ => rfl)
    rw [hc, hist_modify_length]
    refine ⟨?_, rfl⟩
    rw [key, he]
    simp only [Option.map_some', ema_recursive]
    congr 2
    norm_num
  · cases he : hist_find hist iout.Fc with
    | none =>
      have hc : similarity_fft_callback sqrt hist iout
          = hist ++ [{ Fc := iout.Fc, similarity := 0,
                       previous_signal :=
                         ema_filter (1 <<< iout.log2_fft_size) iout.samples }] := by
        simp [similarity_fft_callback, he]
      rw [hc]
      exact hist_find_append_ne hist _ f (fun h => hf h.symm)
    | some e =>
      have hc : similarity_fft_callback sqrt hist iout
          = hist_modify iout.Fc (fun e' =>
              { e' with
                similarity := ema_recursive e'.similarity
                  (similarity_estimation sqrt (1 <<< iout.log2_fft_size) e.previous_signal
                    (ema_filter (1 <<< iout.log2_fft_size) iout.samples))
                previous_signal := ema_filter (1 <<< iout.log2_fft_size) iout.samples })
              hist := by
        simp [similarity_fft_callback, he]
      rw [hc]
      exact hist_find_modify_ne hist iout.Fc f (fun e' : SimilarityHistEntry α =>
          { e' with
            similarity := ema_recursive e'.similarity
              (similarity_estimation sqrt (1 <<< iout.log2_fft_size) e.previous_signal
                (ema_filter (1 <<< iout.log2_fft_size) iout.samples))
            previous_signal := ema_filter (1 <<< iout.log2_fft_size) iout.samples })
        (fun _ => rfl) (fun h => hf h.symm)

/-- C27. History update by the post-FFT callback, in exact arithmetic: with `filtered` the
output of `ema_filter` over the Item's `fft_size` magnitudes, `filtered[0] = x[0]` and `filtered[n] = 0.75*x[n] + 0.25*filtered[n-1]`: if the
history has no entry for the Item's `Fc`, the callback appends one with similarity 0 and
`previous_signal = filtered`; if it has one, its similarity becomes
`0.75 * similarity_estimation(previous_signal, filtered) + 0.25 * (old similarity)`, its
`previous_signal` becomes `filtered` and no entry is added; the entries of all other
frequencies are unchanged. -/
theorem similarity_callback_update {α : Type} [LinearOrderedField α] (sqrt : α → α)
    (hist : List (SimilarityHistEntry α)) (iout : Item α) :
    (ema_filter (1 <<< iout.log2_fft_size) iout.samples 0 = iout.samples 0 ∧
      ∀ n, n + 1 < 1 <<< iout.log2_fft_size →
        ema_filter (1 <<< iout.log2_fft_size) iout.samples (n + 1)
          = (3 / 4 : α) * iout.samples (n + 1)
            + (1 / 4 : α) * ema_filter (1 <<< iout.log2_fft_size) iout.samples n) ∧
    (hist_find hist iout.Fc = none →
      similarity_fft_callback sqrt hist iout
        = hist ++ [{ Fc := iout.Fc, similarity := 0,
                     previous_signal :=
                       ema_filter (1 <<< iout.log2_fft_size) iout.samples }]) ∧
    (∀ e, hist_find hist iout.Fc = some e →
      hist_find (similarity_fft_callback sqrt hist iout) iout.Fc
        = some { e with
            similarity := (3 / 4 : α) * similarity_estimation sqrt
                (1 <<< iout.log2_fft_size) e.previous_signal
                (ema_filter (1 <<< iout.log2_fft_size) iout.samples)
              + (1 / 4 : α) * e.similarity
            previous_signal := ema_filter (1 <<< iout.log2_fft_size) iout.samples } ∧
      (similarity_fft_callback sqrt hist iout).length = hist.length) ∧
    (∀ f, f ≠ iout.Fc →
      hist_find (similarity_fft_callback sqrt hist iout) f = hist_find hist f) :=
  ⟨⟨(ema_filter_recurrence _ iout.samples).1
      (by rw [Nat.shiftLeft_eq]; positivity),
    (ema_filter_recurrence _ iout.samples).2⟩,
    similarity_callback_effect sqrt hist iout⟩

/-! ## Dumping: the span of the lines and the indices read -/

theorem dumping_freq_res_nonneg {α : Type} (iin : Item α) : 0 ≤ dumping_freq_res iin := by
  unfold dumping_freq_res
  positivity

theorem dumping_offset {α : Type} (iin : Item α) (i : Nat) :
    dumping_freq_hz iin i - (iin.Fc : ℚ)
      = ((i : ℚ) - ((dumping_reduced_fft_size iin / 2 : Nat) : ℚ)) * dumping_freq_res iin := by
  unfold dumping_freq_hz
  simp only [Int.cast_sub, Int.cast_natCast]
  ring

/-- C28 (as stated in the specification, refuted). The Item of scenario 1 has
`reduced_fft_size = 17`, which is odd,
and `t = 8`; the lowest offset is `-500000` Hz and the highest `+500000` Hz, of equal
magnitude, and the offsets are symmetric about `Fc`. -/
theorem dumping_odd_is_symmetric :
    dumping_reduced_fft_size scenario1_item = 17 ∧
    dumping_freq_hz scenario1_item 0 - (scenario1_item.Fc : ℚ) = -500000 ∧
    dumping_freq_hz scenario1_item 16 - (scenario1_item.Fc : ℚ) = 500000 ∧
    ∀ i, i < 17 →
      dumping_freq_hz scenario1_item (16 - i) - (scenario1_item.Fc : ℚ)
        = -(dumping_freq_hz scenario1_item i - (scenario1_item.Fc : ℚ)) := by
  have hR : dumping_reduced_fft_size scenario1_item = 17 := by
    norm_num [dumping_reduced_fft_size, scenario1_item, to_uint, UINT_MOD, Nat.shiftLeft_eq]
  have hres : dumping_freq_res scenario1_item = 62500 := by
    norm_num [dumping_freq_res, scenario1_item, UINT_MOD, Nat.shiftLeft_eq]
  refine ⟨hR, ?_, ?_, ?_⟩
  · rw [dumping_offset, hR, hres]; norm_num
  · rw [dumping_offset, hR, hres]; norm_num
  · intro i hi
    rw [dumping_offset, dumping_offset, hR, hres, Nat.cast_sub (by omega)]
    norm_num
    ring

/-- In exact arithmetic, for `0 < freq_overlap < 1` and `log2_fft_size < 32`, the dumping
stage reads inside the payload: `reduced_fft_size <= fft_size`. (The source forms
`1 - freq_overlap` in binary32: for a `freq_overlap` so small that it rounds to 1 the
program behaves as for `freq_overlap = 0`.) -/
theorem dumping_reads_in_payload {α : Type} (iin : Item α) (hlog : iin.log2_fft_size < 32)
    (h0 : 0 < iin.freq_overlap) (h1 : iin.freq_overlap < 1) :
    dumping_reduced_fft_size iin ≤ 1 <<< iin.log2_fft_size := by
  have hpow : 2 ^ iin.log2_fft_size < UINT_MOD := by
    unfold UINT_MOD
    exact Nat.pow_lt_pow_right (by norm_num) hlog
  unfold dumping_reduced_fft_size
  simp only [Nat.shiftLeft_eq, one_mul]
  rw [Nat.mod_eq_of_lt hpow]
  have h2 : 2 ^ iin.log2_fft_size + 1 ≤ UINT_MOD := hpow
  rcases Nat.lt_or_ge (2 ^ iin.log2_fft_size + 1) UINT_MOD with hlt | hge
  · rw [Nat.mod_eq_of_lt hlt]
    have hx : (1 - iin.freq_overlap) * ((2 ^ iin.log2_fft_size + 1 : Nat) : ℚ)
        < ((2 ^ iin.log2_fft_size + 1 : Nat) : ℚ) := by
      have hp : (0 : ℚ) < ((2 ^ iin.log2_fft_size + 1 : Nat) : ℚ) := by positivity
      nlinarith
    have hfl : ⌊(1 - iin.freq_overlap) * ((2 ^ iin.log2_fft_size + 1 : Nat) : ℚ)⌋₊
        < 2 ^ iin.log2_fft_size + 1 := by
      rw [Nat.floor_lt (by
        have hp : (0 : ℚ) ≤ ((2 ^ iin.log2_fft_size + 1 : Nat) : ℚ) := by positivity
        nlinarith)]
      exact hx
    unfold to_uint
    rw [Nat.mod_eq_of_lt (by omega)]
    omega
  · have : 2 ^ iin.log2_fft_size + 1 = UINT_MOD := by omega
    rw [this, Nat.mod_self]
    simp [to_uint]

/-- C30 (the code at the failing input). On `full_span_item` (`log2_fft_size = 8`, `freq_overlap = 0`, payload of
256 magnitudes): `reduced_fft_size` is 257, so 257 lines are written and the last one
prints `samples[256]`, an index that is not below `fft_size = 256`. -/
theorem dumping_reads_past_payload :
    full_span_item.freq_overlap = 0 ∧
    full_span_item.samples_size / SIZEOF_FLOAT = 1 <<< full_span_item.log2_fft_size ∧
    dumping_reduced_fft_size full_span_item = 257 ∧
    (dumping_item full_span_item).length = 257 ∧
    ((dumping_item full_span_item)[256]?).map (fun l => l.power)
      = some (full_span_item.samples 256) ∧
    ¬ (256 < 1 <<< full_span_item.log2_fft_size) := by
  have hR : dumping_reduced_fft_size full_span_item = 257 := by
    norm_num [dumping_reduced_fft_size, full_span_item, scenario1_item, to_uint, UINT_MOD,
      Nat.shiftLeft_eq]
  refine ⟨rfl, by decide, hR, ?_, ?_, by decide⟩
  · simp [dumping_item, hR]
  · simp [dumping_item, hR, List.getElem?_map, List.getElem?_range]

/-! ## Similarity strategy: the second sweep after a first sweep on a static input -/

theorem ema_filter_congr {α : Type} [Field α] (N : Nat) (x y : Nat → α)
    (h : ∀ j, j < N → x j = y j) : ema_filter N x = ema_filter N y := by
  have hv : ∀ i, i < N → ema_filter_value x i = ema_filter_value y i := by
    intro i
    induction i with
    | zero =>
      intro hi
      simp only [ema_filter_value]
      exact h 0 hi
    | succ i ih =>
      intro hi
      simp only [ema_filter_value]
      rw [h (i + 1) hi, ih (by omega)]
  funext i
  unfold ema_filter
  split_ifs with hi
  · exact hv i hi
  · rfl

theorem ema_filter_ne_zero {α : Type} [LinearOrderedField α] (N : Nat) (x : Nat → α)
    (hx : ∃ n, n < N ∧ x n ≠ 0) : ∃ n, n < N ∧ ema_filter N x n ≠ 0 := by
  by_contra hall
  push_neg at hall
  obtain ⟨n, hn, hne⟩ := hx
  apply hne
  have hrec := ema_filter_recurrence N x
  cases n with
  | zero =>
    rw [← hrec.1 hn]
    exact hall 0 hn
  | succ n =>
    have h1 := hrec.2 n hn
    rw [hall (n + 1) hn, hall n (by omega)] at h1
    linarith

theorem hist_find_append_self {α : Type} (hist : List (SimilarityHistEntry α))
    (e : SimilarityHistEntry α) (hnone : hist_find hist e.Fc = none) :
    hist_find (hist ++ [e]) e.Fc = some e := by
  unfold hist_find at hnone ⊢
  rw [List.find?_append, hnone]
  simp

/-- The history after the callbacks of a sweep in which all Items of one center frequency
carry the same non-zero payload: a frequency seen `m + 1` times has an entry of similarity
`100 * (1 - (1/4)^m)` that holds the filtered payload. -/
theorem similarity_callbacks_static (qout : List (Item ℝ)) :
    (∀ a ∈ qout, ∀ b ∈ qout, a.Fc = b.Fc →
      a.log2_fft_size = b.log2_fft_size ∧
      ∀ j, j < 1 <<< a.log2_fft_size → a.samples j = b.samples j) →
    (∀ a ∈ qout, 1 ≤ a.log2_fft_size ∧ a.log2_fft_size < 32 ∧
      ∃ n, n < 1 <<< a.log2_fft_size ∧ a.samples n ≠ 0) →
    ∀ f,
      ((qout.map Item.Fc).count f = 0 →
        hist_find (similarity_fft_callbacks Real.sqrt [] qout) f = none) ∧
      (∀ m, (qout.map Item.Fc).count f = m + 1 →
        ∃ e, hist_find (similarity_fft_callbacks Real.sqrt [] qout) f = some e ∧
          e.similarity = 100 * (1 - (1 / 4 : ℝ) ^ m) ∧
          ∀ a ∈ qout, a.Fc = f →
            e.previous_signal = ema_filter (1 <<< a.log2_fft_size) a.samples) := by
  induction qout using List.reverseRecOn with
  | nil =>
    intro _ _ f
    refine ⟨fun _ => rfl, fun m hm => ?_⟩
    simp at hm
  | append_singleton pre it ih =>
    intro hident hsig f
    have hident' : ∀ a ∈ pre, ∀ b ∈ pre, a.Fc = b.Fc →
        a.log2_fft_size = b.log2_fft_size ∧
        ∀ j, j < 1 <<< a.log2_fft_size → a.samples j = b.samples j :=
      fun a ha b hb => hident a (List.mem_append_left _ ha) b (List.mem_append_left _ hb)
    have hsig' : ∀ a ∈ pre, 1 ≤ a.log2_fft_size ∧ a.log2_fft_size < 32 ∧
        ∃ n, n < 1 <<< a.log2_fft_size ∧ a.samples n ≠ 0 :=
      fun a ha => hsig a (List.mem_append_left _ ha)
    have hit : it ∈ pre ++ [it] := List.mem_append_right _ (List.mem_singleton_self it)
    obtain ⟨ih0, ihm⟩ := ih hident' hsig' f
    have hfold : similarity_fft_callbacks Real.sqrt [] (pre ++ [it])
        = similarity_fft_callback Real.sqrt (similarity_fft_callbacks Real.sqrt [] pre) it := by
      simp [similarity_fft_callbacks, List.foldl_append]
    obtain ⟨hnew, hupd, hother⟩ := similarity_callback_effect Real.sqrt
      (similarity_fft_callbacks Real.sqrt [] pre) it
    have hcount : ((pre ++ [it]).map Item.Fc).count f
        = (pre.map Item.Fc).count f + (if it.Fc = f then 1 else 0) := by
      rw [List.map_append, List.count_append]
      congr 1
      by_cases h : it.Fc = f
      · simp [h]
      · simp only [List.map_cons, List.map_nil, if_neg h]
        exact List.count_eq_zero_of_not_mem (by simpa using fun h' => h h'.symm)
    rw [hfold, hcount]
    by_cases hf : it.Fc = f
    · subst hf
      simp only [if_true]
      refine ⟨fun h => absurd h (by omega), fun m hm => ?_⟩
      cases m with
      | zero =>
        have hc0 : (pre.map Item.Fc).count it.Fc = 0 := by omega
        have hnone := ih0 hc0
        rw [hnew hnone]
        refine ⟨_, hist_find_append_self _ _ hnone, by norm_num, ?_⟩
        intro a ha hfa
        rcases List.mem_append.mp ha with hp | hp
        · exfalso
          have : 0 < (pre.map Item.Fc).count it.Fc :=
            List.count_pos_iff.mpr (hfa ▸ List.mem_map_of_mem Item.Fc hp)
          omega
        · rw [List.mem_singleton.mp hp]
      | succ m =>
        have hcm : (pre.map Item.Fc).count it.Fc = m + 1 := by omega
        obtain ⟨e, he, hsim, hprev⟩ := ihm m hcm
        obtain ⟨a, ha, hfa⟩ : ∃ a ∈ pre, a.Fc = it.Fc := by
          have hpos : 0 < (pre.map Item.Fc).count it.Fc := by omega
          obtain ⟨a, ha, hfa⟩ := List.mem_map.mp (List.count_pos_iff.mp hpos)
          exact ⟨a, ha, hfa⟩
        obtain ⟨hlog, hsame⟩ := hident it hit a (List.mem_append_left _ ha) hfa.symm
        obtain ⟨h1, h32, hne⟩ := hsig it hit
        have hfilt : e.previous_signal
            = ema_filter (1 <<< it.log2_fft_size) it.samples := by
          rw [hprev a ha hfa, ← hlog]
          exact (ema_filter_congr _ _ _ hsame).symm
        have hN2 : 2 ≤ 1 <<< it.log2_fft_size := by
          rw [Nat.shiftLeft_eq, one_mul]
          calc 2 = 2 ^ 1 := rfl
            _ ≤ 2 ^ it.log2_fft_size := Nat.pow_le_pow_right (by norm_num) h1
        have hNfit : 1 <<< it.log2_fft_size < UINT_MOD := by
          rw [Nat.shiftLeft_eq, one_mul]
          unfold UINT_MOD
          exact Nat.pow_lt_pow_right (by norm_num) h32
        have hest := (self_similarity_value (1 <<< it.log2_fft_size)
          (ema_filter (1 <<< it.log2_fft_size) it.samples) hN2 hNfit
          (ema_filter_ne_zero _ _ hne)).2.2.2
        obtain ⟨hfind, -⟩ := hupd e he
        rw [hfind]
        refine ⟨_, rfl, ?_, ?_⟩
        · simp only []
          rw [hfilt, hest, hsim]
          ring
        · intro b hb hfb
          simp only []
          rcases List.mem_append.mp hb with hp | hp
          · obtain ⟨hlog', hsame'⟩ :=
              hident it hit b (List.mem_append_left _ hp) hfb.symm
            rw [← hlog']
            exact ema_filter_congr _ _ _ hsame'
          · rw [List.mem_singleton.mp hp]
    · simp only [if_neg hf, Nat.add_zero]
      rw [hother f (fun h => hf h.symm)]
      refine ⟨ih0, fun m hm => ?_⟩
      obtain ⟨e, he, hsim, hprev⟩ := ihm m hm
      refine ⟨e, he, hsim, ?_⟩
      intro a ha hfa
      rcases List.mem_append.mp ha with hp | hp
      · exact hprev a hp hfa
      · exact absurd ((List.mem_singleton.mp hp) ▸ hfa) hf

/-- In exact arithmetic an entry of similarity at least `100 * (1 - (1/4)^7) = 409575/4096`
has a skip threshold above 99.9, the largest draw: its frequency is skipped for every
value of `rand()`. -/
theorem probabilistic_tun_high (s : ℝ) (hs : 409575 / 4096 ≤ s) (rand_value : Nat) :
    (999 / 10 : ℝ) < tun_threshold Real.exp Real.log s ∧
    probabilistic_tun Real.exp Real.log rand_value s = false := by
  have hL : 0 < Real.log 1000000 := Real.log_pos (by norm_num)
  have hpow : (1000000 : ℝ) < (1000 / 999) ^ 16384 := by norm_num
  have hlog : Real.log 1000000 < 16384 * Real.log (1000 / 999) := by
    have h := Real.log_lt_log (by norm_num) hpow
    rw [Real.log_pow] at h
    exact_mod_cast h
  have ht : Real.exp (Real.log 1000000 / 16384) < 1000 / 999 := by
    calc Real.exp (Real.log 1000000 / 16384)
        < Real.exp (Real.log (1000 / 999)) := Real.exp_lt_exp.mpr (by linarith)
      _ = 1000 / 999 := Real.exp_log (by norm_num)
  have htpos : 0 < Real.exp (Real.log 1000000 / 16384) := Real.exp_pos _
  have hexp : Real.exp (Real.log 1000000 * (409575 / 4096) / 100)
      = 1000000 / Real.exp (Real.log 1000000 / 16384) := by
    rw [show Real.log 1000000 * (409575 / 4096) / 100
        = Real.log 1000000 - Real.log 1000000 / 16384 by ring,
      Real.exp_sub, Real.exp_log (by norm_num)]
  have hmono : Real.exp (Real.log 1000000 * (409575 / 4096) / 100)
      ≤ Real.exp (Real.log 1000000 * s / 100) := by
    apply Real.exp_le_exp.mpr
    have := mul_le_mul_of_nonneg_left hs hL.le
    linarith
  have hbig : (999000 : ℝ) < Real.exp (Real.log 1000000 * (409575 / 4096) / 100) := by
    rw [hexp, lt_div_iff₀ htpos]
    nlinarith
  have hthr : (999 / 10 : ℝ) < tun_threshold Real.exp Real.log s := by
    unfold tun_threshold
    linarith
  have hr : tun_draw rand_value ≤ (999 / 10 : ℝ) := by
    unfold tun_draw
    have h : rand_value % 1000 ≤ 999 := by omega
    have h' : ((rand_value % 1000 : Nat) : ℝ) ≤ 999 := by exact_mod_cast h
    linarith
  refine ⟨hthr, ?_⟩
  unfold probabilistic_tun
  rw [decide_eq_false_iff_not]
  intro hge
  linarith [hge.le]

/-- The candidate loop over pairwise different candidates whose entries all stand at
`409575/4096` or more: every candidate is skipped, whatever `rand()` returns. -/
theorem similarity_fold_all_skipped (keys : List Nat) (s : SimilaritySelection ℝ)
    (hnodup : keys.Nodup)
    (hkeys : ∀ k ∈ keys, ∃ e, hist_find s.hist k = some e ∧ 409575 / 4096 ≤ e.similarity) :
    (keys.foldl (similarity_select Real.exp Real.log) s).center_freqs = s.center_freqs := by
  induction keys generalizing s with
  | nil => rfl
  | cons k rest ih =>
    obtain ⟨e, hfind, hsim⟩ := hkeys k (List.mem_cons_self _ _)
    have htun := (probabilistic_tun_high e.similarity hsim (s.rand 0)).2
    have hstep : similarity_select Real.exp Real.log s k =
        { s with
          rand := fun n => s.rand (n + 1)
          hist := hist_modify k
            (fun e => { e with similarity := e.similarity / similarity_reduction })
            s.hist } := by
      simp [similarity_select, hfind, htun]
    rw [List.nodup_cons] at hnodup
    rw [List.foldl_cons, hstep, ih _ hnodup.2]
    intro k' hk'
    have hne : k ≠ k' := fun h => hnodup.1 (h ▸ hk')
    obtain ⟨e', hfind', hsim'⟩ := hkeys k' (List.mem_cons_of_mem _ hk')
    refine ⟨e', ?_, hsim'⟩
    show hist_find (hist_modify k
      (fun e : SimilarityHistEntry ℝ =>
        { e with similarity := e.similarity / similarity_reduction }) s.hist) k' = some e'
    rw [hist_find_modify_ne s.hist k k'
      (fun e : SimilarityHistEntry ℝ =>
        { e with similarity := e.similarity / similarity_reduction })
      (fun _ => rfl) hne]
    exact hfind'

/-- The candidate loop over candidates whose entries all stand at 0, for a `rand()` stream
without a draw that is a multiple of 1000: every candidate is included and the history is
left as it is. -/
theorem similarity_fold_all_included (keys : List Nat) (s : SimilaritySelection ℝ)
    (hkeys : ∀ k ∈ keys, ∃ e, hist_find s.hist k = some e ∧ e.similarity = 0)
    (hrand : ∀ n, s.rand n % 1000 ≠ 0) :
    (keys.foldl (similarity_select Real.exp Real.log) s).center_freqs
      = s.center_freqs ++ keys ∧
    (keys.foldl (similarity_select Real.exp Real.log) s).hist = s.hist := by
  induction keys generalizing s with
  | nil => simp
  | cons k rest ih =>
    obtain ⟨e, hfind, hsim⟩ := hkeys k (List.mem_cons_self _ _)
    have htun : probabilistic_tun Real.exp Real.log (s.rand 0) e.similarity = true := by
      rw [hsim]
      exact (probabilistic_tun_zero _).mpr (hrand 0)
    have hstep : similarity_select Real.exp Real.log s k =
        { s with rand := fun n => s.rand (n + 1), center_freqs := s.center_freqs ++ [k] } := by
      simp [similarity_select, hfind, htun]
    rw [List.foldl_cons, hstep]
    obtain ⟨h1, h2⟩ := ih
      { s with rand := fun n => s.rand (n + 1), center_freqs := s.center_freqs ++ [k] }
      (fun k' hk' => hkeys k' (List.mem_cons_of_mem _ hk')) (fun n => hrand (n + 1))
    exact ⟨by rw [h1]; simp, h2⟩

theorem similarity_static_second_sweep (ctx : SpectrumMonitoringCTX) (p : HoppingPlan)
    (qout : List (Item ℝ))
    (hident : ∀ a ∈ qout, ∀ b ∈ qout, a.Fc = b.Fc →
      a.log2_fft_size = b.log2_fft_size ∧
      ∀ j, j < 1 <<< a.log2_fft_size → a.samples j = b.samples j)
    (hsig : ∀ a ∈ qout, 1 ≤ a.log2_fft_size ∧ a.log2_fft_size < 32 ∧
      ∃ n, n < 1 <<< a.log2_fft_size ∧ a.samples n ≠ 0)
    (hnodup : (similarity_candidates ctx p).Nodup) :
    (∀ f ∈ qout.map Item.Fc,
      ∃ e, hist_find (similarity_fft_callbacks Real.sqrt [] qout) f = some e ∧
        e.similarity = 100 * (1 - (1 / 4 : ℝ) ^ ((qout.map Item.Fc).count f - 1)) ∧
        e.similarity < 100) ∧
    ((∀ f ∈ similarity_candidates ctx p, 8 ≤ (qout.map Item.Fc).count f) →
      ∀ rand : Nat → Nat,
        (similarity_hopping_strategy Real.exp Real.log ctx
          { hist := similarity_fft_callbacks Real.sqrt [] qout, rand := rand,
            plan := p }).plan.center_freqs = [] ∧
        (similarity_hopping_strategy Real.exp Real.log ctx
          { hist := similarity_fft_callbacks Real.sqrt [] qout, rand := rand,
            plan := p }).plan.length = 0) ∧
    ((∀ f ∈ similarity_candidates ctx p, (qout.map Item.Fc).count f = 1) →
      ∀ rand : Nat → Nat, (∀ n, rand n % 1000 ≠ 0) →
        (similarity_hopping_strategy Real.exp Real.log ctx
          { hist := similarity_fft_callbacks Real.sqrt [] qout, rand := rand,
            plan := p }).plan.center_freqs = similarity_candidates ctx p ∧
        (similarity_hopping_strategy Real.exp Real.log ctx
          { hist := similarity_fft_callbacks Real.sqrt [] qout, rand := rand,
            plan := p }).plan.length = (similarity_candidates ctx p).length ∧
        (similarity_hopping_strategy Real.exp Real.log ctx
          { hist := similarity_fft_callbacks Real.sqrt [] qout, rand := rand,
            plan := p }).hist = similarity_fft_callbacks Real.sqrt [] qout) := by
  have hentry : ∀ f m, (qout.map Item.Fc).count f = m + 1 →
      ∃ e, hist_find (similarity_fft_callbacks Real.sqrt [] qout) f = some e ∧
        e.similarity = 100 * (1 - (1 / 4 : ℝ) ^ m) := by
    intro f m hm
    obtain ⟨e, he, hsim, -⟩ := (similarity_callbacks_static qout hident hsig f).2 m hm
    exact ⟨e, he, hsim⟩
  refine ⟨?_, ?_, ?_⟩
  · intro f hf
    have hpos : 0 < (qout.map Item.Fc).count f := List.count_pos_iff.mpr hf
    obtain ⟨e, he, hsim⟩ := hentry f ((qout.map Item.Fc).count f - 1) (by omega)
    refine ⟨e, he, hsim, ?_⟩
    rw [hsim]
    have : (0 : ℝ) < (1 / 4 : ℝ) ^ ((qout.map Item.Fc).count f - 1) := by positivity
    linarith
  · intro h8 rand
    have hkeys : ∀ k ∈ similarity_candidates ctx p,
        ∃ e, hist_find (similarity_fft_callbacks Real.sqrt [] qout) k = some e ∧
          409575 / 4096 ≤ e.similarity := by
      intro k hk
      have hc := h8 k hk
      obtain ⟨e, he, hsim⟩ := hentry k ((qout.map Item.Fc).count k - 1) (by omega)
      refine ⟨e, he, ?_⟩
      rw [hsim]
      have hle : (1 / 4 : ℝ) ^ ((qout.map Item.Fc).count k - 1) ≤ (1 / 4 : ℝ) ^ 7 :=
        pow_le_pow_of_le_one (by norm_num) (by norm_num) (by omega)
      norm_num at hle ⊢
      linarith
    have hfold := similarity_fold_all_skipped (similarity_candidates ctx p)
      { hist := similarity_fft_callbacks Real.sqrt [] qout, rand := rand, center_freqs := [] }
      hnodup hkeys
    simp only [similarity_hopping_strategy, hfold, List.length_nil, and_self]
  · intro h1 rand hrand
    have hkeys : ∀ k ∈ similarity_candidates ctx p,
        ∃ e, hist_find (similarity_fft_callbacks Real.sqrt [] qout) k = some e ∧
          e.similarity = 0 := by
      intro k hk
      obtain ⟨e, he, hsim⟩ := hentry k 0 (by rw [h1 k hk])
      exact ⟨e, he, by rw [hsim]; norm_num⟩
    obtain ⟨hc, hh⟩ := similarity_fold_all_included (similarity_candidates ctx p)
      { hist := similarity_fft_callbacks Real.sqrt [] qout, rand := rand, center_freqs := [] }
      hkeys hrand
    simp only [similarity_hopping_strategy, hc, hh, List.nil_append, and_self]

theorem static_sweep_items_mem (a : Item ℝ) (ha : a ∈ (static_sweep_items : List (Item ℝ))) :
    a.log2_fft_size = 4 ∧ a.samples = (fun (n : Nat) => (n : ℝ)) ∧
    (a.Fc = 100500000 ∨ a.Fc = 101500000) := by
  simp only [static_sweep_items, List.mem_flatMap, List.mem_map] at ha
  obtain ⟨f, hf, j, -, rfl⟩ := ha
  refine ⟨rfl, rfl, ?_⟩
  simpa using hf

theorem static_sweep_items_count :
    ((static_sweep_items : List (Item ℝ)).map Item.Fc).count 100500000 = 8 ∧
    ((static_sweep_items : List (Item ℝ)).map Item.Fc).count 101500000 = 8 := by
  constructor <;> decide

theorem similarity_candidates_static_sweep :
    similarity_candidates static_sweep_ctx plan_init = [100500000, 101500000] := by
  have hl : hopping_length static_sweep_ctx = 2 := by
    norm_num [hopping_length, hopping_freq_step, static_sweep_ctx, scenario1_ctx, to_uint,
      UINT_MOD, usub]
  have hc : sequential_center_freqs static_sweep_ctx 2 = [100500000, 101500000] := by
    norm_num [sequential_center_freqs, center_freqs_loop, hopping_freq_step, static_sweep_ctx,
      scenario1_ctx, to_uint, UINT_MOD]
  simp only [similarity_candidates, similarity_full_plan, plan_init, le_refl, if_true, hl, hc]
  decide

/-- The second sweep of scenario 1 with `avg_factor = 8` on a static input: both entries
stand at `409575/4096`, and the working plan is empty whatever `rand()` returns. -/
theorem similarity_static_sweep_plan_empty (rand : Nat → Nat) :
    (∀ f ∈ similarity_candidates static_sweep_ctx plan_init,
      ∃ e, hist_find (similarity_fft_callbacks Real.sqrt [] static_sweep_items) f = some e ∧
        e.similarity = 409575 / 4096) ∧
    (similarity_hopping_strategy Real.exp Real.log static_sweep_ctx
      { hist := similarity_fft_callbacks Real.sqrt [] static_sweep_items, rand := rand,
        plan := plan_init }).plan.length = 0 := by
  have h := similarity_static_second_sweep static_sweep_ctx plan_init static_sweep_items
    (by
      intro a ha b hb _
      obtain ⟨ha1, ha2, -⟩ := static_sweep_items_mem a ha
      obtain ⟨hb1, hb2, -⟩ := static_sweep_items_mem b hb
      exact ⟨by rw [ha1, hb1], fun j _ => by rw [ha2, hb2]⟩)
    (by
      intro a ha
      obtain ⟨ha1, ha2, -⟩ := static_sweep_items_mem a ha
      rw [ha1, ha2]
      exact ⟨by decide, by decide, 1, by decide, by norm_num⟩)
    (by
      rw [similarity_candidates_static_sweep]
      decide)
  have h8 : ∀ f ∈ similarity_candidates static_sweep_ctx plan_init,
      ((static_sweep_items : List (Item ℝ)).map Item.Fc).count f = 8 := by
    intro f hf
    rw [similarity_candidates_static_sweep] at hf
    simp only [List.mem_cons, List.mem_singleton, List.mem_nil_iff, or_false] at hf
    rcases hf with rfl | rfl
    · exact static_sweep_items_count.1
    · exact static_sweep_items_count.2
  refine ⟨?_, (h.2.1 (fun f hf => le_of_eq (h8 f hf).symm) rand).2⟩
  intro f hf
  have hmem : f ∈ (static_sweep_items : List (Item ℝ)).map Item.Fc :=
    List.count_pos_iff.mp (by rw [h8 f hf]; decide)
  obtain ⟨e, he, hsim, -⟩ := h.1 f hmem
  refine ⟨e, he, ?_⟩
  rw [hsim, h8 f hf]
  norm_num

/-! ## Dumping: the span of the lines, in exact arithmetic -/

theorem dumping_freq_hz_eq_line {α : Type} (iin : Item α) (i : Nat) :
    dumping_freq_hz iin i
      = dumping_line_hz iin.Fc (dumping_reduced_fft_size iin) (dumping_freq_res iin) i :=
  rfl

theorem dumping_line_span (center_freq reduced_fft_size : Nat) (freq_res : ℚ)
    (h0 : 0 < reduced_fft_size) (hres : 0 < freq_res) :
    (dumping_line_hz center_freq reduced_fft_size freq_res 0
        = (center_freq : ℚ) - ((reduced_fft_size / 2 : Nat) : ℚ) * freq_res ∧
      ∀ i, 0 < i → i < reduced_fft_size →
        dumping_line_hz center_freq reduced_fft_size freq_res 0
          < dumping_line_hz center_freq reduced_fft_size freq_res i) ∧
    (∀ i, i < reduced_fft_size →
      dumping_line_hz center_freq reduced_fft_size freq_res i - (center_freq : ℚ)
        = ((i : ℚ) - ((reduced_fft_size / 2 : Nat) : ℚ)) * freq_res) ∧
    (reduced_fft_size % 2 = 1 →
      dumping_line_hz center_freq reduced_fft_size freq_res (reduced_fft_size - 1)
          - (center_freq : ℚ)
        = ((reduced_fft_size / 2 : Nat) : ℚ) * freq_res ∧
      ∀ i, i < reduced_fft_size →
        dumping_line_hz center_freq reduced_fft_size freq_res (reduced_fft_size - 1 - i)
            - (center_freq : ℚ)
          = -(dumping_line_hz center_freq reduced_fft_size freq_res i - (center_freq : ℚ))) ∧
    (reduced_fft_size % 2 = 0 →
      dumping_line_hz center_freq reduced_fft_size freq_res (reduced_fft_size - 1)
          - (center_freq : ℚ)
        = (((reduced_fft_size / 2 : Nat) : ℚ) - 1) * freq_res ∧
      dumping_line_hz center_freq reduced_fft_size freq_res (reduced_fft_size - 1)
          - (center_freq : ℚ)
        ≠ -(dumping_line_hz center_freq reduced_fft_size freq_res 0 - (center_freq : ℚ))) := by
  have hoff : ∀ i, dumping_line_hz center_freq reduced_fft_size freq_res i - (center_freq : ℚ)
      = ((i : ℚ) - ((reduced_fft_size / 2 : Nat) : ℚ)) * freq_res := by
    intro i
    unfold dumping_line_hz
    simp only [Int.cast_sub, Int.cast_natCast]
    ring
  have hval : ∀ i, dumping_line_hz center_freq reduced_fft_size freq_res i
      = (center_freq : ℚ) + ((i : ℚ) - ((reduced_fft_size / 2 : Nat) : ℚ)) * freq_res := by
    intro i
    rw [← hoff i]
    ring
  refine ⟨⟨?_, ?_⟩, fun i _ => hoff i, ?_, ?_⟩
  · rw [hval 0]
    push_cast
    ring
  · intro i hi _
    rw [hval 0, hval i]
    have : (0 : ℚ) < (i : ℚ) := by exact_mod_cast hi
    push_cast
    nlinarith
  · intro hodd
    have hRt : reduced_fft_size = 2 * (reduced_fft_size / 2) + 1 := by omega
    generalize reduced_fft_size / 2 = t at hRt hoff
    subst hRt
    refine ⟨?_, ?_⟩
    · rw [hoff]
      have : 2 * t + 1 - 1 = 2 * t := by omega
      rw [this]
      push_cast
      ring
    · intro i hi
      rw [hoff, hoff]
      have : 2 * t + 1 - 1 - i = 2 * t - i := by omega
      rw [this, Nat.cast_sub (by omega)]
      push_cast
      ring
  · intro heven
    have hRt : reduced_fft_size = 2 * (reduced_fft_size / 2) := by omega
    have ht : 1 ≤ reduced_fft_size / 2 := by omega
    generalize reduced_fft_size / 2 = t at hRt hoff ht
    subst hRt
    have hlast : dumping_line_hz center_freq (2 * t) freq_res (2 * t - 1) - (center_freq : ℚ)
        = ((t : ℚ) - 1) * freq_res := by
      rw [hoff, Nat.cast_sub (by omega)]
      push_cast
      ring
    refine ⟨hlast, ?_⟩
    rw [hlast, hoff]
    push_cast
    intro heq
    nlinarith

theorem dumping_even_lines_item :
    dumping_reduced_fft_size even_lines_item = 16 ∧
    dumping_freq_res even_lines_item = 128000 := by
  have h : ⌊((1 : ℚ) - 1 / 20) * 17⌋₊ = 16 := by
    rw [Nat.floor_eq_iff (by norm_num)]
    norm_num
  constructor
  · norm_num [dumping_reduced_fft_size, even_lines_item, scenario1_item, to_uint, UINT_MOD,
      Nat.shiftLeft_eq]
    norm_num at h
    rw [h]
  · norm_num [dumping_freq_res, even_lines_item, scenario1_item, UINT_MOD, Nat.shiftLeft_eq]

/-- C28 (amended). Dumping asymmetry, in exact arithmetic, that is for the value of
`center_freq - (t-i)*freq_res` before the roundings of binary32 and the conversion to
`uint32_t`, and for whatever `reduced_fft_size >= 1` and `freq_res > 0` the stage has
computed: the lowest line, line 0, is at `Fc - t * freq_res` with
`t = reduced_fft_size / 2` and the offset of line `i` is `(i - t) * freq_res`. When
`reduced_fft_size` is odd the offsets are symmetric about `Fc`: the highest is
`+t * freq_res` and the offset of line `reduced_fft_size - 1 - i` is minus that of line
`i`. When `reduced_fft_size` is even the highest offset is `(t - 1) * freq_res`, which
differs in magnitude from the lowest: the offsets are asymmetric. -/
theorem dumping_asymmetry (center_freq reduced_fft_size : Nat) (freq_res : ℚ)
    (h0 : 0 < reduced_fft_size) (hres : 0 < freq_res) :
    (dumping_line_hz center_freq reduced_fft_size freq_res 0
        = (center_freq : ℚ) - ((reduced_fft_size / 2 : Nat) : ℚ) * freq_res ∧
      ∀ i, 0 < i → i < reduced_fft_size →
        dumping_line_hz center_freq reduced_fft_size freq_res 0
          < dumping_line_hz center_freq reduced_fft_size freq_res i) ∧
    (∀ i, i < reduced_fft_size →
      dumping_line_hz center_freq reduced_fft_size freq_res i - (center_freq : ℚ)
        = ((i : ℚ) - ((reduced_fft_size / 2 : Nat) : ℚ)) * freq_res) ∧
    (reduced_fft_size % 2 = 1 →
      dumping_line_hz center_freq reduced_fft_size freq_res (reduced_fft_size - 1)
          - (center_freq : ℚ)
        = ((reduced_fft_size / 2 : Nat) : ℚ) * freq_res ∧
      ∀ i, i < reduced_fft_size →
        dumping_line_hz center_freq reduced_fft_size freq_res (reduced_fft_size - 1 - i)
            - (center_freq : ℚ)
          = -(dumping_line_hz center_freq reduced_fft_size freq_res i - (center_freq : ℚ))) ∧
    (reduced_fft_size % 2 = 0 →
      dumping_line_hz center_freq reduced_fft_size freq_res (reduced_fft_size - 1)
          - (center_freq : ℚ)
        = (((reduced_fft_size / 2 : Nat) : ℚ) - 1) * freq_res ∧
      dumping_line_hz center_freq reduced_fft_size freq_res (reduced_fft_size - 1)
          - (center_freq : ℚ)
        ≠ -(dumping_line_hz center_freq reduced_fft_size freq_res 0 - (center_freq : ℚ))) :=
  dumping_line_span center_freq reduced_fft_size freq_res h0 hres

/-- C28 (amended) at a concrete input: `Fc = 100500000`, `reduced_fft_size = 16` and
`freq_res = 128000`, the values of `even_lines_item`. The sixteen lines run from
99476000 Hz to 101396000 Hz; all sixteen values are multiples of 8 below `2^27`, so
binary32 holds them exactly. -/
theorem dumping_asymmetry_witness :
    dumping_reduced_fft_size even_lines_item = 16 ∧
    dumping_freq_res even_lines_item = 128000 ∧
    dumping_line_hz 100500000 16 128000 0 = 99476000 ∧
    dumping_line_hz 100500000 16 128000 15 = 101396000 ∧
    dumping_line_hz 100500000 16 128000 (16 - 1) - ((100500000 : Nat) : ℚ)
      ≠ -(dumping_line_hz 100500000 16 128000 0 - ((100500000 : Nat) : ℚ)) :=
  ⟨dumping_even_lines_item.1, dumping_even_lines_item.2,
    by norm_num [dumping_line_hz], by norm_num [dumping_line_hz],
    ((dumping_asymmetry 100500000 16 128000 (by decide) (by norm_num)).2.2.2
      (by decide)).2⟩

end Sensor
